import Mathlib

/-!
# SpotiFLAC download core: filename builder, provider strategies, orchestrator

A shallow embedding of `backend/filename.go`, of the file-name and
post-processing parts of the four provider strategies
(`backend/tidal.go`, `backend/qobuz.go`, `backend/amazon.go`,
`backend/deezer.go`) and of `App.DownloadTrack` (`app.go`).

A Go `string` is an immutable byte sequence; it is embedded as the list of
its bytes (`GoString`).  Runes are natural numbers (code points).  The Go
library functions the code calls (`strings`, `regexp`, `unicode`,
`unicode/utf8`, `fmt`) are embedded as functions on these lists, each
following the behaviour documented for the library function.
-/

namespace SpotiFLAC

/-! ## Go strings and the library functions used by the code -/

/-- A Go string: its bytes, in order. -/
abbrev GoString := List Nat

/-- The constant `utf8.RuneError` (U+FFFD). -/
def utf8.RuneError : Nat := 0xFFFD

/-- The constant `utf8.MaxRune` (U+10FFFF). -/
def utf8.MaxRune : Nat := 0x10FFFF

/-- The function `utf8.AppendRune` on an empty buffer: the UTF-8 encoding of
`r`; a surrogate or a value above `MaxRune` is written as `RuneError`.
Shifts and masks are written as division and remainder. -/
def utf8.AppendRune (r : Nat) : GoString :=
  if r < 0x80 then [r]
  else if r < 0x800 then [0xC0 + r / 64, 0x80 + r % 64]
  else if (0xD800 ≤ r ∧ r ≤ 0xDFFF) ∨ utf8.MaxRune < r then [0xEF, 0xBF, 0xBD]
  else if r < 0x10000 then [0xE0 + r / 4096, 0x80 + r / 64 % 64, 0x80 + r % 64]
  else [0xF0 + r / 262144, 0x80 + r / 4096 % 64, 0x80 + r / 64 % 64, 0x80 + r % 64]

/-- A string literal of the source, as the bytes of its UTF-8 encoding. -/
def lit (s : String) : GoString :=
  s.data.flatMap fun c => utf8.AppendRune c.toNat

/-- Whether `b` is a UTF-8 continuation byte (`locb <= b <= hicb`). -/
def utf8.isCont (b : Nat) : Bool := 0x80 ≤ b && b ≤ 0xBF

/-- The function `utf8.DecodeRuneInString`: the first rune of `s` and its
width in bytes; `(RuneError, 0)` for the empty string and `(RuneError, 1)`
for an invalid encoding.  The `first` and `acceptRanges` tables of the
library are written as ranges of the lead byte. -/
def utf8.DecodeRuneInString : GoString → Nat × Nat
  | [] => (utf8.RuneError, 0)
  | s0 :: t =>
    if s0 < 0x80 then (s0, 1)
    else if s0 < 0xC2 then (utf8.RuneError, 1)
    else if s0 < 0xE0 then
      match t with
      | s1 :: _ =>
        if utf8.isCont s1 then (s0 % 32 * 64 + s1 % 64, 2) else (utf8.RuneError, 1)
      | _ => (utf8.RuneError, 1)
    else if s0 < 0xF0 then
      match t with
      | s1 :: s2 :: _ =>
        if (if s0 = 0xE0 then 0xA0 else 0x80) ≤ s1 ∧ s1 ≤ (if s0 = 0xED then 0x9F else 0xBF) then
          if utf8.isCont s2 then (s0 % 16 * 4096 + s1 % 64 * 64 + s2 % 64, 3)
          else (utf8.RuneError, 1)
        else (utf8.RuneError, 1)
      | _ => (utf8.RuneError, 1)
    else if s0 < 0xF5 then
      match t with
      | s1 :: s2 :: s3 :: _ =>
        if (if s0 = 0xF0 then 0x90 else 0x80) ≤ s1 ∧ s1 ≤ (if s0 = 0xF4 then 0x8F else 0xBF) then
          if utf8.isCont s2 then
            if utf8.isCont s3 then
              (s0 % 8 * 262144 + s1 % 64 * 4096 + s2 % 64 * 64 + s3 % 64, 4)
            else (utf8.RuneError, 1)
          else (utf8.RuneError, 1)
        else (utf8.RuneError, 1)
      | _ => (utf8.RuneError, 1)
    else (utf8.RuneError, 1)

/-- The runes a `for _, r := range s` loop yields, in order: each step
decodes one rune and advances by its width (one byte on an invalid
encoding).  `fuel` bounds the number of steps; `s.length` steps suffice
because every step consumes at least one byte. -/
def rangeRunesAux : Nat → GoString → List Nat
  | 0, _ => []
  | _ + 1, [] => []
  | fuel + 1, b :: t =>
    let d := utf8.DecodeRuneInString (b :: t)
    d.1 :: rangeRunesAux fuel (t.drop (d.2 - 1))

/-- The rune sequence of a Go string as seen by `range`. -/
def rangeRunes (s : GoString) : List Nat := rangeRunesAux s.length s

/-- The bytes a `strings.Builder` holds after `WriteRune` of each rune. -/
def writeRunes (rs : List Nat) : GoString := rs.flatMap utf8.AppendRune

/-- The function `unicode.IsControl`: category Cc, U+0000..U+001F and
U+007F..U+009F. -/
def unicode.IsControl (r : Nat) : Bool := r < 0x20 || (0x7F ≤ r && r ≤ 0x9F)

/-- The function `unicode.IsSpace`: the Unicode White_Space property. -/
def unicode.IsSpace (r : Nat) : Bool :=
  r = 0x09 || r = 0x0A || r = 0x0B || r = 0x0C || r = 0x0D || r = 0x20 ||
  r = 0x85 || r = 0xA0 || r = 0x1680 || (0x2000 ≤ r && r ≤ 0x200A) ||
  r = 0x2028 || r = 0x2029 || r = 0x202F || r = 0x205F || r = 0x3000

/-- The regexp class `\s` of Go (RE2): tab, newline, form feed, carriage
return, space. -/
def reSpace (b : Nat) : Bool := b = 0x09 || b = 0x0A || b = 0x0C || b = 0x0D || b = 0x20

/-- If `p` is a prefix of `s`, the rest of `s` after it. -/
def matchLit : List Nat → List Nat → Option (List Nat)
  | [], s => some s
  | _ :: _, [] => none
  | a :: p, b :: s => if a = b then matchLit p s else none

/-- Replacement of all non-overlapping matches, scanning left to right, as
`strings.ReplaceAll` and `Regexp.ReplaceAllString` do for a pattern whose
matches are never empty.  `m s` is the rest of `s` after the match that
starts at the head of `s`, if there is one.  `fuel` bounds the number of
steps. -/
def replaceMatches (m : List Nat → Option (List Nat)) (repl : List Nat) :
    Nat → List Nat → List Nat
  | 0, s => s
  | _ + 1, [] => []
  | fuel + 1, b :: t =>
    match m (b :: t) with
    | some rest => repl ++ replaceMatches m repl fuel rest
    | none => b :: replaceMatches m repl fuel t

/-- The call `regexp.MustCompile(pattern).ReplaceAllString(s, repl)` for a
pattern given by its matcher. -/
def ReplaceAllString (m : List Nat → Option (List Nat)) (s repl : GoString) : GoString :=
  replaceMatches m repl s.length s

/-- The function `strings.ReplaceAll(s, old, new)` for a non-empty `old`. -/
def strings.ReplaceAll (s old new : GoString) : GoString :=
  replaceMatches (matchLit old) new s.length s

/-- The function `strings.Contains(s, substr)`. -/
def strings.Contains (s substr : GoString) : Bool :=
  s.tails.any fun t => (matchLit substr t).isSome

/-- The function `strings.HasPrefix`. -/
def strings.HasPrefix (s p : GoString) : Bool := (matchLit p s).isSome

/-- The function `strings.TrimPrefix`. -/
def strings.TrimPrefix (s p : GoString) : GoString := (matchLit p s).getD s

/-- The function `strings.Trim(s, cutset)`: `s` without the leading and
trailing elements that are in `cutset`. -/
def strings.Trim (s cutset : List Nat) : List Nat :=
  (s.dropWhile fun b => decide (b ∈ cutset)).rdropWhile fun b => decide (b ∈ cutset)

/-- The function `strings.TrimSpace` on the rune sequence of a valid UTF-8
string: the string without leading and trailing white space. -/
def strings.TrimSpace (rs : List Nat) : List Nat :=
  (rs.dropWhile unicode.IsSpace).rdropWhile unicode.IsSpace

/-- The decimal digits of `n`, most significant first, before `acc`. -/
def decimalAux : Nat → Nat → List Nat → List Nat
  | 0, _, acc => acc
  | fuel + 1, n, acc =>
    if n / 10 = 0 then (48 + n % 10) :: acc
    else decimalAux fuel (n / 10) ((48 + n % 10) :: acc)

/-- The decimal form of a natural number, as ASCII digits. -/
def decimal (n : Nat) : GoString := decimalAux (n + 1) n []

/-- The call `fmt.Sprintf("%d", n)`. -/
def fmt.d (n : Int) : GoString :=
  if n < 0 then 45 :: decimal n.natAbs else decimal n.natAbs

/-- The call `fmt.Sprintf("%02d", n)`: `%d` padded with zeros to width two
(the sign counts for the width). -/
def fmt.d02 (n : Int) : GoString :=
  if 0 ≤ n ∧ n < 10 then 48 :: decimal n.natAbs else fmt.d n

/-! ## backend/filename.go -/

/-- The pattern of the first regexp of `SanitizeFilename`, the class of
the characters `< > : " \ | ? *`: a match is one such byte. -/
def reIllegal : List Nat → Option (List Nat)
  | b :: t => if b ∈ [60, 62, 58, 34, 92, 124, 63, 42] then some t else none
  | [] => none

/-- A pattern `c+` for a character class `c` given by `p`: a maximal
non-empty run of elements that satisfy `p`. -/
def reRun (p : Nat → Bool) : List Nat → Option (List Nat)
  | b :: t => if p b then some (t.dropWhile p) else none
  | [] => none

/-- The pattern `\s+`: a maximal non-empty run of `\s` bytes. -/
def reSpaces : List Nat → Option (List Nat) := reRun reSpace

/-- The class of the pattern `_+`. -/
def isUnderscore (b : Nat) : Bool := b = 95

/-- The pattern `_+`: a maximal non-empty run of underscores. -/
def reUnderscores : List Nat → Option (List Nat) := reRun isUnderscore

/-- The test of the loop body of `SanitizeFilename`: whether rune `r` is
written to the builder (none of the three `continue` branches is taken). -/
def keepRune (r : Nat) : Bool :=
  !(r < 0x20 && r != 0x09 && r != 0x0A && r != 0x0D) &&
  !(r = 0x7F) &&
  !(unicode.IsControl r && r != 0x09 && r != 0x0A && r != 0x0D)

/-- The rune sequence of `sanitized` in `SanitizeFilename` just before the
test for the empty string (filename.go lines 75 to 108).  The two byte-wise
replacements come first; the loop decodes the runes and keeps those that
pass `keepRune`; from `result.String()` on the string is valid UTF-8 and
is held as its rune sequence, on which `TrimSpace`, `Trim` with its ASCII
cutsets and the two ASCII regexps act rune by rune. -/
def sanitizeRunes (name : GoString) : List Nat :=
  let sanitized := strings.ReplaceAll name (lit "/") (lit " ")
  let sanitized := ReplaceAllString reIllegal sanitized (lit " ")
  let result := (rangeRunes sanitized).filter keepRune
  let sanitized := strings.TrimSpace result
  let sanitized := strings.Trim sanitized (lit ". ")
  let sanitized := ReplaceAllString reSpaces sanitized (lit " ")
  let sanitized := ReplaceAllString reUnderscores sanitized (lit "_")
  strings.Trim sanitized (lit "_ ")

/-- The function `utf8.ValidString`: no step of the decoder reports an
invalid encoding. -/
def utf8.ValidStringAux : Nat → GoString → Bool
  | 0, s => s.isEmpty
  | _ + 1, [] => true
  | fuel + 1, b :: t =>
    let d := utf8.DecodeRuneInString (b :: t)
    if d.1 = utf8.RuneError ∧ d.2 = 1 then false
    else utf8.ValidStringAux fuel (t.drop (d.2 - 1))

/-- The function `utf8.ValidString`. -/
def utf8.ValidString (s : GoString) : Bool := utf8.ValidStringAux s.length s

/-- The function `strings.ToValidUTF8(s, replacement)`: each run of bytes
that are not part of a valid encoding is replaced by `replacement`.
`inRun` tells whether the previous byte was invalid. -/
def strings.ToValidUTF8Aux (replacement : GoString) : Nat → Bool → GoString → GoString
  | 0, _, s => s
  | _ + 1, _, [] => []
  | fuel + 1, inRun, b :: t =>
    let d := utf8.DecodeRuneInString (b :: t)
    if d.1 = utf8.RuneError ∧ d.2 = 1 then
      (if inRun then [] else replacement) ++ strings.ToValidUTF8Aux replacement fuel true t
    else
      (b :: t).take d.2 ++ strings.ToValidUTF8Aux replacement fuel false (t.drop (d.2 - 1))

/-- The function `strings.ToValidUTF8`. -/
def strings.ToValidUTF8 (s replacement : GoString) : GoString :=
  strings.ToValidUTF8Aux replacement s.length false s

/-- The function `SanitizeFilename` of filename.go. -/
def SanitizeFilename (name : GoString) : GoString :=
  let sanitized := writeRunes (sanitizeRunes name)
  if sanitized = [] then lit "Unknown"
  else if !utf8.ValidString sanitized then strings.ToValidUTF8 sanitized (lit "_")
  else sanitized

/-- The pattern `\{track\}\.\s*`: the token, a dot, then all following
`\s` bytes. -/
def reTrackDot (s : List Nat) : Option (List Nat) :=
  (matchLit (lit "{track}.") s).map fun r => r.dropWhile reSpace

/-- The pattern `\{track\}\s*-\s*`: the token, optional `\s` bytes, a
hyphen, then all following `\s` bytes. -/
def reTrackDash (s : List Nat) : Option (List Nat) :=
  match matchLit (lit "{track}") s with
  | some r =>
    match r.dropWhile reSpace with
    | 45 :: r2 => some (r2.dropWhile reSpace)
    | _ => none
  | none => none

/-- The pattern `\{track\}\s*`: the token, then all following `\s` bytes. -/
def reTrack (s : List Nat) : Option (List Nat) :=
  (matchLit (lit "{track}") s).map fun r => r.dropWhile reSpace

/-- The value of `year` in the file-name builders: the first four bytes of
the release date when it has at least four. -/
def yearOf (releaseDate : GoString) : GoString :=
  if releaseDate.length ≥ 4 then releaseDate.take 4 else []

/-- The function `BuildExpectedFilename` of filename.go. -/
def BuildExpectedFilename (trackName artistName albumName albumArtist releaseDate
    filenameFormat playlistName playlistOwner : GoString) (includeTrackNumber : Bool)
    (position discNumber : Int) (useAlbumTrackNumber : Bool) : GoString :=
  let _unused := useAlbumTrackNumber
  let safeTitle := SanitizeFilename trackName
  let safeArtist := SanitizeFilename artistName
  let safeAlbum := SanitizeFilename albumName
  let safeAlbumArtist := SanitizeFilename albumArtist
  let safePlaylist := SanitizeFilename playlistName
  let safeCreator := SanitizeFilename playlistOwner
  let year := yearOf releaseDate
  let filename :=
    if strings.Contains filenameFormat (lit "\x7b") then
      let filename := filenameFormat
      let filename := strings.ReplaceAll filename (lit "{title}") safeTitle
      let filename := strings.ReplaceAll filename (lit "{artist}") safeArtist
      let filename := strings.ReplaceAll filename (lit "{album}") safeAlbum
      let filename := strings.ReplaceAll filename (lit "{album_artist}") safeAlbumArtist
      let filename := strings.ReplaceAll filename (lit "{year}") year
      let filename := strings.ReplaceAll filename (lit "{date}") (SanitizeFilename releaseDate)
      let filename := strings.ReplaceAll filename (lit "{playlist}") safePlaylist
      let filename := strings.ReplaceAll filename (lit "{creator}") safeCreator
      let filename :=
        if discNumber > 0 then strings.ReplaceAll filename (lit "{disc}") (fmt.d discNumber)
        else strings.ReplaceAll filename (lit "{disc}") []
      if position > 0 then strings.ReplaceAll filename (lit "{track}") (fmt.d02 position)
      else
        let filename := ReplaceAllString reTrackDot filename []
        let filename := ReplaceAllString reTrackDash filename []
        ReplaceAllString reTrack filename []
    else
      let filename :=
        if filenameFormat = lit "artist-title" then safeArtist ++ lit " - " ++ safeTitle
        else if filenameFormat = lit "title" then safeTitle
        else safeTitle ++ lit " - " ++ safeArtist
      if includeTrackNumber ∧ position > 0 then fmt.d02 position ++ lit ". " ++ filename
      else filename
  filename ++ lit ".flac"

/-- The rune that `WriteRune(r)` writes: `r` itself when it is a Unicode
scalar value, `RuneError` otherwise. -/
def writtenRune (r : Nat) : Nat :=
  if (0xD800 ≤ r ∧ r ≤ 0xDFFF) ∨ utf8.MaxRune < r then utf8.RuneError else r

/-! ## File names of the provider strategies

`GetFirstArtist` is passed to the strategies as a function; it is only
called when `useFirstArtistOnly` is set. -/

/-- The function `buildTidalFilename` of tidal.go. -/
def buildTidalFilename (title artist album albumArtist releaseDate : GoString)
    (trackNumber discNumber : Int) (format : GoString) (includeTrackNumber : Bool)
    (position : Int) (useAlbumTrackNumber : Bool) : GoString :=
  let numberToUse := if useAlbumTrackNumber ∧ trackNumber > 0 then trackNumber else position
  let year := yearOf releaseDate
  let filename :=
    if strings.Contains format (lit "\x7b") then
      let filename := format
      let filename := strings.ReplaceAll filename (lit "{title}") title
      let filename := strings.ReplaceAll filename (lit "{artist}") artist
      let filename := strings.ReplaceAll filename (lit "{album}") album
      let filename := strings.ReplaceAll filename (lit "{album_artist}") albumArtist
      let filename := strings.ReplaceAll filename (lit "{year}") year
      let filename :=
        if discNumber > 0 then strings.ReplaceAll filename (lit "{disc}") (fmt.d discNumber)
        else strings.ReplaceAll filename (lit "{disc}") []
      if numberToUse > 0 then strings.ReplaceAll filename (lit "{track}") (fmt.d02 numberToUse)
      else
        let filename := ReplaceAllString reTrackDot filename []
        let filename := ReplaceAllString reTrackDash filename []
        ReplaceAllString reTrack filename []
    else
      let filename :=
        if format = lit "artist-title" then artist ++ lit " - " ++ title
        else if format = lit "title" then title
        else title ++ lit " - " ++ artist
      if includeTrackNumber ∧ position > 0 then fmt.d02 numberToUse ++ lit ". " ++ filename
      else filename
  filename ++ lit ".flac"

/-- The value of `filename` in `TidalDownloader.DownloadByURL` and
`DownloadByURLWithFallback` (tidal.go lines 469 to 484 and 627 to 642): the
name of the file the strategy writes to and looks for. -/
def tidalFilename (GetFirstArtist : GoString → GoString) (filenameFormat : GoString)
    (includeTrackNumber : Bool) (position : Int)
    (spotifyTrackName spotifyArtistName spotifyAlbumName spotifyAlbumArtist
      spotifyReleaseDate : GoString)
    (useAlbumTrackNumber : Bool) (spotifyTrackNumber spotifyDiscNumber : Int)
    (useFirstArtistOnly : Bool) : GoString :=
  let artistName := spotifyArtistName
  let trackTitle := spotifyTrackName
  let albumTitle := spotifyAlbumName
  let artistNameForFile :=
    if useFirstArtistOnly then SanitizeFilename (GetFirstArtist artistName)
    else SanitizeFilename artistName
  let albumArtistForFile :=
    if useFirstArtistOnly then SanitizeFilename (GetFirstArtist spotifyAlbumArtist)
    else SanitizeFilename spotifyAlbumArtist
  let trackTitleForFile := SanitizeFilename trackTitle
  let albumTitleForFile := SanitizeFilename albumTitle
  buildTidalFilename trackTitleForFile artistNameForFile albumTitleForFile albumArtistForFile
    spotifyReleaseDate spotifyTrackNumber spotifyDiscNumber filenameFormat includeTrackNumber
    position useAlbumTrackNumber

/-- The value of `expectedFilename` in `DeezerDownloader.Download` (deezer.go
lines 95 to 102): the name the strategy's existence check looks for. -/
def deezerExpectedFilename (GetFirstArtist : GoString → GoString)
    (filenameFormat playlistName playlistOwner : GoString)
    (includeTrackNumber : Bool) (position : Int)
    (spotifyTrackName spotifyArtistName spotifyAlbumName spotifyAlbumArtist
      spotifyReleaseDate : GoString)
    (spotifyDiscNumber : Int) (useFirstArtistOnly : Bool) : GoString :=
  let filenameArtist :=
    if useFirstArtistOnly then GetFirstArtist spotifyArtistName else spotifyArtistName
  let filenameAlbumArtist :=
    if useFirstArtistOnly then GetFirstArtist spotifyAlbumArtist else spotifyAlbumArtist
  BuildExpectedFilename spotifyTrackName filenameArtist spotifyAlbumName filenameAlbumArtist
    spotifyReleaseDate filenameFormat playlistName playlistOwner includeTrackNumber position
    spotifyDiscNumber false

/-- The value of `newFilename` in `DeezerDownloader.Download` (deezer.go
lines 160 to 215): the name the downloaded file is renamed to. -/
def deezerNewFilename (GetFirstArtist : GoString → GoString) (filenameFormat : GoString)
    (includeTrackNumber : Bool) (position : Int)
    (spotifyTrackName spotifyArtistName spotifyAlbumName spotifyAlbumArtist
      spotifyReleaseDate : GoString)
    (spotifyDiscNumber : Int) (useFirstArtistOnly : Bool) : GoString :=
  let safeArtist :=
    if useFirstArtistOnly then SanitizeFilename (GetFirstArtist spotifyArtistName)
    else SanitizeFilename spotifyArtistName
  let safeAlbumArtist :=
    if useFirstArtistOnly then SanitizeFilename (GetFirstArtist spotifyAlbumArtist)
    else SanitizeFilename spotifyAlbumArtist
  let safeTitle := SanitizeFilename spotifyTrackName
  let safeAlbum := SanitizeFilename spotifyAlbumName
  let year := yearOf spotifyReleaseDate
  let newFilename :=
    if strings.Contains filenameFormat (lit "\x7b") then
      let newFilename := filenameFormat
      let newFilename := strings.ReplaceAll newFilename (lit "{title}") safeTitle
      let newFilename := strings.ReplaceAll newFilename (lit "{artist}") safeArtist
      let newFilename := strings.ReplaceAll newFilename (lit "{album}") safeAlbum
      let newFilename := strings.ReplaceAll newFilename (lit "{album_artist}") safeAlbumArtist
      let newFilename := strings.ReplaceAll newFilename (lit "{year}") year
      let newFilename :=
        strings.ReplaceAll newFilename (lit "{date}") (SanitizeFilename spotifyReleaseDate)
      let newFilename :=
        if spotifyDiscNumber > 0 then
          strings.ReplaceAll newFilename (lit "{disc}") (fmt.d spotifyDiscNumber)
        else strings.ReplaceAll newFilename (lit "{disc}") []
      if position > 0 then strings.ReplaceAll newFilename (lit "{track}") (fmt.d02 position)
      else strings.ReplaceAll newFilename (lit "{track}") []
    else
      let newFilename :=
        if filenameFormat = lit "artist-title" then safeArtist ++ lit " - " ++ safeTitle
        else if filenameFormat = lit "title" then safeTitle
        else safeTitle ++ lit " - " ++ safeArtist
      if includeTrackNumber ∧ position > 0 then fmt.d02 position ++ lit ". " ++ newFilename
      else newFilename
  let ext := lit ".flac"
  newFilename ++ ext

/-- The number that a string of ASCII decimal digits denotes. -/
def decimalValue (s : GoString) : Nat :=
  s.foldl (fun a b => 10 * a + (b - 48)) 0

/-! ## The outside world

The file system is what `os.Stat` shows of it: the size of the file at a
path, if there is one.  An `error` value is its message; `none` is `nil`.
The results of the operations on the network, on audio files and of the
collaborators outside the core are given by a record of functions. -/

/-- The file system: the size of the file at each path that has one. -/
abbrev FS := GoString → Option Nat

/-- The file system after a file of `size` bytes was written at `path`. -/
def FS.write (fs : FS) (path : GoString) (size : Nat) : FS :=
  fun p => if p = path then some size else fs p

/-- The file system after `os.Remove(path)`. -/
def FS.remove (fs : FS) (path : GoString) : FS :=
  fun p => if p = path then none else fs p

/-- What a strategy returns, `(string, error)`, and the file system it
leaves. -/
structure StrategyResult where
  filename : GoString
  err : Option GoString
  fs : FS

/-! ### The steps after the transfer of the audio bytes (claim C9) -/

/-- The operations of the post-processing steps: the cover download, the two
metadata embedders, `os.Rename` and the library functions on paths. -/
structure PostWorld where
  DownloadCoverToPath : GoString → GoString → Bool → FS → Option GoString × FS
  EmbedMetadata : GoString → GoString → FS → Option GoString × FS
  EmbedMetadataToConvertedFile : GoString → GoString → FS → Option GoString × FS
  Rename : GoString → GoString → FS → Option GoString × FS
  Join : GoString → GoString → GoString
  Ext : GoString → GoString
  GetFirstArtist : GoString → GoString

/-- The cover step shared by the four strategies (tidal.go lines 556 to
568, qobuz.go 457 to 469, deezer.go 228 to 239, amazon.go 415 to 427): the
cover path handed to the embedder, whether the deferred removal of the
cover file is registered, and the file system. -/
def coverStep (w : PostWorld) (fs : FS) (filePath spotifyCoverURL : GoString)
    (embedMaxQualityCover : Bool) : GoString × Bool × FS :=
  if spotifyCoverURL ≠ [] then
    let coverPath := filePath ++ lit ".cover.jpg"
    match w.DownloadCoverToPath spotifyCoverURL coverPath embedMaxQualityCover fs with
    | (some _, fs1) => ([], false, fs1)
    | (none, fs1) => (coverPath, true, fs1)
  else ([], false, fs)

/-- The end of `TidalDownloader.DownloadByURL` after `DownloadFile`
succeeded (tidal.go lines 554 to 601). -/
def tidalAfterTransfer (w : PostWorld) (fs : FS) (outputFilename spotifyCoverURL : GoString)
    (embedMaxQualityCover : Bool) : StrategyResult :=
  let c := coverStep w fs outputFilename spotifyCoverURL embedMaxQualityCover
  let e := w.EmbedMetadata outputFilename c.1 c.2.2
  let fs2 := if c.2.1 then e.2.remove (outputFilename ++ lit ".cover.jpg") else e.2
  { filename := outputFilename, err := none, fs := fs2 }

/-- The end of `QobuzDownloader.DownloadTrackWithISRC` after `DownloadFile`
succeeded (qobuz.go lines 455 to 506). -/
def qobuzAfterTransfer (w : PostWorld) (fs : FS) (filepath spotifyCoverURL : GoString)
    (embedMaxQualityCover : Bool) : StrategyResult :=
  let c := coverStep w fs filepath spotifyCoverURL embedMaxQualityCover
  let e := w.EmbedMetadata filepath c.1 c.2.2
  let fs2 := if c.2.1 then e.2.remove (filepath ++ lit ".cover.jpg") else e.2
  match e.1 with
  | some err => { filename := [], err := some (lit "failed to embed metadata: " ++ err), fs := fs2 }
  | none => { filename := filepath, err := none, fs := fs2 }

/-- The end of `DeezerDownloader.Download` after `DownloadFromYoinkify`
returned the path of the downloaded file (deezer.go lines 160 to 272). -/
def deezerAfterTransfer (w : PostWorld) (fs : FS) (filePath outputDir filenameFormat : GoString)
    (includeTrackNumber : Bool) (position : Int)
    (spotifyTrackName spotifyArtistName spotifyAlbumName spotifyAlbumArtist spotifyReleaseDate
      spotifyCoverURL : GoString)
    (spotifyDiscNumber : Int) (embedMaxQualityCover useFirstArtistOnly : Bool) :
    StrategyResult :=
  let r : GoString × FS :=
    if spotifyTrackName ≠ [] ∧ spotifyArtistName ≠ [] then
      let newFilename := deezerNewFilename w.GetFirstArtist filenameFormat includeTrackNumber
        position spotifyTrackName spotifyArtistName spotifyAlbumName spotifyAlbumArtist
        spotifyReleaseDate spotifyDiscNumber useFirstArtistOnly
      let newFilePath := w.Join outputDir newFilename
      match w.Rename filePath newFilePath fs with
      | (some _, fs1) => (filePath, fs1)
      | (none, fs1) => (newFilePath, fs1)
    else (filePath, fs)
  let c := coverStep w r.2 r.1 spotifyCoverURL embedMaxQualityCover
  let e := w.EmbedMetadataToConvertedFile r.1 c.1 c.2.2
  let fs2 := if c.2.1 then e.2.remove (r.1 ++ lit ".cover.jpg") else e.2
  { filename := r.1, err := none, fs := fs2 }

/-- The value of `newFilename` in `AmazonDownloader.DownloadByURL` before
the extension is added (amazon.go lines 341 to 396). -/
def amazonNewFilename (GetFirstArtist : GoString → GoString) (filenameFormat : GoString)
    (includeTrackNumber : Bool) (position : Int)
    (spotifyTrackName spotifyArtistName spotifyAlbumName spotifyAlbumArtist
      spotifyReleaseDate : GoString)
    (spotifyDiscNumber : Int) (useFirstArtistOnly : Bool) : GoString :=
  let safeArtist :=
    if useFirstArtistOnly then SanitizeFilename (GetFirstArtist spotifyArtistName)
    else SanitizeFilename spotifyArtistName
  let safeAlbumArtist :=
    if useFirstArtistOnly then SanitizeFilename (GetFirstArtist spotifyAlbumArtist)
    else SanitizeFilename spotifyAlbumArtist
  let safeTitle := SanitizeFilename spotifyTrackName
  let safeAlbum := SanitizeFilename spotifyAlbumName
  let year := yearOf spotifyReleaseDate
  if strings.Contains filenameFormat (lit "\x7b") then
    let newFilename := filenameFormat
    let newFilename := strings.ReplaceAll newFilename (lit "{title}") safeTitle
    let newFilename := strings.ReplaceAll newFilename (lit "{artist}") safeArtist
    let newFilename := strings.ReplaceAll newFilename (lit "{album}") safeAlbum
    let newFilename := strings.ReplaceAll newFilename (lit "{album_artist}") safeAlbumArtist
    let newFilename := strings.ReplaceAll newFilename (lit "{year}") year
    let newFilename :=
      strings.ReplaceAll newFilename (lit "{date}") (SanitizeFilename spotifyReleaseDate)
    let newFilename :=
      if spotifyDiscNumber > 0 then
        strings.ReplaceAll newFilename (lit "{disc}") (fmt.d spotifyDiscNumber)
      else strings.ReplaceAll newFilename (lit "{disc}") []
    if position > 0 then strings.ReplaceAll newFilename (lit "{track}") (fmt.d02 position)
    else
      let newFilename := ReplaceAllString reTrackDot newFilename []
      let newFilename := ReplaceAllString reTrackDash newFilename []
      ReplaceAllString reTrack newFilename []
  else
    let newFilename :=
      if filenameFormat = lit "artist-title" then safeArtist ++ lit " - " ++ safeTitle
      else if filenameFormat = lit "title" then safeTitle
      else safeTitle ++ lit " - " ++ safeArtist
    if includeTrackNumber ∧ position > 0 then fmt.d02 position ++ lit ". " ++ newFilename
    else newFilename

/-- The end of `AmazonDownloader.DownloadByURL` after `DownloadFromService`
returned the path of the downloaded file (amazon.go lines 337 to 472).
`cleanup` is the removal of a left-over `.m4a` file at the end (lines 458
to 468), which changes the file system only. -/
def amazonAfterTransfer (w : PostWorld) (cleanup : GoString → FS → FS) (fs : FS)
    (filePath outputDir filenameFormat : GoString)
    (includeTrackNumber : Bool) (position : Int)
    (spotifyTrackName spotifyArtistName spotifyAlbumName spotifyAlbumArtist spotifyReleaseDate
      spotifyCoverURL : GoString)
    (spotifyDiscNumber : Int) (embedMaxQualityCover useFirstArtistOnly : Bool) :
    StrategyResult :=
  let r : GoString × FS :=
    if spotifyTrackName ≠ [] ∧ spotifyArtistName ≠ [] then
      let newFilename := amazonNewFilename w.GetFirstArtist filenameFormat includeTrackNumber
        position spotifyTrackName spotifyArtistName spotifyAlbumName spotifyAlbumArtist
        spotifyReleaseDate spotifyDiscNumber useFirstArtistOnly
      let ext := if w.Ext filePath = [] then lit ".flac" else w.Ext filePath
      let newFilename := newFilename ++ ext
      let newFilePath := w.Join outputDir newFilename
      match w.Rename filePath newFilePath fs with
      | (some _, fs1) => (filePath, fs1)
      | (none, fs1) => (newFilePath, fs1)
    else (filePath, fs)
  let c := coverStep w r.2 r.1 spotifyCoverURL embedMaxQualityCover
  let e := w.EmbedMetadataToConvertedFile r.1 c.1 c.2.2
  let fs2 := cleanup r.1 e.2
  let fs3 := if c.2.1 then fs2.remove (r.1 ++ lit ".cover.jpg") else fs2
  { filename := r.1, err := none, fs := fs3 }

/-! ### Library functions of the strategies: splitting, trimming and scanning -/

/-- The pieces of `cur ++ s` between the occurrences of `sep`, where `cur`
is the part of the current piece already passed.  `fuel` bounds the number
of steps. -/
def splitAux (sep : GoString) : Nat → GoString → GoString → List GoString
  | 0, s, cur => [cur ++ s]
  | _ + 1, [], cur => [cur]
  | fuel + 1, b :: t, cur =>
    match matchLit sep (b :: t) with
    | some rest => cur :: splitAux sep fuel rest []
    | none => splitAux sep fuel t (cur ++ [b])

/-- The function `strings.Split(s, sep)` for a non-empty `sep`. -/
def strings.Split (s sep : GoString) : List GoString := splitAux sep s.length s []

/-- The function `utf8.DecodeLastRuneInString`: the last rune of `s` and its
width in bytes. -/
def utf8.DecodeLastRuneInString (s : GoString) : Nat × Nat :=
  let n := s.length
  if n = 0 then (utf8.RuneError, 0)
  else if s.getD (n - 1) 0 < 0x80 then (s.getD (n - 1) 0, 1)
  else
    let lim := n - 4
    let start :=
      if 2 ≤ n ∧ ! utf8.isCont (s.getD (n - 2) 0) then n - 2
      else if 3 ≤ n ∧ ! utf8.isCont (s.getD (n - 3) 0) then n - 3
      else if 4 ≤ n ∧ ! utf8.isCont (s.getD (n - 4) 0) then n - 4
      else lim
    let d := utf8.DecodeRuneInString (s.drop start)
    if start + d.2 ≠ n then (utf8.RuneError, 1) else d

/-- The leading part of `strings.TrimSpace`: `s` without the white-space
runes at its start.  `fuel` bounds the number of runes. -/
def trimLeftSpace : Nat → GoString → GoString
  | 0, s => s
  | _ + 1, [] => []
  | fuel + 1, b :: t =>
    let d := utf8.DecodeRuneInString (b :: t)
    if unicode.IsSpace d.1 then trimLeftSpace fuel ((b :: t).drop d.2) else b :: t

/-- The trailing part of `strings.TrimSpace`: `s` without the white-space
runes at its end. -/
def trimRightSpace : Nat → GoString → GoString
  | 0, s => s
  | fuel + 1, s =>
    if s = [] then []
    else
      let d := utf8.DecodeLastRuneInString s
      if unicode.IsSpace d.1 then trimRightSpace fuel (s.take (s.length - d.2)) else s

/-- The function `strings.TrimSpace` on the bytes of a string. -/
def strings.TrimSpaceString (s : GoString) : GoString :=
  trimRightSpace s.length (trimLeftSpace s.length s)

/-- The method `SkipSpace` of the scanner of `fmt.Sscanf`, on the runes
that are left: none for the error `unexpected newline`. -/
def fmt.SkipSpace : List Nat → Option (List Nat)
  | [] => some []
  | r :: rest =>
    if r = 10 then none
    else if unicode.IsSpace r then fmt.SkipSpace rest
    else some (r :: rest)

/-- Whether `r` is one of the runes `0123456789` that the verb `%d` accepts
in a number. -/
def fmt.isDigitRune (r : Nat) : Bool := 48 ≤ r && r ≤ 57

/-- The scan of one operand of type `int64` with the verb `%d`: white space
is skipped, one sign is accepted, and the digits that follow are read up to
the first rune that is no digit; the value and the runes that are left, or
none for an error (no input, no digit, or a value outside the type). -/
def fmt.scanInt (rs : List Nat) : Option (Int × List Nat) :=
  match fmt.SkipSpace rs with
  | none => none
  | some rs1 =>
    let signed : Bool × List Nat :=
      match rs1 with
      | 43 :: t => (false, t)
      | 45 :: t => (true, t)
      | _ => (false, rs1)
    let tok := signed.2.takeWhile fmt.isDigitRune
    let rest := signed.2.dropWhile fmt.isDigitRune
    if tok = [] then none
    else
      let i : Int :=
        if signed.1 then - Int.ofNat (decimalValue tok) else Int.ofNat (decimalValue tok)
      if i < - 2 ^ 63 ∨ 2 ^ 63 - 1 < i then none else some (i, rest)

/-! ### The Tidal strategy up to the transfer (claim C10) -/

/-- What `client.Do` and the copy of the response body give: the status
code, the number of bytes `io.Copy` writes to the file and the error of the
copy, if it fails. -/
structure Response where
  StatusCode : Int
  written : Nat
  copyErr : Option GoString

/-- The operations of `TidalDownloader.DownloadByURL` on the outside
world; `SscanfError` is the text of the error that `fmt.Sscanf` returns for
a string that it cannot scan with `%d`. -/
structure TidalWorld where
  MkdirAll : GoString → Option GoString
  SscanfError : GoString → GoString
  GetDownloadURL : Int → GoString → Except GoString GoString
  NewRequest : GoString → Option GoString
  Do : GoString → Except GoString Response
  Create : GoString → Option GoString
  DownloadFromManifest : GoString → GoString → FS → Option GoString × FS
  post : PostWorld

/-- The method `TidalDownloader.GetTrackIDFromURL` (tidal.go lines 139 to
157): the number after `/track/` in the URL, up to a `?`. -/
def TidalDownloader.GetTrackIDFromURL (SscanfError : GoString → GoString)
    (tidalURL : GoString) : Except GoString Int :=
  match strings.Split tidalURL (lit "/track/") with
  | _ :: part :: _ =>
    let trackIDStr := strings.TrimSpaceString ((strings.Split part (lit "?")).headD [])
    match fmt.scanInt (rangeRunes trackIDStr) with
    | some (trackID, _) => .ok trackID
    | none => .error (lit "failed to parse track ID: " ++ SscanfError trackIDStr)
  | _ => .error (lit "invalid tidal URL format")

/-- The method `TidalDownloader.DownloadFile` (tidal.go lines 223 to 263):
the returned error and the file system.  `os.Create` leaves an empty file
at `filepath`, to which the body is then copied. -/
def TidalDownloader.DownloadFile (w : TidalWorld) (fs : FS) (url filepath : GoString) :
    Option GoString × FS :=
  if strings.HasPrefix url (lit "MANIFEST:") then
    w.DownloadFromManifest (strings.TrimPrefix url (lit "MANIFEST:")) filepath fs
  else
    match w.NewRequest url with
    | some err => (some (lit "failed to create request: " ++ err), fs)
    | none =>
      match w.Do url with
      | .error err => (some (lit "failed to download file: " ++ err), fs)
      | .ok resp =>
        if resp.StatusCode ≠ 200 then
          (some (lit "download failed with status " ++ fmt.d resp.StatusCode), fs)
        else
          match w.Create filepath with
          | some err => (some (lit "failed to create file: " ++ err), fs)
          | none =>
            let fs1 := (fs.write filepath 0).write filepath resp.written
            match resp.copyErr with
            | some err => (some (lit "failed to write file: " ++ err), fs1)
            | none => (none, fs1)

/-- The method `TidalDownloader.DownloadByURL` (tidal.go lines 451 to
602).  The arguments that only fill the `Metadata` record, and the
goroutine that fetches ISRC and genre for it, are left out. -/
def TidalDownloader.DownloadByURL (w : TidalWorld) (fs : FS)
    (tidalURL outputDir quality filenameFormat : GoString) (includeTrackNumber : Bool)
    (position : Int)
    (spotifyTrackName spotifyArtistName spotifyAlbumName spotifyAlbumArtist
      spotifyReleaseDate : GoString)
    (useAlbumTrackNumber : Bool) (spotifyCoverURL : GoString) (embedMaxQualityCover : Bool)
    (spotifyTrackNumber spotifyDiscNumber : Int) (allowFallback useFirstArtistOnly : Bool) :
    StrategyResult :=
  match (if outputDir ≠ lit "." then w.MkdirAll outputDir else none) with
  | some err => { filename := [], err := some (lit "directory error: " ++ err), fs := fs }
  | none =>
    match TidalDownloader.GetTrackIDFromURL w.SscanfError tidalURL with
    | .error err => { filename := [], err := some err, fs := fs }
    | .ok trackID =>
      if trackID = 0 then { filename := [], err := some (lit "no track ID found"), fs := fs }
      else
        let filename := tidalFilename w.post.GetFirstArtist filenameFormat includeTrackNumber
          position spotifyTrackName spotifyArtistName spotifyAlbumName spotifyAlbumArtist
          spotifyReleaseDate useAlbumTrackNumber spotifyTrackNumber spotifyDiscNumber
          useFirstArtistOnly
        let outputFilename := w.post.Join outputDir filename
        if (match fs outputFilename with | some size => decide (size > 0) | none => false) then
          { filename := lit "EXISTS:" ++ outputFilename, err := none, fs := fs }
        else
          let url : Except GoString GoString :=
            match w.GetDownloadURL trackID quality with
            | .ok u => .ok u
            | .error err =>
              if quality = lit "HI_RES" ∧ allowFallback then
                match w.GetDownloadURL trackID (lit "LOSSLESS") with
                | .ok u => .ok u
                | .error err2 => .error
                    (lit "failed to get download URL (HI_RES & LOSSLESS both failed): " ++ err2)
              else .error err
          match url with
          | .error err => { filename := [], err := some err, fs := fs }
          | .ok downloadURL =>
            match TidalDownloader.DownloadFile w fs downloadURL outputFilename with
            | (some err, fs1) => { filename := [], err := some err, fs := fs1 }
            | (none, fs1) =>
              tidalAfterTransfer w.post fs1 outputFilename spotifyCoverURL embedMaxQualityCover

/-! ## app.go: the orchestrator -/

/-- The function `strings.HasSuffix`. -/
def strings.HasSuffix (s suffix : GoString) : Bool :=
  (matchLit suffix.reverse s.reverse).isSome

/-- The function `strings.Join(elems, sep)`. -/
def strings.Join (elems : List GoString) (sep : GoString) : GoString :=
  sep.intercalate elems

/-- The function `sanitizeFolderName` of filename.go. -/
def sanitizeFolderName (name : GoString) : GoString := SanitizeFilename name

/-- The loop of `SanitizeFolderPath` over the parts from index `i` on. -/
def sanitizeParts : Nat → List GoString → List GoString
  | _, [] => []
  | i, part :: rest =>
    if i = 0 ∧ part.length = 2 ∧ part.get? 1 = some 58 then part :: sanitizeParts (i + 1) rest
    else if i = 0 ∧ part = [] then part :: sanitizeParts (i + 1) rest
    else
      let sanitized := sanitizeFolderName part
      if sanitized ≠ [] then sanitized :: sanitizeParts (i + 1) rest
      else sanitizeParts (i + 1) rest

/-- The function `SanitizeFolderPath` of filename.go; `Separator` is
`string(filepath.Separator)`. -/
def SanitizeFolderPath (Separator folderPath : GoString) : GoString :=
  let normalizedPath := strings.ReplaceAll folderPath (lit "/") Separator
  let sep := Separator
  let parts := strings.Split normalizedPath sep
  let sanitizedParts := sanitizeParts 0 parts
  strings.Join sanitizedParts sep

/-- The type `DownloadRequest` of app.go. -/
structure DownloadRequest where
  Service : GoString
  Query : GoString
  TrackName : GoString
  ArtistName : GoString
  AlbumName : GoString
  AlbumArtist : GoString
  ReleaseDate : GoString
  CoverURL : GoString
  ApiURL : GoString
  OutputDir : GoString
  AudioFormat : GoString
  FilenameFormat : GoString
  TrackNumber : Bool
  Position : Int
  UseAlbumTrackNumber : Bool
  SpotifyID : GoString
  EmbedLyrics : Bool
  EmbedMaxQualityCover : Bool
  ServiceURL : GoString
  Duration : Int
  ItemID : GoString
  SpotifyTrackNumber : Int
  SpotifyDiscNumber : Int
  SpotifyTotalTracks : Int
  SpotifyTotalDiscs : Int
  Copyright : GoString
  Publisher : GoString
  PlaylistName : GoString
  PlaylistOwner : GoString
  AllowFallback : Bool
  UseFirstArtistOnly : Bool
  UseSingleGenre : Bool
  EmbedGenre : Bool

/-- The type `DownloadResponse` of app.go. -/
structure DownloadResponse where
  Success : Bool
  Message : GoString
  File : GoString
  Error : GoString
  AlreadyExists : Bool
  ItemID : GoString

/-- The fields of the local `trackResp.Track` in `DownloadTrack`. -/
structure TrackData where
  Copyright : GoString
  Publisher : GoString
  TotalDiscs : Int
  TotalTracks : Int
  TrackNumber : Int
  ReleaseDate : GoString

/-- The call of a provider strategy made by `DownloadTrack`: the method, its
leading arguments and, for the remaining arguments, the request whose
fields they are and `spotifyURL`.  For Tidal `apiURL` is the argument of
`NewTidalDownloader`. -/
inductive StrategyCall where
  | AmazonDownloadByURL (amazonURL outputDir quality filenameFormat : GoString)
      (req : DownloadRequest) (spotifyURL : GoString)
  | AmazonDownloadBySpotifyID (spotifyTrackID outputDir quality filenameFormat : GoString)
      (req : DownloadRequest) (spotifyURL : GoString)
  | TidalDownloadByURLWithFallback (apiURL tidalURL outputDir quality filenameFormat : GoString)
      (req : DownloadRequest) (spotifyURL : GoString)
  | TidalDownload (apiURL spotifyTrackID outputDir quality filenameFormat : GoString)
      (req : DownloadRequest) (spotifyURL : GoString)
  | TidalDownloadByURL (apiURL tidalURL outputDir quality filenameFormat : GoString)
      (req : DownloadRequest) (spotifyURL : GoString)
  | QobuzDownloadTrackWithISRC (deezerISRC spotifyID outputDir quality filenameFormat : GoString)
      (req : DownloadRequest) (spotifyURL : GoString)
  | DeezerDownload (spotifyID outputDir filenameFormat : GoString)
      (req : DownloadRequest) (spotifyURL : GoString)

/-- What `DownloadTrack` does to the outside world, in order. -/
inductive Event where
  | AddToQueue (itemID trackName artistName albumName spotifyID : GoString)
  | SetDownloading (downloading : Bool)
  | StartDownloadItem (itemID : GoString)
  | GetFilteredSpotifyData (trackURL : GoString)
  | Stat (path : GoString)
  | SkipDownloadItem (itemID path : GoString)
  | goFetchLyrics
  | closeLyricsChan
  | goGetISRC
  | closeIsrcChan
  | receiveIsrc
  | strategy (call : StrategyCall)
  | FailDownloadItem (itemID message : GoString)
  | Remove (path : GoString)
  | receiveLyrics
  | pollLyrics
  | EmbedLyricsOnlyUniversal (filename lyrics : GoString)
  | CompleteDownloadItem (itemID filename : GoString)
  | goAddHistoryItem

/-- The events that send requests over the network: the metadata fetch, the
two side fetches and the provider strategy. -/
def Event.isNetwork : Event → Bool
  | .GetFilteredSpotifyData _ => true
  | .goFetchLyrics => true
  | .goGetISRC => true
  | .strategy _ => true
  | _ => false

/-- The outside world of `DownloadTrack`: the clock, `filepath.Join` and
`filepath.Separator`, the result of the metadata fetch (none when the fetch
or the decoding fails), the values the two side fetches send, the provider
strategies and the lyrics embedder. -/
structure Env where
  UnixNano : Int
  Join : GoString → GoString → GoString
  Separator : GoString
  GetFilteredSpotifyData : GoString → Option TrackData
  lyrics : GoString
  isrc : GoString
  strategy : StrategyCall → FS → StrategyResult
  EmbedLyricsOnlyUniversal : GoString → GoString → FS → FS

/-- What a call of `DownloadTrack` returns and does. -/
structure Outcome where
  resp : DownloadResponse
  err : Option GoString
  trace : List Event
  fs : FS

/-- The response with all fields zero. -/
def DownloadResponse.zero : DownloadResponse :=
  { Success := false, Message := [], File := [], Error := [], AlreadyExists := false,
    ItemID := [] }

/-- The default of the service (app.go lines 229 to 231). -/
def defaultService (req : DownloadRequest) : DownloadRequest :=
  if req.Service = [] then { req with Service := lit "tidal" } else req

/-- The output directory (app.go lines 233 to 243). -/
def defaultOutputDir (env : Env) (req : DownloadRequest) : DownloadRequest :=
  if req.OutputDir = [] then { req with OutputDir := lit "." }
  else
    let dir := if req.PlaylistName ≠ [] then
      env.Join req.OutputDir (SanitizeFilename req.PlaylistName) else req.OutputDir
    { req with OutputDir := SanitizeFolderPath env.Separator dir }

/-- The default of the audio format (app.go lines 245 to 247). -/
def defaultAudioFormat (req : DownloadRequest) : DownloadRequest :=
  if req.AudioFormat = [] then { req with AudioFormat := lit "LOSSLESS" } else req

/-- The default of the filename template (app.go lines 252 to 254). -/
def defaultFilenameFormat (req : DownloadRequest) : DownloadRequest :=
  if req.FilenameFormat = [] then { req with FilenameFormat := lit "title-artist" } else req

/-- The defaults of `DownloadTrack` (app.go lines 229 to 254), in the order
of the source. -/
def applyDefaults (env : Env) (req : DownloadRequest) : DownloadRequest :=
  defaultFilenameFormat (defaultAudioFormat (defaultOutputDir env (defaultService req)))

/-- The value of `itemID` (app.go lines 256 to 264). -/
def itemIDOf (env : Env) (req : DownloadRequest) : GoString :=
  if req.ItemID = [] then
    if req.SpotifyID ≠ [] then req.SpotifyID ++ lit "-" ++ fmt.d env.UnixNano
    else req.TrackName ++ lit "-" ++ req.ArtistName ++ lit "-" ++ fmt.d env.UnixNano
  else req.ItemID

/-- The condition of the metadata fetch (app.go line 277). -/
def needsBackfill (req : DownloadRequest) : Bool :=
  decide (req.SpotifyID ≠ []) &&
    (decide (req.Copyright = []) || decide (req.Publisher = []) ||
      decide (req.SpotifyTotalDiscs = 0) || decide (req.ReleaseDate = []) ||
      decide (req.SpotifyTotalTracks = 0) || decide (req.SpotifyTrackNumber = 0))

/-- The fill of the copyright (app.go lines 298 to 300). -/
def fillCopyright (t : TrackData) (req : DownloadRequest) : DownloadRequest :=
  if req.Copyright = [] ∧ t.Copyright ≠ [] then { req with Copyright := t.Copyright } else req

/-- The fill of the publisher (app.go lines 301 to 303). -/
def fillPublisher (t : TrackData) (req : DownloadRequest) : DownloadRequest :=
  if req.Publisher = [] ∧ t.Publisher ≠ [] then { req with Publisher := t.Publisher } else req

/-- The fill of the number of discs (app.go lines 304 to 306). -/
def fillTotalDiscs (t : TrackData) (req : DownloadRequest) : DownloadRequest :=
  if req.SpotifyTotalDiscs = 0 ∧ t.TotalDiscs > 0 then
    { req with SpotifyTotalDiscs := t.TotalDiscs } else req

/-- The fill of the number of tracks (app.go lines 307 to 309). -/
def fillTotalTracks (t : TrackData) (req : DownloadRequest) : DownloadRequest :=
  if req.SpotifyTotalTracks = 0 ∧ t.TotalTracks > 0 then
    { req with SpotifyTotalTracks := t.TotalTracks } else req

/-- The fill of the track number (app.go lines 310 to 312). -/
def fillTrackNumber (t : TrackData) (req : DownloadRequest) : DownloadRequest :=
  if req.SpotifyTrackNumber = 0 ∧ t.TrackNumber > 0 then
    { req with SpotifyTrackNumber := t.TrackNumber } else req

/-- The fill of the release date (app.go lines 313 to 315). -/
def fillReleaseDate (t : TrackData) (req : DownloadRequest) : DownloadRequest :=
  if req.ReleaseDate = [] ∧ t.ReleaseDate ≠ [] then
    { req with ReleaseDate := t.ReleaseDate } else req

/-- The request after the fields that are unset were filled from the
fetched data (app.go lines 298 to 315), in the order of the source. -/
def fillFrom (req : DownloadRequest) (t : TrackData) : DownloadRequest :=
  fillReleaseDate t (fillTrackNumber t (fillTotalTracks t (fillTotalDiscs t
    (fillPublisher t (fillCopyright t req)))))

/-- The URL `https://open.spotify.com/track/<id>`. -/
def trackURLOf (spotifyID : GoString) : GoString :=
  lit "https://open.spotify.com/track/" ++ spotifyID

/-- The metadata fetch (app.go lines 277 to 319): the request with the
fields that are unset filled from the fetched data, when the fetch is made
and succeeds. -/
def backfilled (env : Env) (req : DownloadRequest) : DownloadRequest :=
  if needsBackfill req then
    match env.GetFilteredSpotifyData (trackURLOf req.SpotifyID) with
    | some t => fillFrom req t
    | none => req
  else req

/-- The request as it is when the existence check is made: after the
defaults and the metadata fetch (app.go lines 229 to 319). -/
def preparedRequest (env : Env) (req : DownloadRequest) : DownloadRequest :=
  backfilled env (applyDefaults env req)

/-- The value of `expectedFilename` in `DownloadTrack` (app.go line 322). -/
def expectedFilenameOf (req : DownloadRequest) : GoString :=
  BuildExpectedFilename req.TrackName req.ArtistName req.AlbumName req.AlbumArtist
    req.ReleaseDate req.FilenameFormat req.PlaylistName req.PlaylistOwner req.TrackNumber
    req.Position req.SpotifyDiscNumber req.UseAlbumTrackNumber

/-- The strategy call of the `switch` on `req.Service` (app.go lines 367
to 414), none for an unknown service. -/
def strategyCallOf (env : Env) (req : DownloadRequest) (spotifyURL : GoString) :
    Option StrategyCall :=
  if req.Service = lit "amazon" then
    if req.ServiceURL ≠ [] then
      some (.AmazonDownloadByURL req.ServiceURL req.OutputDir req.AudioFormat
        req.FilenameFormat req spotifyURL)
    else
      some (.AmazonDownloadBySpotifyID req.SpotifyID req.OutputDir req.AudioFormat
        req.FilenameFormat req spotifyURL)
  else if req.Service = lit "tidal" then
    if req.ApiURL = [] ∨ req.ApiURL = lit "auto" then
      if req.ServiceURL ≠ [] then
        some (.TidalDownloadByURLWithFallback [] req.ServiceURL req.OutputDir req.AudioFormat
          req.FilenameFormat req spotifyURL)
      else
        some (.TidalDownload [] req.SpotifyID req.OutputDir req.AudioFormat
          req.FilenameFormat req spotifyURL)
    else
      if req.ServiceURL ≠ [] then
        some (.TidalDownloadByURL req.ApiURL req.ServiceURL req.OutputDir req.AudioFormat
          req.FilenameFormat req spotifyURL)
      else
        some (.TidalDownload req.ApiURL req.SpotifyID req.OutputDir req.AudioFormat
          req.FilenameFormat req spotifyURL)
  else if req.Service = lit "qobuz" then
    let quality := if req.AudioFormat = [] then lit "6" else req.AudioFormat
    some (.QobuzDownloadTrackWithISRC env.isrc req.SpotifyID req.OutputDir quality
      req.FilenameFormat req spotifyURL)
  else if req.Service = lit "deezer" then
    some (.DeezerDownload req.SpotifyID req.OutputDir req.FilenameFormat req spotifyURL)
  else none

/-- The set-up of the two completion signals (app.go lines 338 to 365). -/
def sideFetchEvents (req : DownloadRequest) : List Event :=
  if req.SpotifyID ≠ [] then
    (if req.EmbedLyrics then [Event.goFetchLyrics] else [Event.closeLyricsChan]) ++
      [Event.goGetISRC]
  else [Event.closeLyricsChan, Event.closeIsrcChan]

/-- The end of `DownloadTrack` after the strategy returned an error (app.go
lines 416 to 434).  `os.Remove` is taken to succeed. -/
def failureEnd (itemID : GoString) (trace : List Event) (r : StrategyResult) (err : GoString) :
    Outcome :=
  let message := lit "Download failed: " ++ err
  let trace := trace ++ [Event.FailDownloadItem itemID message]
  let cleaned : List Event × FS :=
    if r.filename ≠ [] ∧ ¬ strings.HasPrefix r.filename (lit "EXISTS:") then
      match r.fs r.filename with
      | some _ => ([Event.Stat r.filename, Event.Remove r.filename], r.fs.remove r.filename)
      | none => ([Event.Stat r.filename], r.fs)
    else ([], r.fs)
  { resp := { DownloadResponse.zero with Success := false, Error := message, ItemID := itemID },
    err := some err,
    trace := trace ++ cleaned.1 ++ [Event.SetDownloading false],
    fs := cleaned.2 }

/-- The end of `DownloadTrack` after the strategy returned without error
(app.go lines 436 to 535). -/
def successEnd (env : Env) (req : DownloadRequest) (itemID : GoString) (trace : List Event)
    (r : StrategyResult) : Outcome :=
  let alreadyExists := strings.HasPrefix r.filename (lit "EXISTS:")
  let filename := if alreadyExists then strings.TrimPrefix r.filename (lit "EXISTS:")
    else r.filename
  let lyricsStep : List Event × FS :=
    if ¬ alreadyExists ∧ req.SpotifyID ≠ [] ∧ req.EmbedLyrics ∧
        (strings.HasSuffix filename (lit ".flac") ∨ strings.HasSuffix filename (lit ".mp3") ∨
          strings.HasSuffix filename (lit ".m4a")) then
      if env.lyrics ≠ [] then
        ([Event.receiveLyrics, Event.EmbedLyricsOnlyUniversal filename env.lyrics],
          env.EmbedLyricsOnlyUniversal filename env.lyrics r.fs)
      else ([Event.receiveLyrics], r.fs)
    else ([Event.pollLyrics], r.fs)
  let message := if alreadyExists then lit "File already exists"
    else lit "Download completed successfully"
  let bookkeeping : List Event :=
    if alreadyExists then [Event.SkipDownloadItem itemID filename]
    else [Event.Stat filename, Event.CompleteDownloadItem itemID filename,
      Event.goAddHistoryItem]
  { resp := { Success := true, Message := message, File := filename, Error := [],
              AlreadyExists := alreadyExists, ItemID := itemID },
    err := none,
    trace := trace ++ lyricsStep.1 ++ bookkeeping ++ [Event.SetDownloading false],
    fs := lyricsStep.2 }

/-- The method `App.DownloadTrack` of app.go (lines 220 to 535). -/
def DownloadTrack (env : Env) (fs : FS) (req : DownloadRequest) : Outcome :=
  if req.Service = lit "qobuz" ∧ req.SpotifyID = [] then
    { resp := { DownloadResponse.zero with
        Success := false, Error := lit "Spotify ID is required for Qobuz" },
      err := some (lit "spotify ID is required for Qobuz"), trace := [], fs := fs }
  else
    let req : DownloadRequest := applyDefaults env req
    let itemID := itemIDOf env req
    let trace : List Event :=
      (if req.ItemID = [] then
        [Event.AddToQueue itemID req.TrackName req.ArtistName req.AlbumName req.SpotifyID]
      else []) ++ [Event.SetDownloading true, Event.StartDownloadItem itemID]
    let spotifyURL := if req.SpotifyID ≠ [] then trackURLOf req.SpotifyID else []
    let trace := if needsBackfill req then
      trace ++ [Event.GetFilteredSpotifyData (trackURLOf req.SpotifyID)] else trace
    let req : DownloadRequest := backfilled env req
    let expectedPath := env.Join req.OutputDir (expectedFilenameOf req)
    let checked := decide (req.TrackName ≠ []) && decide (req.ArtistName ≠ [])
    let trace := if checked then trace ++ [Event.Stat expectedPath] else trace
    if checked && (match fs expectedPath with
        | some size => decide (size > 100 * 1024)
        | none => false) then
      { resp := { Success := true, Message := lit "File already exists", File := expectedPath,
                  Error := [], AlreadyExists := true, ItemID := itemID },
        err := none,
        trace := trace ++ [Event.SkipDownloadItem itemID expectedPath,
          Event.SetDownloading false],
        fs := fs }
    else
      let trace := trace ++ sideFetchEvents req
      match strategyCallOf env req spotifyURL with
      | none =>
        { resp := { DownloadResponse.zero with
            Success := false, Error := lit "Unknown service: " ++ req.Service },
          err := some (lit "unknown service: " ++ req.Service),
          trace := trace ++ [Event.SetDownloading false], fs := fs }
      | some call =>
        let trace := (if req.Service = lit "qobuz" then trace ++ [Event.receiveIsrc]
          else trace) ++ [Event.strategy call]
        let r := env.strategy call fs
        match r.err with
        | some err => failureEnd itemID trace r err
        | none => successEnd env req itemID trace r

/-! ## Concrete inputs for the counterexamples and witnesses -/

/-- The request with all fields zero. -/
def DownloadRequest.zero : DownloadRequest :=
  { Service := [], Query := [], TrackName := [], ArtistName := [], AlbumName := [],
    AlbumArtist := [], ReleaseDate := [], CoverURL := [], ApiURL := [], OutputDir := [],
    AudioFormat := [], FilenameFormat := [], TrackNumber := false, Position := 0,
    UseAlbumTrackNumber := false, SpotifyID := [], EmbedLyrics := false,
    EmbedMaxQualityCover := false, ServiceURL := [], Duration := 0, ItemID := [],
    SpotifyTrackNumber := 0, SpotifyDiscNumber := 0, SpotifyTotalTracks := 0,
    SpotifyTotalDiscs := 0, Copyright := [], Publisher := [], PlaylistName := [],
    PlaylistOwner := [], AllowFallback := false, UseFirstArtistOnly := false,
    UseSingleGenre := false, EmbedGenre := false }

/-- The request of the end-to-end scenario of the specification. -/
def songRequest : DownloadRequest :=
  { DownloadRequest.zero with
    Service := lit "deezer", SpotifyID := lit "abc123", TrackName := lit "Song",
    ArtistName := lit "Artist", OutputDir := lit "out", FilenameFormat := lit "title-artist" }

/-- A file system with one file, of five million bytes, at
`out/Song - Artist.flac`. -/
def songDownloaded : FS :=
  fun p => if p = lit "out/Song - Artist.flac" then some 5000000 else none

/-- The empty file system. -/
def emptyFS : FS := fun _ => none

/-- Post-processing operations that all succeed and leave the file system
as it is, on a system with the separator `/`. -/
def quietPost : PostWorld :=
  { DownloadCoverToPath := fun _ _ _ fs => (none, fs),
    EmbedMetadata := fun _ _ fs => (none, fs),
    EmbedMetadataToConvertedFile := fun _ _ fs => (none, fs),
    Rename := fun _ _ fs => (none, fs),
    Join := fun dir file => dir ++ lit "/" ++ file,
    Ext := fun _ => lit ".flac",
    GetFirstArtist := fun a => a }

/-- A Tidal relay whose stream breaks off after 4096 bytes. -/
def brokenStream : TidalWorld :=
  { MkdirAll := fun _ => none,
    SscanfError := fun _ => lit "expected integer",
    GetDownloadURL := fun _ _ => .ok (lit "https://cdn/stream"),
    NewRequest := fun _ => none,
    Do := fun _ => .ok { StatusCode := 200, written := 4096, copyErr := some (lit "EOF") },
    Create := fun _ => none,
    DownloadFromManifest := fun _ _ fs => (none, fs),
    post := quietPost }

/-- The call of `TidalDownloader.DownloadByURL` with the arguments that
`DownloadTrack` passes (app.go line 388). -/
def tidalByURL (w : TidalWorld) (tidalURL outputDir quality filenameFormat : GoString)
    (req : DownloadRequest) (fs : FS) : StrategyResult :=
  TidalDownloader.DownloadByURL w fs tidalURL outputDir quality filenameFormat req.TrackNumber
    req.Position req.TrackName req.ArtistName req.AlbumName req.AlbumArtist req.ReleaseDate
    req.UseAlbumTrackNumber req.CoverURL req.EmbedMaxQualityCover req.SpotifyTrackNumber
    req.SpotifyDiscNumber req.AllowFallback req.UseFirstArtistOnly

/-- An outside world without network in which the Tidal strategy for a
fixed API is `TidalDownloader.DownloadByURL` over the world `w`. -/
def envWith (w : TidalWorld) : Env :=
  { UnixNano := 0,
    Join := fun dir file => dir ++ lit "/" ++ file,
    Separator := lit "/",
    GetFilteredSpotifyData := fun _ => none,
    lyrics := [],
    isrc := [],
    strategy := fun call fs =>
      match call with
      | .TidalDownloadByURL _ tidalURL outputDir quality filenameFormat req _ =>
        tidalByURL w tidalURL outputDir quality filenameFormat req fs
      | _ => { filename := [], err := some (lit "offline"), fs := fs },
    EmbedLyricsOnlyUniversal := fun _ _ fs => fs }

/-- A request for the Tidal strategy with a fixed API and a track URL. -/
def tidalRequest : DownloadRequest :=
  { DownloadRequest.zero with
    Service := lit "tidal", ApiURL := lit "https://api",
    ServiceURL := lit "https://tidal.com/track/1",
    TrackName := lit "Song", ArtistName := lit "Artist", OutputDir := lit "out",
    FilenameFormat := lit "title-artist" }

/-- An outside world without network whose strategies all succeed with the
path `filename` and leave the file system as it is. -/
def envReturning (filename : GoString) : Env :=
  { UnixNano := 0,
    Join := fun dir file => dir ++ lit "/" ++ file,
    Separator := lit "/",
    GetFilteredSpotifyData := fun _ => none,
    lyrics := [],
    isrc := [],
    strategy := fun _ fs => { filename := filename, err := none, fs := fs },
    EmbedLyricsOnlyUniversal := fun _ _ fs => fs }

/-- The strategy call that `DownloadTrack` makes for `tidalRequest`. -/
def tidalCall : StrategyCall :=
  .TidalDownloadByURL (lit "https://api") (lit "https://tidal.com/track/1") (lit "out")
    (lit "LOSSLESS")
    (lit "title-artist") { tidalRequest with AudioFormat := lit "LOSSLESS" } []

/-- A file system with one file, of 4096 bytes, at `out/Song - Artist.flac`. -/
def songPartial : FS :=
  fun p => if p = lit "out/Song - Artist.flac" then some 4096 else none

/-! ### The quality fallback of the two Tidal paths (claim C13) -/

/-- The stream URL step of `TidalDownloader.DownloadByURL` (tidal.go lines
492 to 503) over the method `GetDownloadURL` of the fixed API, as a function
of the quality: the qualities with which it is called, in order, and the
stream URL or the error with which the strategy returns. -/
def TidalDownloader.DownloadByURL.downloadURL
    (GetDownloadURL : GoString → Except GoString GoString) (quality : GoString)
    (allowFallback : Bool) : List GoString × Except GoString GoString :=
  match GetDownloadURL quality with
  | .ok downloadURL => ([quality], .ok downloadURL)
  | .error err =>
    if quality = lit "HI_RES" ∧ allowFallback then
      match GetDownloadURL (lit "LOSSLESS") with
      | .ok downloadURL => ([quality, lit "LOSSLESS"], .ok downloadURL)
      | .error err2 => ([quality, lit "LOSSLESS"], .error
          (lit "failed to get download URL (HI_RES & LOSSLESS both failed): " ++ err2))
    else ([quality], .error err)

/-- The stream URL step of `TidalDownloader.DownloadByURLWithFallback`
(tidal.go lines 650 to 661) over the function `getDownloadURLRotated` for
the list of APIs, which gives the API that answered and the stream URL. -/
def TidalDownloader.DownloadByURLWithFallback.downloadURL
    (getDownloadURLRotated : GoString → Except GoString (GoString × GoString))
    (quality : GoString) (allowFallback : Bool) :
    List GoString × Except GoString (GoString × GoString) :=
  match getDownloadURLRotated quality with
  | .ok found => ([quality], .ok found)
  | .error err =>
    if quality = lit "HI_RES" ∧ allowFallback then
      match getDownloadURLRotated (lit "LOSSLESS") with
      | .ok found => ([quality, lit "LOSSLESS"], .ok found)
      | .error err2 => ([quality, lit "LOSSLESS"], .error
          (lit "failed to get download URL (HI_RES & LOSSLESS both failed): " ++ err2))
    else ([quality], .error err)

/-! ### backend/qobuz.go: the stream URL and its quality tiers (claim C14) -/

/-- The outside world of `QobuzDownloader.GetDownloadURL`: the answer of a
relay (`DownloadFromStandard` for an API base, a track and a quality), and
the order in which `rand.Shuffle` puts the providers in the call of
`downloadFunc` for a quality. -/
structure QobuzWorld where
  DownloadFromStandard : GoString → Int → GoString → Except GoString GoString
  Shuffle : GoString → List GoString → List GoString

/-- The slice `standardAPIs` (qobuz.go lines 167 to 171). -/
def QobuzDownloader.standardAPIs : List GoString :=
  [lit "https://dab.yeet.su/api/stream?trackId=",
   lit "https://dabmusic.xyz/api/stream?trackId=",
   lit "https://qobuz.squid.wtf/api/download-music?track_id="]

/-- The loop over the providers in `downloadFunc` (qobuz.go lines 194 to
208): the URL and the error, `none` for `nil`. -/
def QobuzDownloader.tryProviders (w : QobuzWorld) (trackID : Int) (qual : GoString) :
    List GoString → Option GoString → GoString × Option GoString
  | [], lastErr => ([], lastErr)
  | api :: rest, _ =>
    match w.DownloadFromStandard api trackID qual with
    | .ok url => (url, none)
    | .error err => QobuzDownloader.tryProviders w trackID qual rest (some err)

/-- The closure `downloadFunc` of `GetDownloadURL` (qobuz.go lines 173 to
209). -/
def QobuzDownloader.downloadFunc (w : QobuzWorld) (trackID : Int) (qual : GoString) :
    GoString × Option GoString :=
  QobuzDownloader.tryProviders w trackID qual (w.Shuffle qual QobuzDownloader.standardAPIs) none

/-- The last step of `GetDownloadURL` (qobuz.go lines 229 to 238), with the
qualities attempted so far and the error of the first attempt. -/
def QobuzDownloader.fallbackToSix (w : QobuzWorld) (trackID : Int) (allowFallback : Bool)
    (currentQuality : GoString) (tried : List GoString) (err : GoString) :
    List GoString × Except GoString GoString :=
  if currentQuality = lit "7" ∧ allowFallback then
    match QobuzDownloader.downloadFunc w trackID (lit "6") with
    | (url, none) => (tried ++ [lit "6"], .ok url)
    | (_, some _) => (tried ++ [lit "6"],
        .error (lit "all APIs and fallbacks failed. Last error: " ++ err))
  else (tried, .error (lit "all APIs and fallbacks failed. Last error: " ++ err))

/-- The value of `qualityCode` in `GetDownloadURL` (qobuz.go lines 160 to
163). -/
def QobuzDownloader.qualityCode (quality : GoString) : GoString :=
  if quality = [] ∨ quality = lit "5" then lit "6" else quality

/-- The method `QobuzDownloader.GetDownloadURL` (qobuz.go lines 159 to
239): the qualities with which `downloadFunc` is called, in order, and the
URL or the error. -/
def QobuzDownloader.GetDownloadURL (w : QobuzWorld) (trackID : Int) (quality : GoString)
    (allowFallback : Bool) : List GoString × Except GoString GoString :=
  let qualityCode := QobuzDownloader.qualityCode quality
  match QobuzDownloader.downloadFunc w trackID qualityCode with
  | (url, none) => ([qualityCode], .ok url)
  | (_, some err) =>
    if qualityCode = lit "27" ∧ allowFallback then
      match QobuzDownloader.downloadFunc w trackID (lit "7") with
      | (url, none) => ([qualityCode, lit "7"], .ok url)
      | (_, some _) =>
        QobuzDownloader.fallbackToSix w trackID allowFallback (lit "7")
          [qualityCode, lit "7"] err
    else QobuzDownloader.fallbackToSix w trackID allowFallback qualityCode [qualityCode] err

/-- Whether some relay answers with a URL for the quality `qual`. -/
def QobuzDownloader.tierSucceeds (w : QobuzWorld) (trackID : Int) (qual : GoString) : Bool :=
  QobuzDownloader.standardAPIs.any fun api => (w.DownloadFromStandard api trackID qual).isOk

/-- The tiers of a plan that are attempted when the attempts stop at the
first tier that succeeds: the tiers up to and including that tier. -/
def attemptedTiers (succeeds : GoString → Bool) : List GoString → List GoString
  | [] => []
  | q :: rest => if succeeds q then [q] else q :: attemptedTiers succeeds rest

/-- What the claim says of a run of `GetDownloadURL` with the result
`result` for the tiers `plan`: the tiers attempted are those of the plan up
to and including the first that succeeds; a returned URL is the answer of a
relay for the last tier attempted; an error is returned exactly when every
tier of the plan fails on every relay. -/
def QobuzDownloader.followsPlan (w : QobuzWorld) (trackID : Int) (plan : List GoString)
    (result : List GoString × Except GoString GoString) : Prop :=
  result.1 = attemptedTiers (QobuzDownloader.tierSucceeds w trackID) plan ∧
  (∀ url, result.2 = .ok url → ∃ q, result.1.getLast? = some q ∧
    ∃ api ∈ QobuzDownloader.standardAPIs, w.DownloadFromStandard api trackID q = .ok url) ∧
  ((∃ err, result.2 = .error err) ↔
    ∀ q ∈ plan, QobuzDownloader.tierSucceeds w trackID q = false)

/-- Relays that all answer `status 404`, with the providers kept in order. -/
def qobuzDown : QobuzWorld :=
  { DownloadFromStandard := fun _ _ _ => .error (lit "status 404"),
    Shuffle := fun _ apis => apis }

/-- Relays that answer for the quality `6` only, with the providers put in
reverse order. -/
def qobuzSixOnly : QobuzWorld :=
  { DownloadFromStandard := fun api _ qual =>
      if qual = lit "6" then .ok (api ++ lit "/stream.flac") else .error (lit "status 404"),
    Shuffle := fun _ apis => apis.reverse }

/-! ### backend/tidal.go: the DASH manifest (claims C15 and C16) -/

/-- An element `S` of a segment timeline. -/
structure TimelineSegment where
  Duration : Int
  Repeat : Int

/-- The type `SegmentTemplate` of tidal.go. -/
structure SegmentTemplate where
  Initialization : GoString
  Media : GoString
  Segments : List TimelineSegment

/-- A representation of an adaptation set; a missing `SegmentTemplate`
element is `none` (`nil`). -/
structure Representation where
  ID : GoString
  Codecs : GoString
  Bandwidth : Int
  SegmentTemplate : Option SegmentTemplate

/-- An adaptation set of the period. -/
structure AdaptationSet where
  MimeType : GoString
  Codecs : GoString
  Representations : List Representation
  SegmentTemplate : Option SegmentTemplate

/-- The type `MPD` of tidal.go, as `xml.Unmarshal` fills it. -/
structure MPD where
  AdaptationSets : List AdaptationSet

/-- The variables `segTemplate`, `selectedBandwidth` and `selectedCodecs`
of `parseManifest`. -/
structure Selection where
  segTemplate : Option SegmentTemplate
  selectedBandwidth : Int
  selectedCodecs : GoString

/-- The body of the loop over the representations (tidal.go lines 840 to
853). -/
def selectRepresentation (as : AdaptationSet) (s : Selection) (rep : Representation) :
    Selection :=
  match rep.SegmentTemplate with
  | some t =>
    if rep.Bandwidth > s.selectedBandwidth then
      { segTemplate := some t, selectedBandwidth := rep.Bandwidth,
        selectedCodecs := if rep.Codecs ≠ [] then rep.Codecs else as.Codecs }
    else s
  | none => s

/-- The body of the loop over the adaptation sets (tidal.go lines 830 to
854). -/
def selectAdaptationSet (s : Selection) (as : AdaptationSet) : Selection :=
  let s1 : Selection :=
    match as.SegmentTemplate with
    | some t =>
      if s.segTemplate.isNone then
        { s with segTemplate := some t, selectedCodecs := as.Codecs }
      else s
    | none => s
  as.Representations.foldl (selectRepresentation as) s1

/-- The selection of the segment template in `parseManifest` (tidal.go
lines 825 to 855). -/
def selectTemplate (mpd : MPD) : Selection :=
  mpd.AdaptationSets.foldl selectAdaptationSet
    { segTemplate := none, selectedBandwidth := 0, selectedCodecs := [] }

/-- The representations of the manifest that carry a segment template, in
the order of the document. -/
def templateRepresentations (mpd : MPD) : List Representation :=
  mpd.AdaptationSets.flatMap fun as =>
    as.Representations.filter fun rep => rep.SegmentTemplate.isSome

/-- The invariant of the selection loops, for the representations with a
segment template passed so far: none of them has a bandwidth above the
selected one, and a positive selected bandwidth is that of the first
representation with this bandwidth, whose template is selected. -/
def SelectionInv (s : Selection) (passed : List Representation) : Prop :=
  0 ≤ s.selectedBandwidth ∧
  (∀ x ∈ passed, x.Bandwidth ≤ s.selectedBandwidth) ∧
  (0 < s.selectedBandwidth → ∃ pre r post, passed = pre ++ r :: post ∧
    r.Bandwidth = s.selectedBandwidth ∧ s.segTemplate = r.SegmentTemplate ∧
    s.segTemplate.isSome = true ∧ ∀ x ∈ pre, x.Bandwidth < r.Bandwidth)

/-- The value of a Go `int` (64 bits) after an operation with the exact
result `n`. -/
def wrap64 (n : Int) : Int := (n + 2 ^ 63) % 2 ^ 64 - 2 ^ 63

/-- The loop `segmentCount += seg.Repeat + 1` (tidal.go lines 868 to
870). -/
def segmentCountOf (segments : List TimelineSegment) : Int :=
  segments.foldl (fun count seg => wrap64 (count + wrap64 (seg.Repeat + 1))) 0

/-- The loop that fills `mediaURLs` (tidal.go lines 879 to 882) for a
segment count below the greatest `int`. -/
def mediaURLsOf (mediaTemplate : GoString) (segmentCount : Int) : List GoString :=
  (List.range segmentCount.toNat).map fun j =>
    strings.ReplaceAll mediaTemplate (lit "$Number$") (fmt.d (Int.ofNat j + 1))

/-- What `parseManifest` returns. -/
structure ManifestResult where
  directURL : GoString
  initURL : GoString
  mediaURLs : List GoString
  mimeType : GoString
  err : Option GoString

/-- The function `parseManifest` for a DASH manifest (tidal.go lines 823 to
933): `mpd` is what `xml.Unmarshal` gives, `none` when it fails, and
`regexFallback` is the result of the extraction by regular expressions
(lines 886 to 933) from the text of the manifest. -/
def parseManifest (mpd : Option MPD) (regexFallback : ManifestResult) : ManifestResult :=
  let segTemplate : Option SegmentTemplate :=
    match mpd with
    | some m => (selectTemplate m).segTemplate
    | none => none
  let initURL := match segTemplate with
    | some t => t.Initialization
    | none => []
  let mediaTemplate := match segTemplate with
    | some t => t.Media
    | none => []
  let segmentCount := match segTemplate with
    | some t => segmentCountOf t.Segments
    | none => 0
  if segmentCount > 0 ∧ initURL ≠ [] ∧ mediaTemplate ≠ [] then
    { directURL := [],
      initURL := strings.ReplaceAll initURL (lit "&amp;") (lit "&"),
      mediaURLs := mediaURLsOf (strings.ReplaceAll mediaTemplate (lit "&amp;") (lit "&"))
        segmentCount,
      mimeType := [], err := none }
  else regexFallback

/-- What `doRequest` and the copy of the body give for a URL: the status
code, the bytes of the body and the error of `io.Copy`, if it fails. -/
structure SegmentResponse where
  StatusCode : Int
  body : List Nat
  copyErr : Option GoString

/-- The outcome of the segment download: the URLs requested, in order, the
content of the temporary file, and the error. -/
structure SegmentsOutcome where
  requested : List GoString
  content : List Nat
  err : Option GoString

/-- The loop over `mediaURLs` in `DownloadFromManifest` (tidal.go lines 381
to 414), from the segment with index `i` on. -/
def downloadMediaSegments (doRequest : GoString → Except GoString SegmentResponse) :
    Nat → List GoString → SegmentsOutcome → SegmentsOutcome
  | _, [], o => o
  | i, mediaURL :: rest, o =>
    match doRequest mediaURL with
    | .error err =>
      { requested := o.requested ++ [mediaURL], content := [],
        err := some (lit "failed to download segment " ++ fmt.d (Int.ofNat i + 1) ++ lit ": "
          ++ err) }
    | .ok resp =>
      if resp.StatusCode ≠ 200 then
        { requested := o.requested ++ [mediaURL], content := [],
          err := some (lit "segment " ++ fmt.d (Int.ofNat i + 1) ++
            lit " download failed with status " ++ fmt.d resp.StatusCode) }
      else
        match resp.copyErr with
        | some err =>
          { requested := o.requested ++ [mediaURL], content := [],
            err := some (lit "failed to write segment " ++ fmt.d (Int.ofNat i + 1) ++ lit ": "
              ++ err) }
        | none =>
          downloadMediaSegments doRequest (i + 1) rest
            { requested := o.requested ++ [mediaURL], content := o.content ++ resp.body,
              err := none }

/-- The segment download of `DownloadFromManifest` (tidal.go lines 354 to
416), after the temporary file was created: the init segment, then the
media segments.  After an error the temporary file is removed. -/
def downloadSegments (doRequest : GoString → Except GoString SegmentResponse)
    (initURL : GoString) (mediaURLs : List GoString) : SegmentsOutcome :=
  match doRequest initURL with
  | .error err =>
    { requested := [initURL], content := [],
      err := some (lit "failed to download init segment: " ++ err) }
  | .ok resp =>
    if resp.StatusCode ≠ 200 then
      { requested := [initURL], content := [],
        err := some (lit "init segment download failed with status " ++ fmt.d resp.StatusCode) }
    else
      match resp.copyErr with
      | some err =>
        { requested := [initURL], content := [],
          err := some (lit "failed to write init segment: " ++ err) }
      | none =>
        downloadMediaSegments doRequest 0 mediaURLs
          { requested := [initURL], content := resp.body, err := none }

/-- A segment template with the given URLs and a timeline of two entries,
with the repeat counts 2 and 0. -/
def templateOf (initialization media : GoString) : SegmentTemplate :=
  { Initialization := initialization, Media := media,
    Segments := [{ Duration := 4096, Repeat := 2 }, { Duration := 1024, Repeat := 0 }] }

/-- A representation with a segment template whose URLs begin with `name`. -/
def representationOf (name : GoString) (bandwidth : Int) : Representation :=
  { ID := name, Codecs := lit "flac", Bandwidth := bandwidth,
    SegmentTemplate := some (templateOf (name ++ lit "/init.mp4")
      (name ++ lit "/$Number$.mp4")) }

/-- A manifest with a template at the level of the adaptation set and three
representations with the bandwidths `b1`, `b2`, `b3`. -/
def manifestOf (b1 b2 b3 : Int) : MPD :=
  { AdaptationSets := [
      { MimeType := lit "audio/mp4", Codecs := lit "flac",
        Representations := [representationOf (lit "a") b1, representationOf (lit "b") b2,
          representationOf (lit "c") b3],
        SegmentTemplate := some (templateOf (lit "set/init.mp4") (lit "set/$Number$.mp4")) }] }

/-- A manifest with one representation, whose template URLs hold the
characters `&amp;`. -/
def escapedManifest : MPD :=
  { AdaptationSets := [
      { MimeType := lit "audio/mp4", Codecs := lit "flac",
        Representations := [
          { ID := lit "a", Codecs := lit "flac", Bandwidth := 96000,
            SegmentTemplate := some (templateOf (lit "a/init.mp4?x=1&amp;y=2")
              (lit "a/$Number$.mp4?x=1&amp;y=2")) }],
        SegmentTemplate := none }] }

/-- A server that answers every request with the status 200 and the bytes
of the URL as the body. -/
def echoServer : GoString → Except GoString SegmentResponse :=
  fun url => .ok { StatusCode := 200, body := url, copyErr := none }

/-- The result of the extraction by regular expressions for a manifest in
which it finds no initialization URL. -/
def noRegexResult : ManifestResult :=
  { directURL := [], initURL := [], mediaURLs := [], mimeType := [],
    err := some (lit "no initialization URL found in manifest") }

/-! ### backend/metadata.go: the lyrics and the duration of the track (claim C17) -/

/-- The position of the first occurrence of `substr` in `s`, if any. -/
def indexAux (substr : GoString) : GoString → Option Nat
  | [] => if substr = [] then some 0 else none
  | b :: t =>
    if (matchLit substr (b :: t)).isSome then some 0
    else (indexAux substr t).map fun i => i + 1

/-- The function `strings.Index`. -/
def strings.Index (s substr : GoString) : Int :=
  match indexAux substr s with
  | some i => Int.ofNat i
  | none => -1

/-- The call `fmt.Sscanf(timestamp, "%d:%d.%d", &minutes, &seconds,
&centiseconds)`: the number of operands scanned and their values, 0 for an
operand that was not scanned. -/
def fmt.Sscanf_timestamp (timestamp : GoString) : Nat × Int × Int × Int :=
  match fmt.scanInt (rangeRunes timestamp) with
  | none => (0, 0, 0, 0)
  | some (minutes, r1) =>
    match r1 with
    | 58 :: r2 =>
      match fmt.scanInt r2 with
      | none => (1, minutes, 0, 0)
      | some (seconds, r3) =>
        match r3 with
        | 46 :: r4 =>
          match fmt.scanInt r4 with
          | none => (2, minutes, seconds, 0)
          | some (centiseconds, _) => (3, minutes, seconds, centiseconds)
        | _ => (2, minutes, seconds, 0)
    | _ => (1, minutes, 0, 0)

/-- The function `parseLRCTimestamp` (metadata.go lines 681 to 688).  The
arithmetic is that of `int64`. -/
def parseLRCTimestamp (timestamp : GoString) : Int :=
  match fmt.Sscanf_timestamp timestamp with
  | (n, minutes, seconds, centiseconds) =>
    if n ≥ 2 then wrap64 (minutes * 60 * 1000 + seconds * 1000 + centiseconds * 10)
    else -1

/-- The body of the loop over the lines in `validateLyricsDuration`
(metadata.go lines 646 to 676): whether `line` is appended to
`validLines`. -/
def keepsLine (durationMs : Int) (line : GoString) : Bool :=
  let trimmedLine := strings.TrimSpaceString line
  if trimmedLine = [] then true
  else if strings.HasPrefix trimmedLine (lit "[") then
    let closeBracket := strings.Index trimmedLine (lit "]")
    if closeBracket > 0 then
      let timestampStr := (trimmedLine.take closeBracket.toNat).drop 1
      let ms := parseLRCTimestamp timestampStr
      if ms ≥ 0 then decide (ms ≤ durationMs) else true
    else false
  else true

/-- What `GetAudioDuration` gives: the `float64` number of seconds, by its
sign and by the value of `int64(duration * 1000)`. -/
structure AudioDuration where
  positive : Bool
  millis : Int

/-- The function `validateLyricsDuration` (metadata.go lines 626 to 679),
over the result of `GetAudioDuration` for the file. -/
def validateLyricsDuration (duration : Except GoString AudioDuration) (lyrics : GoString) :
    GoString :=
  match duration with
  | .error _ => lyrics
  | .ok d =>
    if ! d.positive then lyrics
    else
      strings.Join ((strings.Split lyrics (lit "\n")).filter (keepsLine d.millis)) (lit "\n")

/-! ### backend/metadata.go: the tags of a FLAC file (claims C18 to C20)

A metadata block is given by its type and its content.  The content of a
vorbis-comment block that `flacvorbis.ParseFromMetaDataBlock` can read is
given by what it reads, the vendor string and the comments, which is also
what `Marshal` writes; any other content is given by its bytes. -/

/-- The type `flac.BlockType`. -/
inductive flac.BlockType where
  | StreamInfo | Padding | Application | SeekTable | VorbisComment | CueSheet | Picture
  | Reserved | Invalid
  deriving DecidableEq

/-- The content of a metadata block. -/
inductive flac.BlockData where
  | raw (bytes : List Nat)
  | comments (vendor : GoString) (comments : List GoString)
  deriving DecidableEq

/-- The type `flac.MetaDataBlock`; `blockType` is its field `Type`. -/
structure flac.MetaDataBlock where
  blockType : flac.BlockType
  Data : flac.BlockData
  deriving DecidableEq

/-- The type `flacvorbis.MetaDataBlockVorbisComment`. -/
structure flacvorbis.MetaDataBlockVorbisComment where
  Vendor : GoString
  Comments : List GoString
  deriving DecidableEq

/-- The function `flacvorbis.New` for the vendor string of the library. -/
def flacvorbis.New (vendor : GoString) : flacvorbis.MetaDataBlockVorbisComment :=
  { Vendor := vendor, Comments := [] }

/-- The method `Add` of the library: the comment `key=val` is appended,
unless the key holds a character below U+0020, above U+007D or `=`, for
which `Add` returns an error that the callers in metadata.go drop. -/
def flacvorbis.Add (c : flacvorbis.MetaDataBlockVorbisComment) (key val : GoString) :
    flacvorbis.MetaDataBlockVorbisComment :=
  if (rangeRunes key).all fun char => ! (decide (char < 0x20) || decide (char > 0x7d) ||
      decide (char = 61)) then
    { c with Comments := c.Comments ++ [key ++ lit "=" ++ val] }
  else c

/-- The method `Marshal` of a vorbis comment. -/
def flacvorbis.Marshal (c : flacvorbis.MetaDataBlockVorbisComment) : flac.MetaDataBlock :=
  { blockType := .VorbisComment, Data := .comments c.Vendor c.Comments }

/-- The function `flacvorbis.ParseFromMetaDataBlock`, none for an error. -/
def flacvorbis.ParseFromMetaDataBlock (block : flac.MetaDataBlock) :
    Option flacvorbis.MetaDataBlockVorbisComment :=
  if block.blockType ≠ .VorbisComment then none
  else
    match block.Data with
    | .comments vendor comments => some { Vendor := vendor, Comments := comments }
    | .raw _ => none

/-- The type `Metadata` of metadata.go. -/
structure Metadata where
  Title : GoString
  Artist : GoString
  Album : GoString
  AlbumArtist : GoString
  Date : GoString
  ReleaseDate : GoString
  TrackNumber : Int
  TotalTracks : Int
  DiscNumber : Int
  TotalDiscs : Int
  URL : GoString
  Copyright : GoString
  Publisher : GoString
  Lyrics : GoString
  Description : GoString
  ISRC : GoString
  Genre : GoString

/-- The outside world of the embedders: the vendor string that
`flacvorbis.New` sets, `flac.ParseFile` (the metadata blocks of the file)
and `Save` (its error), `os.Stat` and `os.ReadFile` for the cover, the
content of the picture block that `flacpicture.NewFromImageData` and
`Marshal` make of an image, and `unicode.ToUpper` for the runes that are not
ASCII. -/
structure FlacWorld where
  Vendor : GoString
  ParseFile : GoString → Except GoString (List flac.MetaDataBlock)
  Save : GoString → List flac.MetaDataBlock → Option GoString
  fileExists : GoString → Bool
  ReadFile : GoString → Except GoString (List Nat)
  NewFromImageData : List Nat → Except GoString (List Nat)
  ToUpper : Nat → Nat

/-- What an embedder returns and does: the error, and the metadata blocks
that it saved to the file, none when the file was not written. -/
structure EmbedResult where
  err : Option GoString
  saved : Option (List flac.MetaDataBlock)

/-- The loop that looks for the first vorbis-comment block (metadata.go
lines 44 to 50): the value of `cmtIdx`, none for -1. -/
def cmtIdxOf : List flac.MetaDataBlock → Option Nat
  | [] => none
  | block :: rest =>
    if block.blockType = .VorbisComment then some 0 else (cmtIdxOf rest).map fun idx => idx + 1

/-- The assignment of the new comment block (metadata.go lines 103 to
108). -/
def putCommentBlock (meta : List flac.MetaDataBlock) (cmtBlock : flac.MetaDataBlock) :
    List flac.MetaDataBlock :=
  match cmtIdxOf meta with
  | none => meta ++ [cmtBlock]
  | some cmtIdx => meta.set cmtIdx cmtBlock

/-- The comment block that `EmbedMetadata` builds (metadata.go lines 52 to
101). -/
def metadataComment (vendor : GoString) (metadata : Metadata) :
    flacvorbis.MetaDataBlockVorbisComment :=
  let add (cond : Bool) (key val : GoString) (c : flacvorbis.MetaDataBlockVorbisComment) :=
    if cond then flacvorbis.Add c key val else c
  flacvorbis.New vendor
    |> add (decide (metadata.Title ≠ [])) (lit "TITLE") metadata.Title
    |> add (decide (metadata.Artist ≠ [])) (lit "ARTIST") metadata.Artist
    |> add (decide (metadata.Album ≠ [])) (lit "ALBUM") metadata.Album
    |> add (decide (metadata.AlbumArtist ≠ [])) (lit "ALBUMARTIST") metadata.AlbumArtist
    |> add (decide (metadata.Date ≠ [])) (lit "DATE") metadata.Date
    |> add (decide (metadata.TrackNumber > 0)) (lit "TRACKNUMBER") (fmt.d metadata.TrackNumber)
    |> add (decide (metadata.TotalTracks > 0)) (lit "TOTALTRACKS") (fmt.d metadata.TotalTracks)
    |> add (decide (metadata.DiscNumber > 0)) (lit "DISCNUMBER") (fmt.d metadata.DiscNumber)
    |> add (decide (metadata.TotalDiscs > 0)) (lit "TOTALDISCS") (fmt.d metadata.TotalDiscs)
    |> add (decide (metadata.Copyright ≠ [])) (lit "COPYRIGHT") metadata.Copyright
    |> add (decide (metadata.Publisher ≠ [])) (lit "PUBLISHER") metadata.Publisher
    |> add (decide (metadata.Description ≠ [])) (lit "DESCRIPTION") metadata.Description
    |> add (decide (metadata.ISRC ≠ [])) (lit "ISRC") metadata.ISRC
    |> add (decide (metadata.Genre ≠ [])) (lit "GENRE") metadata.Genre
    |> add (decide (metadata.Lyrics ≠ [])) (lit "LYRICS") metadata.Lyrics

/-- The loop of `embedCoverArt` that removes the picture blocks (metadata.go
lines 141 to 145), with `i + 1` the next value of the loop variable plus
one. -/
def removePictures : Nat → List flac.MetaDataBlock → List flac.MetaDataBlock
  | 0, meta => meta
  | i + 1, meta =>
    removePictures i
      (if (meta.get? i).map (fun block => block.blockType) = some .Picture then meta.eraseIdx i
      else meta)

/-- The function `embedCoverArt` (metadata.go lines 123 to 150): the error
and the metadata blocks. -/
def embedCoverArt (w : FlacWorld) (meta : List flac.MetaDataBlock) (coverPath : GoString) :
    Option GoString × List flac.MetaDataBlock :=
  match w.ReadFile coverPath with
  | .error err => (some (lit "failed to read cover image: " ++ err), meta)
  | .ok imgData =>
    match w.NewFromImageData imgData with
    | .error err => (some (lit "failed to create picture block: " ++ err), meta)
    | .ok picture =>
      (none,
        removePictures meta.length meta ++ [{ blockType := .Picture, Data := .raw picture }])

/-- The function `EmbedMetadata` (metadata.go lines 38 to 121). -/
def EmbedMetadata (w : FlacWorld) (filepath : GoString) (metadata : Metadata)
    (coverPath : GoString) : EmbedResult :=
  match w.ParseFile filepath with
  | .error err => { err := some (lit "failed to parse FLAC file: " ++ err), saved := none }
  | .ok meta =>
    let meta1 := putCommentBlock meta (flacvorbis.Marshal (metadataComment w.Vendor metadata))
    let meta2 :=
      if coverPath ≠ [] ∧ w.fileExists coverPath then (embedCoverArt w meta1 coverPath).2
      else meta1
    match w.Save filepath meta2 with
    | some err => { err := some (lit "failed to save FLAC file: " ++ err), saved := none }
    | none => { err := none, saved := some meta2 }

/-- The function `strings.ToUpper`, over `unicode.ToUpper` for the runes
that are not ASCII. -/
def strings.ToUpper (upper : Nat → Nat) (s : GoString) : GoString :=
  if s.all fun b => decide (b < 0x80) then
    s.map fun b => if 97 ≤ b ∧ b ≤ 122 then b - 32 else b
  else
    writeRunes ((rangeRunes s).map fun r =>
      if r < 0x80 then (if 97 ≤ r ∧ r ≤ 122 then r - 32 else r) else upper r)

/-- The call `strings.SplitN(s, sep, 2)` for a non-empty `sep`. -/
def strings.SplitN2 (s sep : GoString) : List GoString :=
  match indexAux sep s with
  | some i => [s.take i, s.drop (i + sep.length)]
  | none => [s]

/-- The body of the loop over the existing comments in `EmbedLyricsOnly`
(metadata.go lines 193 to 201). -/
def copyComment (w : FlacWorld) (cmt : flacvorbis.MetaDataBlockVorbisComment)
    (comment : GoString) : flacvorbis.MetaDataBlockVorbisComment :=
  match strings.SplitN2 comment (lit "=") with
  | [name, value] =>
    let fieldName := strings.ToUpper w.ToUpper name
    if fieldName ≠ lit "LYRICS" ∧ fieldName ≠ lit "UNSYNCEDLYRICS" ∧
        fieldName ≠ lit "SYNCEDLYRICS" then
      flacvorbis.Add cmt name value
    else cmt
  | _ => cmt

/-- The function `EmbedLyricsOnly` (metadata.go lines 168 to 218). -/
def EmbedLyricsOnly (w : FlacWorld) (filepath lyrics : GoString) : EmbedResult :=
  if lyrics = [] then { err := none, saved := none }
  else
    match w.ParseFile filepath with
    | .error err => { err := some (lit "failed to parse FLAC file: " ++ err), saved := none }
    | .ok meta =>
      let existingCmt : Option flacvorbis.MetaDataBlockVorbisComment :=
        match cmtIdxOf meta with
        | some idx => (meta.get? idx).bind flacvorbis.ParseFromMetaDataBlock
        | none => none
      let cmt : flacvorbis.MetaDataBlockVorbisComment :=
        match existingCmt with
        | some existing => existing.Comments.foldl (copyComment w) (flacvorbis.New w.Vendor)
        | none => flacvorbis.New w.Vendor
      let meta1 := putCommentBlock meta
        (flacvorbis.Marshal (flacvorbis.Add cmt (lit "LYRICS") lyrics))
      match w.Save filepath meta1 with
      | some err => { err := some (lit "failed to save FLAC file: " ++ err), saved := none }
      | none => { err := none, saved := some meta1 }

/-- The record with all fields zero. -/
def Metadata.zero : Metadata :=
  { Title := [], Artist := [], Album := [], AlbumArtist := [], Date := [], ReleaseDate := [],
    TrackNumber := 0, TotalTracks := 0, DiscNumber := 0, TotalDiscs := 0, URL := [],
    Copyright := [], Publisher := [], Lyrics := [], Description := [], ISRC := [],
    Genre := [] }

/-- An outside world in which every path holds a FLAC file with the
metadata blocks `meta` that can be saved, and every cover path holds a file
of two bytes of which the picture library makes `picture`. -/
def flacWorld (meta : List flac.MetaDataBlock) (picture : Except GoString (List Nat)) :
    FlacWorld :=
  { Vendor := lit "flacvorbis 0.1.0",
    ParseFile := fun _ => .ok meta,
    Save := fun _ _ => none,
    fileExists := fun _ => true,
    ReadFile := fun _ => .ok [0xFF, 0xD8],
    NewFromImageData := fun _ => picture,
    ToUpper := fun r => r }

/-- The stream-info block of the example files. -/
def streamInfoBlock : flac.MetaDataBlock := { blockType := .StreamInfo, Data := .raw [0x10] }

/-- A picture block with the given bytes. -/
def pictureBlock (bytes : List Nat) : flac.MetaDataBlock :=
  { blockType := .Picture, Data := .raw bytes }

/-- A vorbis-comment block of another program with the given comments. -/
def taggedBlock (comments : List GoString) : flac.MetaDataBlock :=
  { blockType := .VorbisComment, Data := .comments (lit "reference libFLAC 1.4.3") comments }

/-- The ASCII letters of `s` in upper case. -/
def asciiUpper (s : GoString) : GoString :=
  s.map fun b => if 97 ≤ b ∧ b ≤ 122 then b - 32 else b

/-- The name of a comment: what stands before its first `=`. -/
def commentName (comment : GoString) : GoString :=
  comment.takeWhile fun b => decide (b ≠ 61)

/-- Whether the name of a comment is `LYRICS`, `UNSYNCEDLYRICS` or
`SYNCEDLYRICS`, compared without regard to case. -/
def isLyricsComment (comment : GoString) : Bool :=
  decide (asciiUpper (commentName comment) = lit "LYRICS") ||
  decide (asciiUpper (commentName comment) = lit "UNSYNCEDLYRICS") ||
  decide (asciiUpper (commentName comment) = lit "SYNCEDLYRICS")

/-- Whether a comment has the form `name=value` with a field name of the
Vorbis comment format: characters from U+0020 to U+007D. -/
def wellFormedComment (comment : GoString) : Bool :=
  (comment.any fun b => decide (b = 61)) &&
  (commentName comment).all fun b => decide (0x20 ≤ b) && decide (b ≤ 0x7d)

/-- The comments of the first vorbis-comment block of a file: no comments
when the file has no such block, and none when the block cannot be read. -/
def existingComments (meta : List flac.MetaDataBlock) : Option (List GoString) :=
  match meta.find? fun block => decide (block.blockType = .VorbisComment) with
  | some block =>
    match block.Data with
    | .comments _ comments => some comments
    | .raw _ => none
  | none => some []


/-- A file with a stream-info block, a comment block with three comments,
one of them lyrics, and a picture block. -/
def taggedFile : List flac.MetaDataBlock :=
  [streamInfoBlock, taggedBlock [lit "TITLE=Song", lit "lyrics=old", lit "MOOD=calm"],
    pictureBlock [1]]

/-- Whether a block is a vorbis-comment block. -/
def isCommentBlock (block : flac.MetaDataBlock) : Bool :=
  decide (block.blockType = .VorbisComment)

/-- Whether a block is a picture block. -/
def isPictureBlock (block : flac.MetaDataBlock) : Bool :=
  decide (block.blockType = .Picture)

/-- A file with two picture blocks around a comment block. -/
def twoCovers : List flac.MetaDataBlock :=
  [streamInfoBlock, pictureBlock [1], taggedBlock [lit "TITLE=Old"], pictureBlock [2]]

/-! ### The defaults of `DownloadTrack` (claims C21 and C27) -/

/-- The value `value`, or `fallback` when `value` is empty. -/
def orDefault (value fallback : GoString) : GoString :=
  if value = [] then fallback else value

/-- The service whose strategy is called. -/
def StrategyCall.service : StrategyCall → GoString
  | .AmazonDownloadByURL .. => lit "amazon"
  | .AmazonDownloadBySpotifyID .. => lit "amazon"
  | .TidalDownloadByURLWithFallback .. => lit "tidal"
  | .TidalDownload .. => lit "tidal"
  | .TidalDownloadByURL .. => lit "tidal"
  | .QobuzDownloadTrackWithISRC .. => lit "qobuz"
  | .DeezerDownload .. => lit "deezer"

/-- The argument `outputDir` of a strategy call. -/
def StrategyCall.outputDir : StrategyCall → GoString
  | .AmazonDownloadByURL _ outputDir _ _ _ _ => outputDir
  | .AmazonDownloadBySpotifyID _ outputDir _ _ _ _ => outputDir
  | .TidalDownloadByURLWithFallback _ _ outputDir _ _ _ _ => outputDir
  | .TidalDownload _ _ outputDir _ _ _ _ => outputDir
  | .TidalDownloadByURL _ _ outputDir _ _ _ _ => outputDir
  | .QobuzDownloadTrackWithISRC _ _ outputDir _ _ _ _ => outputDir
  | .DeezerDownload _ outputDir _ _ _ => outputDir

/-- The argument `quality` of a strategy call; the Deezer strategy has
none. -/
def StrategyCall.quality : StrategyCall → Option GoString
  | .AmazonDownloadByURL _ _ quality _ _ _ => some quality
  | .AmazonDownloadBySpotifyID _ _ quality _ _ _ => some quality
  | .TidalDownloadByURLWithFallback _ _ _ quality _ _ _ => some quality
  | .TidalDownload _ _ _ quality _ _ _ => some quality
  | .TidalDownloadByURL _ _ _ quality _ _ _ => some quality
  | .QobuzDownloadTrackWithISRC _ _ _ quality _ _ _ => some quality
  | .DeezerDownload .. => none

/-- The argument `filenameFormat` of a strategy call. -/
def StrategyCall.filenameFormat : StrategyCall → GoString
  | .AmazonDownloadByURL _ _ _ filenameFormat _ _ => filenameFormat
  | .AmazonDownloadBySpotifyID _ _ _ filenameFormat _ _ => filenameFormat
  | .TidalDownloadByURLWithFallback _ _ _ _ filenameFormat _ _ => filenameFormat
  | .TidalDownload _ _ _ _ filenameFormat _ _ => filenameFormat
  | .TidalDownloadByURL _ _ _ _ filenameFormat _ _ => filenameFormat
  | .QobuzDownloadTrackWithISRC _ _ _ _ filenameFormat _ _ => filenameFormat
  | .DeezerDownload _ _ filenameFormat _ _ => filenameFormat

/-- The strategy call of an event, if it is one. -/
def Event.call? : Event → Option StrategyCall
  | .strategy call => some call
  | _ => none

/-- A request with the names of a track and nothing else. -/
def bareRequest : DownloadRequest :=
  { DownloadRequest.zero with TrackName := lit "Song", ArtistName := lit "Artist" }

/-- A Qobuz request that leaves the audio format unset. -/
def qobuzRequest : DownloadRequest :=
  { DownloadRequest.zero with
    Service := lit "qobuz", SpotifyID := lit "abc123", TrackName := lit "Song",
    ArtistName := lit "Artist", OutputDir := lit "out" }

/-! ### backend/songlink.go: the rate limiter of the resolver (claims C22 and C23)

Times are instants of the monotonic clock and durations are `int64` numbers
of nanoseconds, as in the package `time`. -/

/-- The constant `time.Second`. -/
def time.Second : Int := 1000000000

/-- The constant `time.Minute`. -/
def time.Minute : Int := 60 * time.Second

/-- The method `Time.Sub`: the duration `t - u`, or the greatest or least
duration when the difference does not fit. -/
def time.Sub (t u : Int) : Int :=
  if t - u > 2 ^ 63 - 1 then 2 ^ 63 - 1
  else if t - u < - 2 ^ 63 then - 2 ^ 63
  else t - u

/-- The fields of `SongLinkClient` that the rate limiter uses;
`lastAPICallTime` is none for the zero `Time`. -/
structure SongLinkClient where
  lastAPICallTime : Option Int
  apiCallCount : Int
  apiCallResetTime : Int

/-- The outside world of one call of the resolver: the error of
`http.NewRequest`, the answer of the upstream to the attempt with index
`i` (the error of `client.Do` or the status code), and the time that passes
in the call besides the time asked of `time.Sleep`: `elapsed 0` from the end
of the pause for the per-minute cap to the reading of the clock after it,
`elapsed 1` from there to the first request besides the pause for the
spacing, `elapsed (2 + 2 * i)` from the request of attempt `i` to the
reading of the clock after its answer, and `elapsed (3 + 2 * i)` from there
to the request of the next attempt besides the pause before the retry. -/
structure SongLinkWorld where
  NewRequest : Option GoString
  Do : Nat → Except GoString Int
  elapsed : Nat → Nat

/-- What a call of the resolver does up to the end of its retry loop: the
client after it, the instants at which it sent a request to the upstream,
the durations it passed to `time.Sleep`, the instant at which the loop is
left, and the error with which the call returns there, none when the loop
is left with an answer of status 200, which the call decodes afterwards. -/
structure SongLinkOutcome where
  client : SongLinkClient
  sent : List Int
  slept : List Int
  clock : Int
  err : Option GoString

/-- The retry loop of `GetAllURLsFromSpotify` (songlink.go lines 90 to 118)
from the attempt with index `i` on; `fuel` bounds the number of attempts
that are left. -/
def SongLinkClient.attempts (w : SongLinkWorld) (maxRetries : Nat) :
    Nat → Nat → SongLinkClient → Int → List Int → List Int → SongLinkOutcome
  | 0, _, s, clock, sent, slept =>
    { client := s, sent := sent, slept := slept, clock := clock, err := none }
  | fuel + 1, i, s, clock, sent, slept =>
    match w.Do i with
    | .error err =>
      { client := s, sent := sent ++ [clock], slept := slept,
        clock := clock + w.elapsed (2 + 2 * i),
        err := some (lit "failed to get URLs: " ++ err) }
    | .ok status =>
      let t := clock + w.elapsed (2 + 2 * i)
      let s1 : SongLinkClient :=
        { lastAPICallTime := some t, apiCallCount := wrap64 (s.apiCallCount + 1),
          apiCallResetTime := s.apiCallResetTime }
      if status = 429 then
        if i < maxRetries - 1 then
          SongLinkClient.attempts w maxRetries fuel (i + 1) s1
            (t + 15 * time.Second + w.elapsed (3 + 2 * i)) (sent ++ [clock])
            (slept ++ [15 * time.Second])
        else
          { client := s1, sent := sent ++ [clock], slept := slept, clock := t,
            err := some (lit "API rate limit exceeded after " ++ fmt.d maxRetries ++
              lit " retries") }
      else if status ≠ 200 then
        { client := s1, sent := sent ++ [clock], slept := slept, clock := t,
          err := some (lit "API returned status " ++ fmt.d status) }
      else
        { client := s1, sent := sent ++ [clock], slept := slept, clock := t, err := none }

/-- The window of the per-minute cap (songlink.go lines 49 to 53). -/
def SongLinkClient.resetWindow (s : SongLinkClient) (now : Int) : SongLinkClient :=
  if time.Sub now s.apiCallResetTime ≥ time.Minute then
    { lastAPICallTime := s.lastAPICallTime, apiCallCount := 0, apiCallResetTime := now }
  else s

/-- The method `SongLinkClient.GetAllURLsFromSpotify` (songlink.go lines 47
to 118) called at the instant `now`, up to the end of its retry loop. -/
def SongLinkClient.GetAllURLsFromSpotify (w : SongLinkWorld) (s : SongLinkClient) (now : Int) :
    SongLinkOutcome :=
  let s1 := s.resetWindow now
  let capWait := wrap64 (time.Minute - time.Sub now s1.apiCallResetTime)
  let capped := decide (s1.apiCallCount ≥ 9) && decide (capWait > 0)
  let clock1 := if capped then now + capWait + w.elapsed 0 else now
  let s2 : SongLinkClient :=
    if capped then
      { lastAPICallTime := s1.lastAPICallTime, apiCallCount := 0, apiCallResetTime := clock1 }
    else s1
  let timeSinceLastCall := match s2.lastAPICallTime with
    | some t => time.Sub now t
    | none => 0
  let spaced := s2.lastAPICallTime.isSome && decide (timeSinceLastCall < 7 * time.Second)
  let spaceWait := wrap64 (7 * time.Second - timeSinceLastCall)
  let clock2 := (if spaced then clock1 + max spaceWait 0 else clock1) + w.elapsed 1
  let slept := (if capped then [capWait] else []) ++ (if spaced then [spaceWait] else [])
  match w.NewRequest with
  | some err =>
    { client := s2, sent := [], slept := slept, clock := clock2,
      err := some (lit "failed to create request: " ++ err) }
  | none => SongLinkClient.attempts w 3 3 0 s2 clock2 [] slept

/-- The function `NewSongLinkClient` at the instant `now`. -/
def NewSongLinkClient (now : Int) : SongLinkClient :=
  { lastAPICallTime := none, apiCallCount := 0, apiCallResetTime := now }

/-- A run of calls on one client, each made `gap` nanoseconds after the one
before it returned: the outcomes of the calls, in order. -/
def runCalls : List (Nat × SongLinkWorld) → SongLinkClient → Int → List SongLinkOutcome
  | [], _, _ => []
  | (gap, w) :: rest, s, clock =>
    let o := SongLinkClient.GetAllURLsFromSpotify w s (clock + gap)
    o :: runCalls rest o.client o.clock

/-- An upstream that answers every request at once with the status
`status`. -/
def upstreamAnswering (status : Int) : SongLinkWorld :=
  { NewRequest := none, Do := fun _ => .ok status, elapsed := fun _ => 0 }

/-! ### backend/ffmpeg.go and its callers: the external programs (claim C24) -/

/-- What `os.Stat` tells of a file. -/
structure FileInfo where
  IsDir : Bool
  Mode : Nat
  Size : Int

/-- The operating system as `ValidateExecutable` and the path look-ups see
it, and the result of running a command: its output and its error. -/
structure OSWorld where
  GOOS : GoString
  Clean : GoString → GoString
  IsAbs : GoString → Bool
  Base : GoString → GoString
  Join : GoString → GoString → GoString
  Stat : GoString → Except GoString FileInfo
  UserHomeDir : Except GoString GoString
  LookPath : GoString → Except GoString GoString
  Run : GoString → List GoString → GoString × Option GoString
  Remove : GoString → Option GoString
  Rename : GoString → GoString → Option GoString

/-- The function `ValidateExecutable` (ffmpeg.go lines 21 to 58): the
error, none for `nil`. -/
def ValidateExecutable (os : OSWorld) (path : GoString) : Option GoString :=
  let cleanedPath := os.Clean path
  if cleanedPath = [] then some (lit "empty path")
  else if ! os.IsAbs cleanedPath then some (lit "path must be absolute: " ++ path)
  else
    match os.Stat cleanedPath with
    | .error err => some (lit "failed to stat file: " ++ err)
    | .ok info =>
      if info.IsDir then some (lit "path is a directory: " ++ path)
      else if os.GOOS ≠ lit "windows" ∧ info.Mode &&& 0o111 = 0 then
        some (lit "file is not executable: " ++ path)
      else
        let base := os.Base cleanedPath
        if base = lit "ffmpeg" ∨ base = lit "ffmpeg.exe" ∨ base = lit "ffprobe" ∨
            base = lit "ffprobe.exe" then none
        else some (lit "invalid executable name: " ++ base)

/-- The function `GetFFmpegDir` (ffmpeg.go lines 60 to 66). -/
def GetFFmpegDir (os : OSWorld) : Except GoString GoString :=
  match os.UserHomeDir with
  | .error err => .error (lit "failed to get home directory: " ++ err)
  | .ok homeDir => .ok (os.Join homeDir (lit ".spotiflac"))

/-- The function `GetFFmpegPath` (ffmpeg.go lines 68 to 90): the path and
the error. -/
def GetFFmpegPath (os : OSWorld) : GoString × Option GoString :=
  match GetFFmpegDir os with
  | .error err => ([], some err)
  | .ok ffmpegDir =>
    let ffmpegName := if os.GOOS = lit "windows" then lit "ffmpeg.exe" else lit "ffmpeg"
    let localPath := os.Join ffmpegDir ffmpegName
    match os.Stat localPath with
    | .ok _ => (localPath, none)
    | .error _ =>
      match os.LookPath ffmpegName with
      | .ok path => (path, none)
      | .error _ => (localPath, none)

/-- The function `GetFFprobePath` (ffmpeg.go lines 92 to 114). -/
def GetFFprobePath (os : OSWorld) : GoString × Option GoString :=
  match GetFFmpegDir os with
  | .error err => ([], some err)
  | .ok ffmpegDir =>
    let ffprobeName := if os.GOOS = lit "windows" then lit "ffprobe.exe" else lit "ffprobe"
    let localPath := os.Join ffmpegDir ffprobeName
    match os.Stat localPath with
    | .ok _ => (localPath, none)
    | .error _ =>
      match os.LookPath ffprobeName with
      | .ok path => (path, none)
      | .error _ =>
        (localPath, some (lit "ffprobe not found in app directory or system path"))

/-- What the code does with the external programs, in order: a call of
`ValidateExecutable` for a path with its result, and the run of a command
made by `exec.Command` for a path. -/
inductive ExecEvent where
  | validate (path : GoString) (ok : Bool)
  | invoke (path : GoString) (args : List GoString)
  deriving DecidableEq

/-- The function `strings.TrimSuffix`. -/
def strings.TrimSuffix (s suffix : GoString) : GoString :=
  if strings.HasSuffix s suffix then s.take (s.length - suffix.length) else s

/-- The decryption step of `AmazonDownloader.DownloadFromAfkarXYZ` (amazon.go
lines 176 to 256) for the downloaded file `filePath` with the name
`fileName`: the events, and the path or the error that the method
returns. -/
def AmazonDownloader.decrypt (os : OSWorld) (filePath fileName outputDir DecryptionKey : GoString) :
    List ExecEvent × Except GoString GoString :=
  if DecryptionKey ≠ [] then
    let ffprobe := GetFFprobePath os
    let probeArgs := [lit "-v", lit "quiet", lit "-select_streams", lit "a:0",
      lit "-show_entries", lit "stream=codec_name", lit "-of",
      lit "default=noprint_wrappers=1:nokey=1", filePath]
    let probed : List ExecEvent × GoString :=
      match ffprobe.2 with
      | none =>
        ([ExecEvent.invoke ffprobe.1 probeArgs],
          strings.TrimSpaceString (os.Run ffprobe.1 probeArgs).1)
      | some _ => ([], [])
    let codec := probed.2
    let targetExt := if codec = lit "flac" then lit ".flac" else lit ".m4a"
    let decryptedFilename :=
      if targetExt = lit ".flac" ∧ strings.HasSuffix fileName (lit ".m4a") then
        lit "dec_" ++ strings.TrimSuffix fileName (lit ".m4a") ++ lit ".flac"
      else lit "dec_" ++ fileName ++ targetExt
    let decryptedPath := os.Join outputDir decryptedFilename
    let ffmpeg := GetFFmpegPath os
    match ffmpeg.2 with
    | some err => (probed.1, .error (lit "ffmpeg not found for decryption: " ++ err))
    | none =>
      match ValidateExecutable os ffmpeg.1 with
      | some err =>
        (probed.1 ++ [ExecEvent.validate ffmpeg.1 false],
          .error (lit "invalid ffmpeg executable: " ++ err))
      | none =>
        let key := strings.TrimSpaceString DecryptionKey
        let args := [lit "-decryption_key", key, lit "-i", filePath, lit "-c", lit "copy",
          lit "-y", decryptedPath]
        let events := probed.1 ++ [ExecEvent.validate ffmpeg.1 true, ExecEvent.invoke ffmpeg.1 args]
        match os.Run ffmpeg.1 args with
        | (output, some err) =>
          let outStr := if output.length > 500 then output.drop (output.length - 500) else output
          (events, .error (lit "ffmpeg decryption failed: " ++ err ++ lit "\nTail Output: " ++
            outStr))
        | (_, none) =>
          let present := match os.Stat decryptedPath with
            | .ok info => decide (info.Size ≠ 0)
            | .error _ => false
          if ! present then (events, .error (lit "decrypted file missing or empty"))
          else
            let finalPath := os.Join outputDir (strings.TrimPrefix decryptedFilename (lit "dec_"))
            match os.Rename decryptedPath finalPath with
            | some err => (events, .error (lit "failed to rename decrypted file: " ++ err))
            | none => (events, .ok finalPath)
  else ([], .ok filePath)

/-- The transcoding step of `TidalDownloader.DownloadFromManifest` (tidal.go
lines 424 to 448): the events and the error. -/
def TidalDownloader.convert (os : OSWorld) (tempPath outputPath : GoString) :
    List ExecEvent × Option GoString :=
  let ffmpeg := GetFFmpegPath os
  match ffmpeg.2 with
  | some err => ([], some (lit "ffmpeg not found: " ++ err))
  | none =>
    match ValidateExecutable os ffmpeg.1 with
    | some err =>
      ([ExecEvent.validate ffmpeg.1 false], some (lit "invalid ffmpeg executable: " ++ err))
    | none =>
      let args := [lit "-y", lit "-i", tempPath, lit "-vn", lit "-c:a", lit "flac", outputPath]
      let events := [ExecEvent.validate ffmpeg.1 true, ExecEvent.invoke ffmpeg.1 args]
      match os.Run ffmpeg.1 args with
      | (stderr, some err) =>
        let m4aPath := strings.TrimSuffix outputPath (lit ".flac") ++ lit ".m4a"
        (events, some (lit "ffmpeg conversion failed (M4A saved as " ++ m4aPath ++ lit "): " ++
          err ++ lit " - " ++ stderr))
      | (_, none) => (events, none)

/-- Whether every run of a command in the events comes after a successful
`ValidateExecutable` for the same path; `validated` holds the paths
validated so far. -/
def validatedFirst (validated : List GoString) : List ExecEvent → Bool
  | [] => true
  | .validate path ok :: rest =>
    validatedFirst (if ok then path :: validated else validated) rest
  | .invoke path _ :: rest => decide (path ∈ validated) && validatedFirst validated rest

/-- A Unix system on which `ffmpeg` is installed in the directory of the
application and the entry `ffprobe` of that directory is a directory. -/
def brokenProbe : OSWorld :=
  { GOOS := lit "linux",
    Clean := fun p => p,
    IsAbs := fun p => strings.HasPrefix p (lit "/"),
    Base := fun p => (strings.Split p (lit "/")).getLastD [],
    Join := fun dir file => dir ++ lit "/" ++ file,
    Stat := fun p =>
      if p = lit "/home/u/.spotiflac/ffmpeg" then .ok { IsDir := false, Mode := 0o755, Size := 1 }
      else if p = lit "/home/u/.spotiflac/ffprobe" then
        .ok { IsDir := true, Mode := 0o755, Size := 0 }
      else .error (lit "no such file or directory"),
    UserHomeDir := .ok (lit "/home/u"),
    LookPath := fun _ => .error (lit "executable file not found in $PATH"),
    Run := fun _ _ => ([], some (lit "exit status 1")),
    Remove := fun _ => none,
    Rename := fun _ _ => none }

/-! ### app.go: the completion signals of the side fetches (claim C25) -/

/-- The values that the goroutine of the lyrics fetch sends on `lyricsChan`
(app.go lines 343 to 352), for the error and the number of lines that
`FetchLyricsAllSources` gives (none for a `nil` response) and the text
`lrc` that `ConvertToLRC` makes. -/
def lyricsProducer (err : Option GoString) (lines : Option Nat) (lrc : GoString) :
    List GoString :=
  if err.isNone && (match lines with
      | some n => decide (n > 0)
      | none => false) then [lrc]
  else [[]]

/-- The values that the goroutine of the ISRC fetch sends on `isrcChan`
(app.go lines 357 to 361). -/
def isrcProducer (isrc : GoString) : List GoString := [isrc]

/-- The state of a completion signal, a channel with one slot: no producer
started and not closed; a producer started that sends one value, which was
not received yet; closed; or the one value received. -/
inductive SignalState where
  | idle | pending | closed | drained
  deriving DecidableEq

/-- A blocking receive on a signal: the state after it, none when the receive
blocks forever (no producer and not closed, or the one value is gone). -/
def SignalState.receive : SignalState → Option SignalState
  | .pending => some .drained
  | .closed => some .closed
  | .idle => none
  | .drained => none

/-- Whether every blocking receive in the events returns, given that the
producers return: `lyrics` and `isrc` are the states of the two signals
before the events.  The poll of `select` with a `default` case does not
block; it may take the value. -/
def waitsReturn : SignalState → SignalState → List Event → Bool
  | _, _, [] => true
  | _, isrc, .goFetchLyrics :: rest => waitsReturn .pending isrc rest
  | _, isrc, .closeLyricsChan :: rest => waitsReturn .closed isrc rest
  | lyrics, _, .goGetISRC :: rest => waitsReturn lyrics .pending rest
  | lyrics, _, .closeIsrcChan :: rest => waitsReturn lyrics .closed rest
  | lyrics, isrc, .receiveIsrc :: rest =>
    match isrc.receive with
    | some isrc1 => waitsReturn lyrics isrc1 rest
    | none => false
  | lyrics, isrc, .receiveLyrics :: rest =>
    match lyrics.receive with
    | some lyrics1 => waitsReturn lyrics1 isrc rest
    | none => false
  | lyrics, isrc, .pollLyrics :: rest =>
    waitsReturn (if lyrics = .pending then .drained else lyrics) isrc rest
  | lyrics, isrc, _ :: rest => waitsReturn lyrics isrc rest

/-- The events on the two completion signals. -/
def Event.isSignal : Event → Bool
  | .goFetchLyrics => true
  | .closeLyricsChan => true
  | .goGetISRC => true
  | .closeIsrcChan => true
  | .receiveIsrc => true
  | .receiveLyrics => true
  | .pollLyrics => true
  | _ => false

/-! ### backend/filename.go: the first artist (claim C26) -/

/-- The function `strings.ToLower`, over `unicode.ToLower` for the runes
that are not ASCII: a string of ASCII bytes is lowered byte by byte, any
other string rune by rune through `strings.Map`, which writes U+FFFD for a
byte that is no UTF-8. -/
def strings.ToLower (lower : Nat → Nat) (s : GoString) : GoString :=
  if s.all fun b => decide (b < 0x80) then
    s.map fun b => if 65 ≤ b ∧ b ≤ 90 then b + 32 else b
  else
    writeRunes ((rangeRunes s).map fun r =>
      if r < 0x80 then (if 65 ≤ r ∧ r ≤ 90 then r + 32 else r) else lower r)

/-- The loop over the delimiters in `GetFirstArtist` (filename.go lines 127
to 131): the result, or the message of the run-time panic of the slice
expression `artistString[:idx]` when `idx` is above the length. -/
def GetFirstArtist.loop (lower : Nat → Nat) (artistString : GoString) :
    List GoString → Except GoString GoString
  | [] => .ok artistString
  | d :: rest =>
    let idx := strings.Index (strings.ToLower lower artistString) d
    if idx ≠ -1 then
      if idx > artistString.length then
        .error (lit "runtime error: slice bounds out of range [:" ++ fmt.d idx ++
          lit "] with length " ++ fmt.d artistString.length)
      else .ok (strings.TrimSpaceString (artistString.take idx.toNat))
    else GetFirstArtist.loop lower artistString rest

/-- The function `GetFirstArtist` (filename.go lines 122 to 133). -/
def GetFirstArtist (lower : Nat → Nat) (artistString : GoString) : Except GoString GoString :=
  if artistString = [] then .ok []
  else
    GetFirstArtist.loop lower artistString
      [lit ", ", lit " & ", lit " feat. ", lit " ft. ", lit " featuring "]

/-- The function `unicode.ToLower` on the letters of the example: U+023A,
the capital A with stroke, has the lower case U+2C65, and U+023E, the
capital T with diagonal stroke, has the lower case U+2C66; the other runes
that occur are left as they are. -/
def lowerStroke (r : Nat) : Nat :=
  if r = 0x23A then 0x2C65 else if r = 0x23E then 0x2C66 else r

/-- An artist string: four times U+023A, two bytes each in UTF-8, then
`, B`. -/
def strokeArtist : GoString := [0xC8, 0xBA, 0xC8, 0xBA, 0xC8, 0xBA, 0xC8, 0xBA] ++ lit ", B"

/-! ### backend/lyrics.go: the LRC timestamps (claim C30) -/

/-- The call `fmt.Sscanf(s, "%d", &ms)` for `var ms int64`: the value of
`ms` after it, 0 when nothing was scanned. -/
def fmt.Sscanf_d (s : GoString) : Int :=
  match fmt.scanInt (rangeRunes s) with
  | some (ms, _) => ms
  | none => 0

/-- The function `msToLRCTimestamp` (lyrics.go lines 352 to 362); the
division and the remainder of Go round towards zero. -/
def msToLRCTimestamp (msStr : GoString) : GoString :=
  let ms := fmt.Sscanf_d msStr
  let totalSeconds := ms.tdiv 1000
  let minutes := totalSeconds.tdiv 60
  let seconds := totalSeconds.tmod 60
  let centiseconds := (ms.tmod 1000).tdiv 10
  lit "[" ++ fmt.d02 minutes ++ lit ":" ++ fmt.d02 seconds ++ lit "." ++ fmt.d02 centiseconds ++
    lit "]"

/-- The function `lrcTimestampToMs` (lyrics.go lines 166 to 174).  The
arithmetic is that of `int64`. -/
def lrcTimestampToMs (timestamp : GoString) : Int :=
  match fmt.Sscanf_timestamp timestamp with
  | (n, minutes, seconds, centiseconds) =>
    if n ≥ 2 then wrap64 (minutes * 60 * 1000 + seconds * 1000 + centiseconds * 10)
    else 0

/-- The text between the first and the last byte of a timestamp in
brackets. -/
def betweenBrackets (timestamp : GoString) : GoString := (timestamp.drop 1).dropLast

/-! ## Facts about the library functions -/

/-- A matcher consumes input: what it leaves after a match is a suffix of
the tail of its input. -/
def Consuming (m : List Nat → Option (List Nat)) : Prop :=
  ∀ b t rest, m (b :: t) = some rest → rest <:+ t

theorem replaceMatches_fuel_irrel {m : List Nat → Option (List Nat)} (hm : Consuming m)
    (repl : List Nat) :
    ∀ fuel1 fuel2 s, s.length ≤ fuel1 → s.length ≤ fuel2 →
      replaceMatches m repl fuel1 s = replaceMatches m repl fuel2 s := by
  intro fuel1
  induction fuel1 with
  | zero =>
    intro fuel2 s h1 _
    have hs : s = [] := List.length_eq_zero.mp (Nat.le_zero.mp h1)
    subst hs
    cases fuel2 <;> rfl
  | succ n ih =>
    intro fuel2 s h1 h2
    cases s with
    | nil => cases fuel2 <;> rfl
    | cons b t =>
      cases fuel2 with
      | zero => simp at h2
      | succ k =>
        simp only [List.length_cons, Nat.add_le_add_iff_right] at h1 h2
        simp only [replaceMatches]
        cases hmt : m (b :: t) with
        | none => simp only [ih k t h1 h2]
        | some rest =>
          have hl : rest.length ≤ t.length := (hm b t rest hmt).length_le
          simp only [ih k rest (hl.trans h1) (hl.trans h2)]

theorem ReplaceAllString_nil (m : List Nat → Option (List Nat)) (repl : List Nat) :
    ReplaceAllString m [] repl = [] := rfl

theorem ReplaceAllString_cons_none {m : List Nat → Option (List Nat)}
    (repl : List Nat) {b : Nat} {t : List Nat} (h : m (b :: t) = none) :
    ReplaceAllString m (b :: t) repl = b :: ReplaceAllString m t repl := by
  simp only [ReplaceAllString, List.length_cons, replaceMatches, h]

theorem ReplaceAllString_cons_some {m : List Nat → Option (List Nat)} (hm : Consuming m)
    (repl : List Nat) {b : Nat} {t rest : List Nat} (h : m (b :: t) = some rest) :
    ReplaceAllString m (b :: t) repl = repl ++ ReplaceAllString m rest repl := by
  simp only [ReplaceAllString, List.length_cons, replaceMatches, h]
  rw [replaceMatches_fuel_irrel hm repl t.length rest.length rest (hm b t rest h).length_le le_rfl]

theorem matchLit_eq_some : ∀ (p s rest : List Nat),
    matchLit p s = some rest ↔ s = p ++ rest := by
  intro p
  induction p with
  | nil => intro s rest; simp [matchLit, eq_comm]
  | cons a p ih =>
    intro s rest
    cases s with
    | nil => simp [matchLit]
    | cons b s =>
      by_cases hab : a = b
      · subst hab; simp [matchLit, ih]
      · simp [matchLit, hab]; intro h; exact absurd h.symm hab

theorem matchLit_head_ne {a b : Nat} (p t : List Nat) (h : b ≠ a) :
    matchLit (a :: p) (b :: t) = none := by
  simp [matchLit, Ne.symm h]

theorem consuming_matchLit (a : Nat) (p : List Nat) : Consuming (matchLit (a :: p)) := by
  intro b t rest h
  rw [matchLit_eq_some] at h
  simp only [List.cons_append, List.cons.injEq] at h
  rw [h.2]
  exact List.suffix_append p rest

theorem consuming_reIllegal : Consuming reIllegal := by
  intro b t rest h
  simp only [reIllegal] at h
  split at h
  · simp only [Option.some.injEq] at h; subst h; exact List.suffix_refl _
  · simp at h

theorem consuming_reRun (p : Nat → Bool) : Consuming (reRun p) := by
  intro b t rest h
  simp only [reRun] at h
  split at h
  · simp only [Option.some.injEq] at h; subst h; exact List.dropWhile_suffix p
  · simp at h

theorem consuming_reTrackDot : Consuming reTrackDot := by
  intro b t rest h
  simp only [reTrackDot, Option.map_eq_some'] at h
  obtain ⟨r, hr, rfl⟩ := h
  have h1 : r <:+ t := consuming_matchLit _ _ b t r hr
  exact (List.dropWhile_suffix reSpace).trans h1

theorem consuming_reTrack : Consuming reTrack := by
  intro b t rest h
  simp only [reTrack, Option.map_eq_some'] at h
  obtain ⟨r, hr, rfl⟩ := h
  have h1 : r <:+ t := consuming_matchLit _ _ b t r hr
  exact (List.dropWhile_suffix reSpace).trans h1

theorem consuming_reTrackDash : Consuming reTrackDash := by
  intro b t rest h
  simp only [reTrackDash] at h
  split at h
  · rename_i r hr
    have h1 : r <:+ t := consuming_matchLit _ _ b t r hr
    split at h
    · rename_i r2 hr2
      simp only [Option.some.injEq] at h
      subst h
      have h2 : (45 :: r2) <:+ r := hr2 ▸ List.dropWhile_suffix reSpace
      exact ((List.dropWhile_suffix reSpace).trans ((List.suffix_cons 45 r2).trans h2)).trans h1
    · simp at h
  · simp at h

/-- Every element of the result of a replacement comes from the
replacement text or is an element of the input at which no match starts. -/
theorem mem_ReplaceAllString {m : List Nat → Option (List Nat)} (hm : Consuming m)
    (repl : List Nat) (x : Nat) :
    ∀ (n : Nat) (s : List Nat), s.length ≤ n → x ∈ ReplaceAllString m s repl →
      x ∈ repl ∨ (x ∈ s ∧ ∃ t, m (x :: t) = none) := by
  intro n
  induction n with
  | zero =>
    intro s hn hx
    have hs : s = [] := List.length_eq_zero.mp (Nat.le_zero.mp hn)
    subst hs
    simp [ReplaceAllString_nil] at hx
  | succ n ih =>
    intro s hn hx
    cases s with
    | nil => simp [ReplaceAllString_nil] at hx
    | cons b t =>
      simp only [List.length_cons, Nat.add_le_add_iff_right] at hn
      cases hmt : m (b :: t) with
      | none =>
        rw [ReplaceAllString_cons_none repl hmt] at hx
        rcases List.mem_cons.mp hx with rfl | hx
        · exact Or.inr ⟨List.mem_cons_self _ _, t, hmt⟩
        · rcases ih t hn hx with h | ⟨h1, h2⟩
          · exact Or.inl h
          · exact Or.inr ⟨List.mem_cons_of_mem _ h1, h2⟩
      | some rest =>
        rw [ReplaceAllString_cons_some hm repl hmt] at hx
        have hsuf := hm b t rest hmt
        rcases List.mem_append.mp hx with hx | hx
        · exact Or.inl hx
        · rcases ih rest (hsuf.length_le.trans hn) hx with h | ⟨h1, h2⟩
          · exact Or.inl h
          · exact Or.inr ⟨List.mem_cons_of_mem _ (hsuf.subset h1), h2⟩

theorem mem_ReplaceAllString_iff_of_subset {m : List Nat → Option (List Nat)} (hm : Consuming m)
    (repl s : List Nat) (x : Nat) (hx : x ∈ ReplaceAllString m s repl) :
    x ∈ repl ∨ (x ∈ s ∧ ∃ t, m (x :: t) = none) :=
  mem_ReplaceAllString hm repl x s.length s le_rfl hx

/-- A replacement leaves a string unchanged in which no match starts. -/
theorem ReplaceAllString_noop {m : List Nat → Option (List Nat)} (repl : List Nat) :
    ∀ s : List Nat, (∀ b t, (b :: t) <:+ s → m (b :: t) = none) →
      ReplaceAllString m s repl = s := by
  intro s
  induction s with
  | nil => intro _; rfl
  | cons b t ih =>
    intro h
    rw [ReplaceAllString_cons_none repl (h b t (List.suffix_refl _))]
    rw [ih (fun c u hu => h c u (hu.trans (List.suffix_cons b t)))]

/-- A replacement passes over a prefix in which no match starts. -/
theorem ReplaceAllString_append_of_no_match {m : List Nat → Option (List Nat)}
    (repl rest : List Nat) :
    ∀ pre : List Nat, (∀ b t, (b :: t) <:+ pre → m (b :: t ++ rest) = none) →
      ReplaceAllString m (pre ++ rest) repl = pre ++ ReplaceAllString m rest repl := by
  intro pre
  induction pre with
  | nil => intro _; rfl
  | cons b t ih =>
    intro h
    have h0 : m (b :: (t ++ rest)) = none := h b t (List.suffix_refl _)
    rw [List.cons_append, ReplaceAllString_cons_none repl h0]
    rw [ih (fun c u hu => h c u (hu.trans (List.suffix_cons b t)))]
    rfl

theorem AppendRune_ne_nil (r : Nat) : utf8.AppendRune r ≠ [] := by
  unfold utf8.AppendRune
  split_ifs <;> simp

theorem mem_AppendRune_ascii {b r : Nat} (hb : b ∈ utf8.AppendRune r) (h : b < 0x80) :
    b = r := by
  unfold utf8.AppendRune at hb
  split_ifs at hb <;> simp at hb <;> omega

theorem AppendRune_ascii {r : Nat} (h : r < 0x80) : utf8.AppendRune r = [r] := by
  simp [utf8.AppendRune, h]

theorem AppendRune_ge {b r : Nat} (hr : 0x80 ≤ r) (hb : b ∈ utf8.AppendRune r) :
    0x80 ≤ b := by
  unfold utf8.AppendRune at hb
  split_ifs at hb <;> simp at hb <;> omega

theorem decode_two (a b : Nat) (rest : List Nat) (ha : 0xC2 ≤ a) (ha2 : a < 0xE0)
    (hb : 0x80 ≤ b) (hb2 : b ≤ 0xBF) :
    utf8.DecodeRuneInString (a :: b :: rest) = (a % 32 * 64 + b % 64, 2) := by
  have h1 : ¬ a < 0x80 := by omega
  have h2 : ¬ a < 0xC2 := by omega
  have h3 : utf8.isCont b = true := by simp [utf8.isCont]; omega
  simp only [utf8.DecodeRuneInString, if_neg h1, if_neg h2, if_pos ha2, h3, if_true]

theorem decode_three (a b c : Nat) (rest : List Nat) (ha : 0xE0 ≤ a) (ha2 : a < 0xF0)
    (hb : (if a = 0xE0 then 0xA0 else 0x80) ≤ b) (hb2 : b ≤ (if a = 0xED then 0x9F else 0xBF))
    (hc : 0x80 ≤ c) (hc2 : c ≤ 0xBF) :
    utf8.DecodeRuneInString (a :: b :: c :: rest) =
      (a % 16 * 4096 + b % 64 * 64 + c % 64, 3) := by
  have h1 : ¬ a < 0x80 := by omega
  have h2 : ¬ a < 0xC2 := by omega
  have h3 : ¬ a < 0xE0 := by omega
  have h4 : utf8.isCont c = true := by simp [utf8.isCont]; omega
  simp only [utf8.DecodeRuneInString, if_neg h1, if_neg h2, if_neg h3, if_pos ha2,
    if_pos (And.intro hb hb2), h4, if_true]

theorem decode_four (a b c d : Nat) (rest : List Nat) (ha : 0xF0 ≤ a) (ha2 : a < 0xF5)
    (hb : (if a = 0xF0 then 0x90 else 0x80) ≤ b) (hb2 : b ≤ (if a = 0xF4 then 0x8F else 0xBF))
    (hc : 0x80 ≤ c) (hc2 : c ≤ 0xBF) (hd : 0x80 ≤ d) (hd2 : d ≤ 0xBF) :
    utf8.DecodeRuneInString (a :: b :: c :: d :: rest) =
      (a % 8 * 262144 + b % 64 * 4096 + c % 64 * 64 + d % 64, 4) := by
  have h1 : ¬ a < 0x80 := by omega
  have h2 : ¬ a < 0xC2 := by omega
  have h3 : ¬ a < 0xE0 := by omega
  have h3b : ¬ a < 0xF0 := by omega
  have h4 : utf8.isCont c = true := by simp [utf8.isCont]; omega
  have h5 : utf8.isCont d = true := by simp [utf8.isCont]; omega
  simp only [utf8.DecodeRuneInString, if_neg h1, if_neg h2, if_neg h3, if_neg h3b, if_pos ha2,
    if_pos (And.intro hb hb2), h4, h5, if_true]

theorem decode_AppendRune (r : Nat) (rest : List Nat) :
    utf8.DecodeRuneInString (utf8.AppendRune r ++ rest) =
      (writtenRune r, (utf8.AppendRune r).length) := by
  unfold utf8.AppendRune writtenRune utf8.MaxRune utf8.RuneError
  by_cases h1 : r < 0x80
  · have h0 : ¬ ((0xD800 ≤ r ∧ r ≤ 0xDFFF) ∨ 0x10FFFF < r) := by omega
    simp only [if_pos h1, if_neg h0, List.singleton_append, List.length_singleton,
      utf8.DecodeRuneInString]
  · by_cases h2 : r < 0x800
    · have h0 : ¬ ((0xD800 ≤ r ∧ r ≤ 0xDFFF) ∨ 0x10FFFF < r) := by omega
      simp only [if_neg h1, if_pos h2, if_neg h0, List.cons_append, List.nil_append,
        List.length_cons, List.length_nil]
      rw [decode_two _ _ _ (by omega) (by omega) (by omega) (by omega)]
      simp only [Prod.mk.injEq, and_true]
      omega
    · by_cases h3 : (0xD800 ≤ r ∧ r ≤ 0xDFFF) ∨ 0x10FFFF < r
      · simp only [if_neg h1, if_neg h2, if_pos h3, List.cons_append, List.nil_append,
          List.length_cons, List.length_nil]
        rw [decode_three _ _ _ _ (by omega) (by omega) (by simp) (by simp) (by omega) (by omega)]
      · by_cases h4 : r < 0x10000
        · simp only [if_neg h1, if_neg h2, if_neg h3, if_pos h4, List.cons_append,
            List.nil_append, List.length_cons, List.length_nil]
          rw [decode_three _ _ _ _ (by omega) (by omega) (by split_ifs <;> omega)
            (by split_ifs <;> omega) (by omega) (by omega)]
          simp only [Prod.mk.injEq, and_true]
          omega
        · simp only [if_neg h1, if_neg h2, if_neg h3, if_neg h4, List.cons_append,
            List.nil_append, List.length_cons, List.length_nil]
          rw [decode_four _ _ _ _ _ (by omega) (by omega) (by split_ifs <;> omega)
            (by split_ifs <;> omega) (by omega) (by omega) (by omega) (by omega)]
          simp only [Prod.mk.injEq, and_true]
          omega

theorem writeRunes_cons (r : Nat) (rs : List Nat) :
    writeRunes (r :: rs) = utf8.AppendRune r ++ writeRunes rs := by
  simp [writeRunes]

theorem writeRunes_eq_nil {rs : List Nat} : writeRunes rs = [] ↔ rs = [] := by
  cases rs with
  | nil => simp [writeRunes]
  | cons r rs => simp [writeRunes_cons, AppendRune_ne_nil]

theorem rangeRunesAux_append (r : Nat) (w : List Nat) (fuel : Nat) :
    rangeRunesAux (fuel + 1) (utf8.AppendRune r ++ w) = writtenRune r :: rangeRunesAux fuel w := by
  have hd := decode_AppendRune r w
  obtain ⟨b, t, h⟩ := List.exists_cons_of_ne_nil (AppendRune_ne_nil r)
  rw [h] at hd ⊢
  simp only [List.cons_append] at hd ⊢
  simp only [rangeRunesAux, hd, List.length_cons, Nat.add_sub_cancel, List.drop_left]

theorem rangeRunesAux_writeRunes : ∀ (rs : List Nat) (fuel : Nat),
    rs.length ≤ fuel → rangeRunesAux fuel (writeRunes rs) = rs.map writtenRune := by
  intro rs
  induction rs with
  | nil => intro fuel _; cases fuel <;> simp [writeRunes, rangeRunesAux]
  | cons r rs ih =>
    intro fuel h
    cases fuel with
    | zero => simp at h
    | succ k =>
      simp only [List.length_cons, Nat.add_le_add_iff_right] at h
      rw [writeRunes_cons, rangeRunesAux_append, ih k h, List.map_cons]

theorem length_le_writeRunes (rs : List Nat) : rs.length ≤ (writeRunes rs).length := by
  induction rs with
  | nil => simp
  | cons r rs ih =>
    rw [writeRunes_cons, List.length_append, List.length_cons]
    have := List.length_pos.mpr (AppendRune_ne_nil r)
    omega

/-- Decoding what the builder wrote gives back the written runes. -/
theorem rangeRunes_writeRunes (rs : List Nat) :
    rangeRunes (writeRunes rs) = rs.map writtenRune :=
  rangeRunesAux_writeRunes rs _ (length_le_writeRunes rs)

theorem writtenRune_of_length_one {r : Nat} (h : (utf8.AppendRune r).length = 1) :
    writtenRune r ≠ utf8.RuneError := by
  unfold utf8.AppendRune at h
  unfold writtenRune utf8.RuneError utf8.MaxRune
  split_ifs at h with h1 <;> simp at h
  have h0 : ¬ ((0xD800 ≤ r ∧ r ≤ 0xDFFF) ∨ 0x10FFFF < r) := by omega
  rw [if_neg h0]
  omega

theorem ValidStringAux_append (r : Nat) (w : List Nat) (fuel : Nat) :
    utf8.ValidStringAux (fuel + 1) (utf8.AppendRune r ++ w) = utf8.ValidStringAux fuel w := by
  have hd := decode_AppendRune r w
  obtain ⟨b, t, h⟩ := List.exists_cons_of_ne_nil (AppendRune_ne_nil r)
  have hl := @writtenRune_of_length_one r
  rw [h] at hd hl
  rw [h]
  simp only [List.cons_append] at hd ⊢
  simp only [List.length_cons] at hl
  have hneg : ¬ ((writtenRune r = utf8.RuneError) ∧ t.length + 1 = 1) := fun hc => hl hc.2 hc.1
  simp only [utf8.ValidStringAux, hd, List.length_cons, if_neg hneg, Nat.add_sub_cancel,
    List.drop_left]

theorem ValidStringAux_writeRunes : ∀ (rs : List Nat) (fuel : Nat),
    rs.length ≤ fuel → utf8.ValidStringAux fuel (writeRunes rs) = true := by
  intro rs
  induction rs with
  | nil => intro fuel _; cases fuel <;> simp [writeRunes, utf8.ValidStringAux]
  | cons r rs ih =>
    intro fuel h
    cases fuel with
    | zero => simp at h
    | succ k =>
      simp only [List.length_cons, Nat.add_le_add_iff_right] at h
      rw [writeRunes_cons, ValidStringAux_append, ih k h]

/-- What the builder holds is always valid UTF-8. -/
theorem ValidString_writeRunes (rs : List Nat) : utf8.ValidString (writeRunes rs) = true :=
  ValidStringAux_writeRunes rs _ (length_le_writeRunes rs)

theorem decode_ascii {b : Nat} {t : List Nat}
    (h : (utf8.DecodeRuneInString (b :: t)).1 < 0x80) :
    (utf8.DecodeRuneInString (b :: t)).1 = b := by
  by_cases hb : b < 0x80
  · simp [utf8.DecodeRuneInString, hb]
  · exfalso
    have hge : 0x80 ≤ (utf8.DecodeRuneInString (b :: t)).1 := by
      simp only [utf8.DecodeRuneInString, if_neg hb, utf8.RuneError]
      repeat' split
      all_goals
        try simp only [utf8.isCont, Bool.and_eq_true, decide_eq_true_eq] at *
        omega
    omega

theorem mem_rangeRunesAux_ascii {r : Nat} (hr : r < 0x80) :
    ∀ (fuel : Nat) (s : List Nat), r ∈ rangeRunesAux fuel s → r ∈ s := by
  intro fuel
  induction fuel with
  | zero => intro s h; simp [rangeRunesAux] at h
  | succ k ih =>
    intro s h
    cases s with
    | nil => simp [rangeRunesAux] at h
    | cons b t =>
      simp only [rangeRunesAux, List.mem_cons] at h
      rcases h with h | h
      · have := @decode_ascii b t (h ▸ hr)
        rw [← h] at this
        exact this ▸ List.mem_cons_self _ _
      · exact List.mem_cons_of_mem _ (List.mem_of_mem_drop (ih _ h))

/-- An ASCII rune seen by `range` is a byte of the string. -/
theorem mem_rangeRunes_ascii {r : Nat} {s : List Nat} (hr : r < 0x80) (h : r ∈ rangeRunes s) :
    r ∈ s :=
  mem_rangeRunesAux_ascii hr _ s h

theorem mem_writeRunes_ascii {b : Nat} {rs : List Nat} (hb : b < 0x80) (h : b ∈ writeRunes rs) :
    b ∈ rs := by
  simp only [writeRunes, List.mem_flatMap] at h
  obtain ⟨r, hr, hbr⟩ := h
  exact (mem_AppendRune_ascii hbr hb) ▸ hr

theorem lit_space : lit " " = [32] := by decide

theorem lit_underscore : lit "_" = [95] := by decide

theorem lit_slash : lit "/" = [47] := by decide

theorem lit_dot_space : lit ". " = [46, 32] := by decide

theorem lit_underscore_space : lit "_ " = [95, 32] := by decide

theorem Trim_within (s cutset : List Nat) : strings.Trim s cutset <:+: s :=
  (List.rdropWhile_prefix _ _).isInfix.trans (List.dropWhile_suffix _).isInfix

theorem TrimSpace_within (rs : List Nat) : strings.TrimSpace rs <:+: rs :=
  (List.rdropWhile_prefix _ _).isInfix.trans (List.dropWhile_suffix _).isInfix

theorem head?_rdropWhile_of_head (p : Nat → Bool) (l : List Nat) (a : Nat)
    (ha : l.head? = some a) (hp : p a = false) : (l.rdropWhile p).head? = some a := by
  cases l with
  | nil => simp at ha
  | cons b t =>
    simp only [List.head?_cons, Option.some.injEq] at ha
    subst ha
    have hne : (b :: t).rdropWhile p ≠ [] := by
      intro h
      rw [List.rdropWhile_eq_nil_iff] at h
      have := h b (List.mem_cons_self _ _)
      simp [hp] at this
    obtain ⟨u, hu⟩ := List.rdropWhile_prefix p (b :: t)
    cases hr : (b :: t).rdropWhile p with
    | nil => exact absurd hr hne
    | cons c v =>
      rw [hr] at hu
      simp only [List.cons_append, List.cons.injEq] at hu
      simp [hu.1]

/-- The first element of a trimmed string is not in the cutset. -/
theorem Trim_head (s cutset : List Nat) :
    ∀ a, (strings.Trim s cutset).head? = some a → a ∉ cutset := by
  intro a ha
  have h1 := List.head?_dropWhile_not (fun b => decide (b ∈ cutset)) s
  cases hd : (s.dropWhile fun b => decide (b ∈ cutset)).head? with
  | none =>
    rw [List.head?_eq_none_iff] at hd
    simp [strings.Trim, hd, List.rdropWhile] at ha
  | some c =>
    rw [hd] at h1
    simp only at h1
    have h2 := head?_rdropWhile_of_head (fun b => decide (b ∈ cutset)) _ c hd h1
    simp only [strings.Trim] at ha
    rw [h2] at ha
    simp only [Option.some.injEq] at ha
    subst ha
    simpa using h1

/-- The last element of a trimmed string is not in the cutset. -/
theorem Trim_getLast (s cutset : List Nat) :
    ∀ a, (strings.Trim s cutset).getLast? = some a → a ∉ cutset := by
  intro a ha
  have hne : strings.Trim s cutset ≠ [] := by
    intro h; simp [h] at ha
  have h1 := List.rdropWhile_last_not (p := fun b => decide (b ∈ cutset))
    (l := s.dropWhile fun b => decide (b ∈ cutset)) hne
  rw [List.getLast?_eq_getLast _ hne] at ha
  simp only [Option.some.injEq] at ha
  simp only [strings.Trim] at ha
  rw [ha] at h1
  simpa using h1

/-- The first element after the collapse of the runs of a class. -/
theorem head?_collapse (p : Nat → Bool) (c : Nat) (s : List Nat) :
    (ReplaceAllString (reRun p) s [c]).head? = s.head?.map fun b => if p b then c else b := by
  cases s with
  | nil => rfl
  | cons b t =>
    by_cases hb : p b = true
    · have h : reRun p (b :: t) = some (t.dropWhile p) := by simp [reRun, hb]
      rw [ReplaceAllString_cons_some (consuming_reRun p) [c] h]
      simp [hb]
    · have h : reRun p (b :: t) = none := by simp [reRun, hb]
      rw [ReplaceAllString_cons_none [c] h]
      simp [hb]

/-- After the collapse of the runs of a class no two neighbours are both in
the class. -/
theorem chain_collapse (p : Nat → Bool) (c : Nat) :
    ∀ (n : Nat) (s : List Nat), s.length ≤ n →
      List.Chain' (fun a b => ¬ (p a = true ∧ p b = true)) (ReplaceAllString (reRun p) s [c]) := by
  intro n
  induction n with
  | zero =>
    intro s hn
    have hs : s = [] := List.length_eq_zero.mp (Nat.le_zero.mp hn)
    subst hs
    simp [ReplaceAllString_nil]
  | succ n ih =>
    intro s hn
    cases s with
    | nil => simp [ReplaceAllString_nil]
    | cons b t =>
      simp only [List.length_cons, Nat.add_le_add_iff_right] at hn
      by_cases hb : p b = true
      · have h : reRun p (b :: t) = some (t.dropWhile p) := by simp [reRun, hb]
        rw [ReplaceAllString_cons_some (consuming_reRun p) [c] h]
        simp only [List.singleton_append, List.chain'_cons']
        refine ⟨?_, ih _ ((List.dropWhile_suffix p).length_le.trans hn)⟩
        intro y hy
        rw [head?_collapse] at hy
        have h1 := List.head?_dropWhile_not p t
        cases hd : (t.dropWhile p).head? with
        | none => rw [hd] at hy; simp at hy
        | some d =>
          rw [hd] at hy h1
          simp only at h1
          simp only [Option.map_some', h1, Bool.false_eq_true, if_false, Option.mem_def,
            Option.some.injEq] at hy
          subst hy
          simp [h1]
      · have h : reRun p (b :: t) = none := by simp [reRun, hb]
        rw [ReplaceAllString_cons_none [c] h]
        simp only [List.chain'_cons']
        exact ⟨fun y _ hc => hb hc.1, ih t hn⟩

/-- The collapse of the runs of a class keeps a neighbour relation that
holds whenever one side is in the class or is the replacement. -/
theorem chain_collapse_preserve (p : Nat → Bool) (c : Nat) (R : Nat → Nat → Prop)
    (hR : ∀ a b, (p a = true ∨ a = c ∨ p b = true ∨ b = c) → R a b) :
    ∀ (n : Nat) (s : List Nat), s.length ≤ n → List.Chain' R s →
      List.Chain' R (ReplaceAllString (reRun p) s [c]) := by
  intro n
  induction n with
  | zero =>
    intro s hn _
    have hs : s = [] := List.length_eq_zero.mp (Nat.le_zero.mp hn)
    subst hs
    simp [ReplaceAllString_nil]
  | succ n ih =>
    intro s hn hs
    cases s with
    | nil => simp [ReplaceAllString_nil]
    | cons b t =>
      simp only [List.length_cons, Nat.add_le_add_iff_right] at hn
      by_cases hb : p b = true
      · have h : reRun p (b :: t) = some (t.dropWhile p) := by simp [reRun, hb]
        rw [ReplaceAllString_cons_some (consuming_reRun p) [c] h]
        simp only [List.singleton_append, List.chain'_cons']
        refine ⟨fun y _ => hR c y (Or.inr (Or.inl rfl)), ?_⟩
        exact ih _ ((List.dropWhile_suffix p).length_le.trans hn)
          (hs.suffix ((List.dropWhile_suffix p).trans (List.suffix_cons b t)))
      · have h : reRun p (b :: t) = none := by simp [reRun, hb]
        rw [ReplaceAllString_cons_none [c] h]
        rw [List.chain'_cons'] at hs ⊢
        refine ⟨?_, ih t hn hs.2⟩
        intro y hy
        rw [head?_collapse] at hy
        cases hd : t.head? with
        | none => rw [hd] at hy; simp at hy
        | some d =>
          rw [hd] at hy
          simp only [Option.map_some', Option.mem_def, Option.some.injEq] at hy
          by_cases hpd : p d = true
          · simp only [hpd, if_true] at hy
            exact hR b y (Or.inr (Or.inr (Or.inr hy.symm)))
          · simp only [hpd, Bool.false_eq_true, if_false] at hy
            subst hy
            exact hs.1 d (by simp [hd])

/-- The characters the first regexp of `SanitizeFilename` replaces. -/
theorem reIllegal_none {b : Nat} {t : List Nat} (h : reIllegal (b :: t) = none) :
    b ∉ [60, 62, 58, 34, 92, 124, 63, 42] := by
  simp only [reIllegal] at h
  split at h
  · simp at h
  · assumption

theorem reRun_none {p : Nat → Bool} {b : Nat} {t : List Nat} (h : reRun p (b :: t) = none) :
    p b = false := by
  simp only [reRun] at h
  split at h
  · simp at h
  · simpa using ‹¬ p b = true›

/-- Where the elements of the sanitized rune sequence come from: a rune is
a space or an underscore, or it passed the loop, is no `\s` character and,
when it is ASCII, is a byte of the input other than the replaced ones. -/
theorem mem_sanitizeRunes {name : GoString} {r : Nat} (h : r ∈ sanitizeRunes name) :
    r = 32 ∨ r = 95 ∨ (keepRune r = true ∧ reSpace r = false ∧
      (r < 0x80 → r ∈ name ∧ r ∉ [60, 62, 58, 34, 92, 124, 63, 42] ∧ r ≠ 47)) := by
  simp only [sanitizeRunes] at h
  have h7 := (Trim_within _ _).subset h
  rcases mem_ReplaceAllString_iff_of_subset (consuming_reRun _) _ _ _ h7 with h7 | ⟨h6, _⟩
  · right; left; simpa [lit_underscore] using h7
  rcases mem_ReplaceAllString_iff_of_subset (consuming_reRun _) _ _ _ h6 with h6 | ⟨h5, t5, hsp⟩
  · left; simpa [lit_space] using h6
  have h4 := (Trim_within _ _).subset h5
  have h3 := (TrimSpace_within _).subset h4
  rw [List.mem_filter] at h3
  obtain ⟨h2, hk⟩ := h3
  refine Or.inr (Or.inr ⟨hk, reRun_none hsp, ?_⟩)
  intro hlt
  have hb := mem_rangeRunes_ascii hlt h2
  rcases mem_ReplaceAllString_iff_of_subset consuming_reIllegal _ _ _ hb with hb | ⟨h1, t1, hill⟩
  · exfalso
    have : r = 32 := by simpa [lit_space] using hb
    subst this
    have := reRun_none hsp
    simp [reSpace] at this
  have hill := reIllegal_none hill
  simp only [strings.ReplaceAll] at h1
  rcases mem_ReplaceAllString_iff_of_subset (consuming_matchLit _ _) _ _ _
    (by simpa [ReplaceAllString, lit_slash] using h1) with h0 | ⟨h0, t0, hsl⟩
  · exfalso
    have : r = 32 := by simpa [lit_space] using h0
    subst this
    have := reRun_none hsp
    simp [reSpace] at this
  refine ⟨h0, hill, ?_⟩
  rintro rfl
  simp [matchLit] at hsl

theorem keepRune_not_control (r : Nat) (hk : keepRune r = true) (hs : reSpace r = false) :
    unicode.IsControl r = false := by
  simp [keepRune, unicode.IsControl, reSpace] at hk hs ⊢
  omega

/-- No rune of the sanitized sequence is a control character. -/
theorem sanitizeRunes_not_control {name : GoString} {r : Nat} (h : r ∈ sanitizeRunes name) :
    unicode.IsControl r = false := by
  rcases mem_sanitizeRunes h with rfl | rfl | ⟨hk, hs, _⟩
  · decide
  · decide
  · exact keepRune_not_control r hk hs

/-- No rune of the sanitized sequence is a `\s` character other than the
space. -/
theorem sanitizeRunes_reSpace {name : GoString} {r : Nat} (h : r ∈ sanitizeRunes name)
    (hs : reSpace r = true) : r = 32 := by
  rcases mem_sanitizeRunes h with rfl | rfl | ⟨_, hs2, _⟩
  · rfl
  · simp [reSpace] at hs
  · rw [hs] at hs2; simp at hs2

theorem chain_space_of_collapse (s : List Nat) :
    List.Chain' (fun a b => ¬ (a = 32 ∧ b = 32)) (ReplaceAllString reSpaces s [32]) := by
  have h := chain_collapse reSpace 32 s.length s le_rfl
  refine List.Chain'.imp ?_ h
  intro a b h hc
  apply h
  simp [reSpace, hc.1, hc.2]

theorem chain_underscore_of_collapse (s : List Nat) :
    List.Chain' (fun a b => ¬ (a = 95 ∧ b = 95)) (ReplaceAllString reUnderscores s [95]) := by
  have h := chain_collapse isUnderscore 95 s.length s le_rfl
  refine List.Chain'.imp ?_ h
  intro a b h hc
  apply h
  simp [isUnderscore, hc.1, hc.2]

theorem chain_space_underscores (s : List Nat)
    (hs : List.Chain' (fun a b => ¬ (a = 32 ∧ b = 32)) s) :
    List.Chain' (fun a b => ¬ (a = 32 ∧ b = 32)) (ReplaceAllString reUnderscores s [95]) := by
  refine chain_collapse_preserve isUnderscore 95 (fun a b => ¬ (a = 32 ∧ b = 32)) ?_
    s.length s le_rfl hs
  intro a b h hc
  simp only [isUnderscore, decide_eq_true_eq] at h
  omega

/-- The pipeline of `sanitizeRunes` with its literals written out. -/
theorem sanitizeRunes_eq (name : GoString) : sanitizeRunes name =
    strings.Trim (ReplaceAllString reUnderscores (ReplaceAllString reSpaces
      (strings.Trim (strings.TrimSpace ((rangeRunes (ReplaceAllString reIllegal
        (strings.ReplaceAll name [47] [32]) [32])).filter keepRune)) [46, 32]) [32]) [95])
      [95, 32] := by
  simp only [sanitizeRunes]
  rw [lit_underscore_space, lit_dot_space, lit_underscore, lit_space, lit_slash]

theorem chain_space_pipeline (r : List Nat) :
    List.Chain' (fun a b => ¬ (a = 32 ∧ b = 32))
      (strings.Trim (ReplaceAllString reUnderscores (ReplaceAllString reSpaces r [32]) [95])
        [95, 32]) :=
  List.Chain'.infix (chain_space_underscores _ (chain_space_of_collapse r)) (Trim_within _ _)

theorem chain_underscore_pipeline (r : List Nat) :
    List.Chain' (fun a b => ¬ (a = 95 ∧ b = 95))
      (strings.Trim (ReplaceAllString reUnderscores r [95]) [95, 32]) :=
  List.Chain'.infix (chain_underscore_of_collapse r) (Trim_within _ _)

/-- The last three steps of the pipeline of `sanitizeRunes`. -/
theorem sanitizeRunes_shape (name : GoString) : ∃ r : List Nat, sanitizeRunes name =
    strings.Trim (ReplaceAllString reUnderscores (ReplaceAllString reSpaces r [32]) [95])
      [95, 32] :=
  ⟨_, sanitizeRunes_eq name⟩

/-- No two neighbours of the sanitized sequence are both spaces. -/
theorem sanitizeRunes_chain_space (name : GoString) :
    ∀ l, l = sanitizeRunes name → List.Chain' (fun a b => ¬ (a = 32 ∧ b = 32)) l := by
  intro l hl
  obtain ⟨r, hr⟩ := sanitizeRunes_shape name
  rw [hr] at hl
  subst hl
  exact chain_space_pipeline r

/-- No two neighbours of the sanitized sequence are both underscores. -/
theorem sanitizeRunes_chain_underscore (name : GoString) :
    ∀ l, l = sanitizeRunes name → List.Chain' (fun a b => ¬ (a = 95 ∧ b = 95)) l := by
  intro l hl
  obtain ⟨r, hr⟩ := sanitizeRunes_shape name
  rw [hr] at hl
  subst hl
  exact chain_underscore_pipeline _

/-- The sanitized sequence neither begins nor ends with a space or an
underscore. -/
theorem sanitizeRunes_head {name : GoString} {a : Nat}
    (h : (sanitizeRunes name).head? = some a) : a ≠ 32 ∧ a ≠ 95 := by
  rw [sanitizeRunes_eq] at h
  have := Trim_head _ _ a h
  simp at this
  omega

theorem sanitizeRunes_getLast {name : GoString} {a : Nat}
    (h : (sanitizeRunes name).getLast? = some a) : a ≠ 32 ∧ a ≠ 95 := by
  rw [sanitizeRunes_eq] at h
  have := Trim_getLast _ _ a h
  simp at this
  omega

theorem chain_of_forall_ne (c : Nat) : ∀ l : List Nat, (∀ x ∈ l, x ≠ c) →
    List.Chain' (fun a b => ¬ (a = c ∧ b = c)) l := by
  intro l
  induction l with
  | nil => intro _; exact List.chain'_nil
  | cons a t ih =>
    intro h
    rw [List.chain'_cons']
    exact ⟨fun y _ hc => h a (List.mem_cons_self _ _) hc.1,
      ih fun x hx => h x (List.mem_cons_of_mem _ hx)⟩

theorem chain_AppendRune (c r : Nat) (hc : c < 0x80) :
    List.Chain' (fun a b => ¬ (a = c ∧ b = c)) (utf8.AppendRune r) := by
  by_cases hr : r < 0x80
  · rw [AppendRune_ascii hr]; exact List.chain'_singleton _
  · refine chain_of_forall_ne c _ fun x hx hxc => ?_
    have := AppendRune_ge (Nat.le_of_not_lt hr) hx
    omega

theorem head?_writeRunes_ascii {c : Nat} (hc : c < 0x80) {rs : List Nat}
    (h : (writeRunes rs).head? = some c) : rs.head? = some c := by
  cases rs with
  | nil => simp [writeRunes] at h
  | cons r rs =>
    rw [writeRunes_cons] at h
    obtain ⟨b, t, hbt⟩ := List.exists_cons_of_ne_nil (AppendRune_ne_nil r)
    rw [hbt] at h
    simp only [List.cons_append, List.head?_cons, Option.some.injEq] at h
    have hb : b ∈ utf8.AppendRune r := hbt ▸ List.mem_cons_self _ _
    have := mem_AppendRune_ascii hb (h ▸ hc)
    simp [← this, h]

theorem getLast?_writeRunes_ascii {c : Nat} (hc : c < 0x80) {rs : List Nat}
    (h : (writeRunes rs).getLast? = some c) : rs.getLast? = some c := by
  induction rs using List.reverseRecOn with
  | nil => simp [writeRunes] at h
  | append_singleton rs r _ =>
    have hw : writeRunes (rs ++ [r]) = writeRunes rs ++ utf8.AppendRune r := by
      simp [writeRunes]
    rw [hw, List.getLast?_append_of_ne_nil _ (AppendRune_ne_nil r)] at h
    have hb : c ∈ utf8.AppendRune r := List.mem_of_getLast?_eq_some h
    have := mem_AppendRune_ascii hb hc
    simp [this]

/-- Writing the runes out keeps the absence of a doubled ASCII character. -/
theorem chain_writeRunes (c : Nat) (hc : c < 0x80) : ∀ rs : List Nat,
    List.Chain' (fun a b => ¬ (a = c ∧ b = c)) rs →
      List.Chain' (fun a b => ¬ (a = c ∧ b = c)) (writeRunes rs) := by
  intro rs
  induction rs with
  | nil => intro _; simp [writeRunes]
  | cons r rs ih =>
    intro hs
    rw [writeRunes_cons]
    rw [List.chain'_cons'] at hs
    refine List.Chain'.append (chain_AppendRune c r hc) (ih hs.2) ?_
    intro x hx y hy hxy
    obtain ⟨hxc, hyc⟩ := hxy
    rw [hxc] at hx
    rw [hyc] at hy
    have hx1 : c ∈ utf8.AppendRune r := List.mem_of_getLast?_eq_some hx
    have hxr := mem_AppendRune_ascii hx1 hc
    have hy1 := head?_writeRunes_ascii hc hy
    exact hs.1 c hy1 ⟨hxr.symm, rfl⟩

theorem not_double_infix {c : Nat} {l : List Nat}
    (h : List.Chain' (fun a b => ¬ (a = c ∧ b = c)) l) : ¬ [c, c] <:+: l := by
  intro hi
  have := h.infix hi
  simp at this

/-- The result of `SanitizeFilename` in terms of the sanitized rune
sequence: the check of `utf8.ValidString` never fails. -/
theorem SanitizeFilename_eq (name : GoString) : ∀ rs, rs = sanitizeRunes name →
    SanitizeFilename name = if rs = [] then lit "Unknown" else writeRunes rs := by
  intro rs h
  unfold SanitizeFilename
  rw [← h]
  by_cases hrs : rs = []
  · subst hrs; rfl
  · have hw : writeRunes rs ≠ [] := fun hc => hrs (writeRunes_eq_nil.mp hc)
    simp only [if_neg hrs, if_neg hw, ValidString_writeRunes, Bool.not_true,
      Bool.false_eq_true, if_false]

theorem lit_illegal : lit "<>:\"\\|?*" = [60, 62, 58, 34, 92, 124, 63, 42] := by decide

theorem lit_two_spaces : lit "  " = [32, 32] := by decide

theorem lit_two_underscores : lit "__" = [95, 95] := by decide

theorem IsControl_writtenRune {r : Nat} (h : unicode.IsControl r = false) :
    unicode.IsControl (writtenRune r) = false := by
  unfold writtenRune
  split_ifs
  · decide
  · exact h

/-- The facts about the sanitized rune sequence that the claims use. -/
theorem sanitizeRunes_facts (s : GoString) : ∃ rs : List Nat, rs = sanitizeRunes s ∧
    (∀ r ∈ rs, r = 32 ∨ r = 95 ∨ (keepRune r = true ∧ reSpace r = false ∧
      (r < 0x80 → r ∈ s ∧ r ∉ [60, 62, 58, 34, 92, 124, 63, 42] ∧ r ≠ 47))) ∧
    (∀ r ∈ rs, unicode.IsControl r = false) ∧
    List.Chain' (fun a b => ¬ (a = 32 ∧ b = 32)) rs ∧
    List.Chain' (fun a b => ¬ (a = 95 ∧ b = 95)) rs ∧
    (∀ a, rs.head? = some a → a ≠ 32 ∧ a ≠ 95) ∧
    (∀ a, rs.getLast? = some a → a ≠ 32 ∧ a ≠ 95) := by
  obtain ⟨r, hr⟩ := sanitizeRunes_shape s
  refine ⟨_, hr.symm, ?_, ?_, chain_space_pipeline r, chain_underscore_pipeline _, ?_, ?_⟩
  · intro x h; rw [← hr] at h; exact mem_sanitizeRunes h
  · intro x h; rw [← hr] at h; exact sanitizeRunes_not_control h
  · intro x h; rw [← hr] at h; exact sanitizeRunes_head h
  · intro x h; rw [← hr] at h; exact sanitizeRunes_getLast h

/-- C4: for every input string `s`, `SanitizeFilename s` contains none of
the characters `< > : " \ | ? *` and no forward slash, contains no control
character, contains no two consecutive spaces and no two consecutive
underscores, and is not the empty string; it is `"Unknown"` when the
sanitizing steps leave nothing. -/
theorem SanitizeFilename_output_safe (s : GoString) :
    (∀ b ∈ SanitizeFilename s, b ∉ lit "<>:\"\\|?*" ∧ b ∉ lit "/") ∧
    (∀ r ∈ rangeRunes (SanitizeFilename s), unicode.IsControl r = false) ∧
    ¬ (lit "  " <:+: SanitizeFilename s) ∧
    ¬ (lit "__" <:+: SanitizeFilename s) ∧
    SanitizeFilename s ≠ lit "" ∧
    (sanitizeRunes s = [] → SanitizeFilename s = lit "Unknown") := by
  obtain ⟨rs, hdef, hmem, hctl, hsp, hus, _, _⟩ := sanitizeRunes_facts s
  rw [SanitizeFilename_eq s rs hdef, ← hdef, lit_illegal, lit_slash, lit_two_spaces,
    lit_two_underscores]
  clear hdef
  by_cases hrs : rs = []
  · simp only [if_pos hrs]
    exact ⟨by decide, by decide, by decide, by decide, by decide, fun _ => trivial⟩
  · simp only [if_neg hrs]
    refine ⟨?_, ?_, not_double_infix (chain_writeRunes 32 (by norm_num) rs hsp),
      not_double_infix (chain_writeRunes 95 (by norm_num) rs hus), ?_, fun h => absurd h hrs⟩
    · intro b hb
      by_cases hlt : b < 0x80
      · have hbr := mem_writeRunes_ascii hlt hb
        rcases hmem b hbr with rfl | rfl | ⟨_, _, h3⟩
        · decide
        · decide
        · have := h3 hlt
          exact ⟨this.2.1, by simpa using this.2.2⟩
      · constructor
        · intro hc
          simp only [List.mem_cons, List.mem_singleton, List.not_mem_nil, or_false] at hc
          omega
        · intro hc
          simp only [List.mem_singleton] at hc
          omega
    · intro r hr
      rw [rangeRunes_writeRunes, List.mem_map] at hr
      obtain ⟨r0, hr0, rfl⟩ := hr
      exact IsControl_writtenRune (hctl r0 hr0)
    · intro hc
      exact hrs (writeRunes_eq_nil.mp hc)

theorem lit_Unknown : lit "Unknown" = [85, 110, 107, 110, 111, 119, 110] := by decide

/-- An ASCII byte of `SanitizeFilename s` other than a space or an
underscore is a byte of `s` or a letter of `"Unknown"`. -/
theorem mem_SanitizeFilename_ascii {s : GoString} {b : Nat} (hb : b ∈ SanitizeFilename s)
    (hlt : b < 0x80) : b = 32 ∨ b = 95 ∨ b ∈ s ∨ b ∈ lit "Unknown" := by
  obtain ⟨rs, hdef, hmem, _, _, _, _, _⟩ := sanitizeRunes_facts s
  rw [SanitizeFilename_eq s rs hdef] at hb
  by_cases hrs : rs = []
  · rw [if_pos hrs] at hb
    exact Or.inr (Or.inr (Or.inr hb))
  · rw [if_neg hrs] at hb
    rcases hmem b (mem_writeRunes_ascii hlt hb) with h | h | h
    · exact Or.inl h
    · exact Or.inr (Or.inl h)
    · exact Or.inr (Or.inr (Or.inl (h.2.2 hlt).1))

/-- The result of `SanitizeFilename` has no opening brace unless the input
has one. -/
theorem SanitizeFilename_no_brace {s : GoString} (h : 123 ∉ s) : 123 ∉ SanitizeFilename s := by
  intro hb
  rcases mem_SanitizeFilename_ascii hb (by norm_num) with h1 | h1 | h1 | h1
  · omega
  · omega
  · exact h h1
  · rw [lit_Unknown] at h1
    simp at h1

/-- The result of `SanitizeFilename` begins with a character that is not in
the class `\s`. -/
theorem SanitizeFilename_head (s : GoString) :
    ∃ b t, SanitizeFilename s = b :: t ∧ reSpace b = false := by
  obtain ⟨rs, hdef, hmem, _, _, _, hhead, _⟩ := sanitizeRunes_facts s
  rw [SanitizeFilename_eq s rs hdef]
  cases rs with
  | nil => exact ⟨85, _, by rw [if_pos rfl, lit_Unknown], by decide⟩
  | cons r rs =>
    rw [if_neg (List.cons_ne_nil _ _), writeRunes_cons]
    obtain ⟨b, t, hbt⟩ := List.exists_cons_of_ne_nil (AppendRune_ne_nil r)
    rw [hbt]
    refine ⟨b, t ++ writeRunes rs, rfl, ?_⟩
    by_contra hsp
    have hsp : reSpace b = true := by simpa using hsp
    have hlt : b < 0x80 := by
      simp only [reSpace, Bool.or_eq_true, decide_eq_true_eq] at hsp
      omega
    have hbr : b = r := mem_AppendRune_ascii (hbt ▸ List.mem_cons_self _ _) hlt
    subst hbr
    have h1 := hhead b rfl
    rcases hmem b (List.mem_cons_self _ _) with h | h | h
    · exact h1.1 h
    · exact h1.2 h
    · rw [hsp] at h; simp at h

theorem strings_ReplaceAll_eq (s old new : GoString) :
    strings.ReplaceAll s old new = ReplaceAllString (matchLit old) s new := rfl

/-- A replacement leaves a string without opening brace unchanged when
every match of the pattern begins with an opening brace. -/
theorem ReplaceAllString_no_brace {m : List Nat → Option (List Nat)}
    (hm : ∀ b t, b ≠ 123 → m (b :: t) = none) (repl s : List Nat) (hs : 123 ∉ s) :
    ReplaceAllString m s repl = s := by
  apply ReplaceAllString_noop
  intro b t hsuf
  apply hm
  rintro rfl
  exact hs (hsuf.subset (List.mem_cons_self _ _))

/-- A replacement passes over an opening brace at which the pattern does
not match, and over the brace-free text after it. -/
theorem ReplaceAllString_brace_prefix {m : List Nat → Option (List Nat)}
    (hm : ∀ b t, b ≠ 123 → m (b :: t) = none) (repl u rest : List Nat) (hu : 123 ∉ u)
    (h0 : m (123 :: (u ++ rest)) = none) :
    ReplaceAllString m (123 :: (u ++ rest)) repl = 123 :: u ++ ReplaceAllString m rest repl := by
  rw [ReplaceAllString_cons_none repl h0, ReplaceAllString_append_of_no_match]
  · rfl
  · intro b t hsuf
    apply hm
    rintro rfl
    exact hu (hsuf.subset (List.mem_cons_self _ _))

theorem matchLit_brace (q : List Nat) : ∀ b t, b ≠ 123 → matchLit (123 :: q) (b :: t) = none :=
  fun _ t h => matchLit_head_ne q t h

theorem lit_track_dot : lit "{track}." = [123, 116, 114, 97, 99, 107, 125, 46] := by decide

theorem lit_track : lit "{track}" = [123, 116, 114, 97, 99, 107, 125] := by decide

theorem reTrackDot_brace : ∀ b t, b ≠ 123 → reTrackDot (b :: t) = none := by
  intro b t h
  simp [reTrackDot, lit_track_dot, matchLit, Ne.symm h]

theorem reTrackDash_brace : ∀ b t, b ≠ 123 → reTrackDash (b :: t) = none := by
  intro b t h
  simp [reTrackDash, lit_track, matchLit, Ne.symm h]

theorem reTrack_brace : ∀ b t, b ≠ 123 → reTrack (b :: t) = none := by
  intro b t h
  simp [reTrack, lit_track, matchLit, Ne.symm h]

theorem ReplaceAllString_some {m : List Nat → Option (List Nat)} (hm : Consuming m)
    (repl : List Nat) {s rest : List Nat} (hs : s ≠ []) (h : m s = some rest) :
    ReplaceAllString m s repl = repl ++ ReplaceAllString m rest repl := by
  cases s with
  | nil => exact absurd rfl hs
  | cons b t => exact ReplaceAllString_cons_some hm repl h

/-- A replacement passes over a prefix that has no opening brace after its
first character, when the pattern does not match at the first character. -/
theorem ReplaceAllString_pass {m : List Nat → Option (List Nat)}
    (hm : ∀ b t, b ≠ 123 → m (b :: t) = none) (repl pre rest : List Nat)
    (hpre : 123 ∉ pre.tail) (h0 : m (pre ++ rest) = none) :
    ReplaceAllString m (pre ++ rest) repl = pre ++ ReplaceAllString m rest repl := by
  cases pre with
  | nil => rfl
  | cons b u =>
    rw [List.cons_append] at h0 ⊢
    rw [ReplaceAllString_cons_none repl h0, ReplaceAllString_append_of_no_match]
    · rfl
    · intro c t hsuf
      apply hm
      rintro rfl
      exact hpre (hsuf.subset (List.mem_cons_self _ _))

/-- A replacement leaves a string unchanged that has no opening brace after
its first character, when the pattern does not match at the first character. -/
theorem ReplaceAllString_noop_head {m : List Nat → Option (List Nat)}
    (hm : ∀ b t, b ≠ 123 → m (b :: t) = none) (repl s : List Nat)
    (hs : 123 ∉ s.tail) (h0 : m s = none) :
    ReplaceAllString m s repl = s := by
  have h := ReplaceAllString_pass hm repl s [] hs (by rwa [List.append_nil])
  rwa [List.append_nil, ReplaceAllString_nil, List.append_nil] at h

theorem matchLit_of_head_brace (p : GoString) (hp : p.head? = some 123) :
    ∀ b t, b ≠ 123 → matchLit p (b :: t) = none := by
  cases p with
  | nil => simp at hp
  | cons a q =>
    simp only [List.head?_cons, Option.some.injEq] at hp
    subst hp
    exact matchLit_brace q

theorem lit_track_dot_space : lit "{track}. " = [123, 116, 114, 97, 99, 107, 125, 46, 32] := by
  decide

theorem lit_dash : lit " - " = [32, 45, 32] := by decide

theorem lit_flac : lit ".flac" = [46, 102, 108, 97, 99] := by decide

/-- The template of claim C6 after the substitution of title and artist. -/
theorem template_tail_no_brace (T A : GoString) (hT : 123 ∉ T) (hA : 123 ∉ A) :
    123 ∉ (lit "{track}. " ++ T ++ lit " - " ++ A).tail := by
  rw [lit_track_dot_space, lit_dash]
  simp [hT, hA]

theorem template_title (T : GoString) :
    strings.ReplaceAll (lit "{track}. {title} - {artist}") (lit "{title}") T =
      (lit "{track}. " ++ T ++ lit " - ") ++ lit "{artist}" := by
  have h : strings.ReplaceAll (lit "{track}. {title} - {artist}") (lit "{title}") T =
      lit "{track}. " ++ (T ++ lit " - {artist}") := rfl
  rw [h]
  have h2 : lit " - {artist}" = lit " - " ++ lit "{artist}" := by decide
  rw [h2]
  simp [List.append_assoc]

theorem template_artist (T A : GoString) (hT : 123 ∉ T) :
    strings.ReplaceAll ((lit "{track}. " ++ T ++ lit " - ") ++ lit "{artist}") (lit "{artist}") A
      = lit "{track}. " ++ T ++ lit " - " ++ A := by
  rw [strings_ReplaceAll_eq, ReplaceAllString_pass (matchLit_of_head_brace _ (by decide))]
  · have h : ReplaceAllString (matchLit (lit "{artist}")) (lit "{artist}") A = A ++ [] := rfl
    rw [h, List.append_nil]
  · rw [lit_track_dot_space, lit_dash]
    simp [hT]
  · rfl

/-- A token other than title and artist is not found in the template of
claim C6 after the substitution of title and artist. -/
theorem template_other (T A : GoString) (hT : 123 ∉ T) (hA : 123 ∉ A) (p repl : GoString)
    (hp : p.head? = some 123)
    (h0 : matchLit p (lit "{track}. " ++ T ++ lit " - " ++ A) = none) :
    strings.ReplaceAll (lit "{track}. " ++ T ++ lit " - " ++ A) p repl =
      lit "{track}. " ++ T ++ lit " - " ++ A := by
  rw [strings_ReplaceAll_eq]
  exact ReplaceAllString_noop_head (matchLit_of_head_brace p hp) repl _
    (template_tail_no_brace T A hT hA) h0

theorem template_track_dot (T A : GoString) (hT : 123 ∉ T) (hA : 123 ∉ A)
    (hhead : ∃ b t, T = b :: t ∧ reSpace b = false) :
    ReplaceAllString reTrackDot (lit "{track}. " ++ T ++ lit " - " ++ A) [] =
      T ++ lit " - " ++ A := by
  obtain ⟨b, t, rfl, hb⟩ := hhead
  have h : reTrackDot (lit "{track}. " ++ (b :: t) ++ lit " - " ++ A) =
      some (List.dropWhile reSpace (32 :: ((b :: t) ++ lit " - " ++ A))) := rfl
  rw [List.dropWhile_cons_of_pos (by decide), List.cons_append, List.cons_append,
    List.dropWhile_cons_of_neg (by simp [hb])] at h
  have hne : lit "{track}. " ++ (b :: t) ++ lit " - " ++ A ≠ [] := by
    rw [lit_track_dot_space]; simp
  rw [ReplaceAllString_some consuming_reTrackDot [] hne h, List.nil_append]
  apply ReplaceAllString_no_brace reTrackDot_brace
  have hd : 123 ∉ lit " - " := by decide
  have hall : 123 ∉ (b :: t) ++ lit " - " ++ A := by
    simp only [List.mem_append, not_or]
    exact ⟨⟨hT, hd⟩, hA⟩
  exact hall

theorem strings_Contains_head {s p : GoString} {a : Nat} (hp : p.head? = some a)
    (h : strings.Contains s p = true) : a ∈ s := by
  simp only [strings.Contains, List.any_eq_true, List.mem_tails, Option.isSome_iff_exists] at h
  obtain ⟨t, hts, rest, hm⟩ := h
  rw [matchLit_eq_some] at hm
  cases p with
  | nil => simp at hp
  | cons c q =>
    simp only [List.head?_cons, Option.some.injEq] at hp
    subst hp
    apply hts.subset
    rw [hm]
    simp

theorem strings_Contains_singleton {s : GoString} {c : Nat} (h : strings.Contains s [c] = false) :
    c ∉ s := by
  intro hc
  have : strings.Contains s [c] = true := by
    simp only [strings.Contains, List.any_eq_true, List.mem_tails, Option.isSome_iff_exists]
    obtain ⟨l1, l2, rfl⟩ := List.append_of_mem hc
    exact ⟨c :: l2, List.suffix_append _ _, l2, by simp [matchLit]⟩
  rw [h] at this
  exact Bool.false_ne_true this

theorem lit_brace : lit "\x7b" = [123] := by decide

/-- Token mode of `BuildExpectedFilename` for the template of claim C6
and position 0, in terms of the sanitized title `T` and artist `A`. -/
theorem template_position_zero (T A SA SAA Y D SP SC : GoString) (discNumber : Int)
    (hT : 123 ∉ T) (hA : 123 ∉ A) (hhead : ∃ b t, T = b :: t ∧ reSpace b = false)
    (f0 f1 f2 f3 f4 f5 f6 f7 f8 : GoString)
    (h1 : f1 = strings.ReplaceAll (lit "{track}. {title} - {artist}") (lit "{title}") T)
    (h2 : f2 = strings.ReplaceAll f1 (lit "{artist}") A)
    (h3 : f3 = strings.ReplaceAll f2 (lit "{album}") SA)
    (h4 : f4 = strings.ReplaceAll f3 (lit "{album_artist}") SAA)
    (h5 : f5 = strings.ReplaceAll f4 (lit "{year}") Y)
    (h6 : f6 = strings.ReplaceAll f5 (lit "{date}") D)
    (h7 : f7 = strings.ReplaceAll f6 (lit "{playlist}") SP)
    (h8 : f8 = strings.ReplaceAll f7 (lit "{creator}") SC)
    (h0 : f0 = if discNumber > 0 then strings.ReplaceAll f8 (lit "{disc}") (fmt.d discNumber)
      else strings.ReplaceAll f8 (lit "{disc}") []) :
    ReplaceAllString reTrack (ReplaceAllString reTrackDash (ReplaceAllString reTrackDot f0 [])
      []) [] = T ++ lit " - " ++ A := by
  rw [template_title] at h1
  rw [h1, template_artist T A hT] at h2
  rw [h2, template_other T A hT hA (lit "{album}") SA (by decide) rfl] at h3
  rw [h3, template_other T A hT hA (lit "{album_artist}") SAA (by decide) rfl] at h4
  rw [h4, template_other T A hT hA (lit "{year}") Y (by decide) rfl] at h5
  rw [h5, template_other T A hT hA (lit "{date}") D (by decide) rfl] at h6
  rw [h6, template_other T A hT hA (lit "{playlist}") SP (by decide) rfl] at h7
  rw [h7, template_other T A hT hA (lit "{creator}") SC (by decide) rfl] at h8
  rw [h8, template_other T A hT hA (lit "{disc}") _ (by decide) rfl,
    template_other T A hT hA (lit "{disc}") [] (by decide) rfl, ite_self] at h0
  rw [h0, template_track_dot T A hT hA hhead]
  have hd : 123 ∉ lit " - " := by decide
  have hall : 123 ∉ T ++ lit " - " ++ A := by
    simp only [List.mem_append, not_or]
    exact ⟨⟨hT, hd⟩, hA⟩
  rw [ReplaceAllString_no_brace reTrackDash_brace _ _ hall,
    ReplaceAllString_no_brace reTrack_brace _ _ hall]

theorem lit_track_head : (lit "{track}").head? = some 123 := by decide

theorem no_track_literal (T A : GoString) (hT : 123 ∉ T) (hA : 123 ∉ A) :
    strings.Contains (T ++ lit " - " ++ A ++ lit ".flac") (lit "{track}") = false := by
  by_contra hcon
  have hcon : strings.Contains (T ++ lit " - " ++ A ++ lit ".flac") (lit "{track}") = true := by
    simpa using hcon
  have hmem := strings_Contains_head lit_track_head hcon
  have hd : 123 ∉ lit " - " := by decide
  have hf : 123 ∉ lit ".flac" := by decide
  simp only [List.mem_append] at hmem
  tauto

/-- C6 (amended): for every title and artist that contain no opening brace
(and all other inputs), `BuildExpectedFilename` with the template
`"{track}. {title} - {artist}"` and position 0 returns exactly
`SanitizeFilename(title) + " - " + SanitizeFilename(artist) + ".flac"`, and
the result does not contain the literal `"{track}"`. -/
theorem BuildExpectedFilename_track_template_position_zero
    (title artist albumName albumArtist releaseDate playlistName playlistOwner : GoString)
    (includeTrackNumber useAlbumTrackNumber : Bool) (discNumber : Int)
    (ht : strings.Contains title (lit "\x7b") = false)
    (ha : strings.Contains artist (lit "\x7b") = false) :
    BuildExpectedFilename title artist albumName albumArtist releaseDate
        (lit "{track}. {title} - {artist}") playlistName playlistOwner includeTrackNumber 0
        discNumber useAlbumTrackNumber =
      SanitizeFilename title ++ lit " - " ++ SanitizeFilename artist ++ lit ".flac" ∧
    strings.Contains (BuildExpectedFilename title artist albumName albumArtist releaseDate
        (lit "{track}. {title} - {artist}") playlistName playlistOwner includeTrackNumber 0
        discNumber useAlbumTrackNumber) (lit "{track}") = false := by
  rw [lit_brace] at ht ha
  have hT := SanitizeFilename_no_brace (strings_Contains_singleton ht)
  have hA := SanitizeFilename_no_brace (strings_Contains_singleton ha)
  have hhead := SanitizeFilename_head title
  have hc : strings.Contains (lit "{track}. {title} - {artist}") (lit "\x7b") = true := by decide
  have hp : ¬ ((0 : Int) > 0) := by decide
  have key : BuildExpectedFilename title artist albumName albumArtist releaseDate
        (lit "{track}. {title} - {artist}") playlistName playlistOwner includeTrackNumber 0
        discNumber useAlbumTrackNumber =
      SanitizeFilename title ++ lit " - " ++ SanitizeFilename artist ++ lit ".flac" := by
    simp only [BuildExpectedFilename, hc, if_true, if_neg hp]
    generalize SanitizeFilename title = T at hT hhead ⊢
    generalize SanitizeFilename artist = A at hA ⊢
    generalize SanitizeFilename albumName = SA
    generalize SanitizeFilename albumArtist = SAA
    generalize SanitizeFilename releaseDate = D
    generalize SanitizeFilename playlistName = SP
    generalize SanitizeFilename playlistOwner = SC
    generalize yearOf releaseDate = Y
    rw [template_position_zero T A SA SAA Y D SP SC discNumber hT hA hhead _ _ _ _ _ _ _ _ _
      rfl rfl rfl rfl rfl rfl rfl rfl rfl]
  refine ⟨key, ?_⟩
  rw [key]
  exact no_track_literal _ _ hT hA

theorem decimalAux_digits : ∀ (fuel n : Nat) (acc : List Nat),
    (∀ b ∈ acc, 48 ≤ b ∧ b ≤ 57) → ∀ b ∈ decimalAux fuel n acc, 48 ≤ b ∧ b ≤ 57 := by
  intro fuel
  induction fuel with
  | zero => intro n acc h; simpa [decimalAux] using h
  | succ k ih =>
    intro n acc h
    have hd : ∀ b ∈ (48 + n % 10) :: acc, 48 ≤ b ∧ b ≤ 57 := by
      intro b hb
      rcases List.mem_cons.mp hb with rfl | hb
      · omega
      · exact h b hb
    simp only [decimalAux]
    split_ifs
    · exact hd
    · exact ih _ _ hd

theorem decimalAux_value : ∀ (fuel n : Nat) (acc : List Nat), n < fuel →
    (decimalAux fuel n acc).foldl (fun a b => 10 * a + (b - 48)) 0
      = acc.foldl (fun a b => 10 * a + (b - 48)) n := by
  intro fuel
  induction fuel with
  | zero => intro n acc h; omega
  | succ k ih =>
    intro n acc h
    simp only [decimalAux]
    split_ifs with h0
    · have hn : n < 10 := by omega
      simp only [List.foldl_cons]
      congr 1
      omega
    · rw [ih (n / 10) _ (by omega)]
      simp only [List.foldl_cons]
      congr 1
      omega

theorem decimalAux_length : ∀ (fuel n : Nat) (acc : List Nat), 0 < fuel →
    acc.length + 1 ≤ (decimalAux fuel n acc).length := by
  intro fuel
  induction fuel with
  | zero => intro n acc h; omega
  | succ k ih =>
    intro n acc _
    simp only [decimalAux]
    split_ifs with h0
    · simp
    · cases k with
      | zero => simp [decimalAux]
      | succ j =>
        have := ih (n / 10) ((48 + n % 10) :: acc) (by omega)
        simp only [List.length_cons] at this
        omega

theorem decimal_digits (n : Nat) : ∀ b ∈ decimal n, 48 ≤ b ∧ b ≤ 57 :=
  decimalAux_digits _ _ [] (by simp)

theorem decimal_value (n : Nat) : decimalValue (decimal n) = n := by
  unfold decimalValue decimal
  rw [decimalAux_value _ _ _ (by omega)]
  rfl

theorem decimal_length_two {n : Nat} (h : 10 ≤ n) : 2 ≤ (decimal n).length := by
  unfold decimal
  simp only [decimalAux]
  rw [if_neg (by omega)]
  have := decimalAux_length n (n / 10) [48 + n % 10] (by omega)
  simpa using this

/-- For a positive number, `%02d` gives at least two decimal digits that
denote the number. -/
theorem d02_spec (p : Int) (hp : p > 0) :
    2 ≤ (fmt.d02 p).length ∧ (∀ b ∈ fmt.d02 p, 48 ≤ b ∧ b ≤ 57) ∧
      (decimalValue (fmt.d02 p) : Int) = p := by
  obtain ⟨n, rfl⟩ := Int.eq_ofNat_of_zero_le (le_of_lt hp)
  have hn : 0 < n := by exact_mod_cast hp
  unfold fmt.d02 fmt.d
  simp only [Int.natAbs_ofNat]
  by_cases h10 : n < 10
  · have hc : (0 : Int) ≤ (n : Int) ∧ (n : Int) < 10 := ⟨by omega, by exact_mod_cast h10⟩
    rw [if_pos hc]
    refine ⟨?_, ?_, ?_⟩
    · have := decimalAux_length (n + 1) n [] (by omega)
      simp only [List.length_cons, decimal]
      omega
    · intro b hb
      rcases List.mem_cons.mp hb with rfl | hb
      · omega
      · exact decimal_digits n b hb
    · have := decimal_value n
      unfold decimalValue at this ⊢
      simp only [List.foldl_cons]
      rw [show 10 * 0 + (48 - 48) = 0 from rfl, this]
  · have hc : ¬ ((0 : Int) ≤ (n : Int) ∧ (n : Int) < 10) := by
      intro h; exact h10 (by exact_mod_cast h.2)
    have hneg : ¬ ((n : Int) < 0) := by omega
    rw [if_neg hc, if_neg hneg]
    exact ⟨decimal_length_two (by omega), decimal_digits n, by rw [decimal_value]⟩

/-! ## The claims about the file names -/

/-- C2 (defect of the code): for title "Song", artist "Artist", the template
`"{track}. {title}"` and position 0, the Deezer strategy renames the
download to `". Song.flac"`, while `BuildExpectedFilename`, which its own
existence check and the orchestrator use, gives `"Song.flac"` for the same
inputs; with the template `"{playlist} {title}"` the saved name keeps the
token that `BuildExpectedFilename` replaces. -/
theorem deezer_saved_name_differs :
    deezerNewFilename (fun a => a) (lit "{track}. {title}") false 0 (lit "Song") (lit "Artist")
        [] [] [] 0 false = lit ". Song.flac" ∧
    deezerExpectedFilename (fun a => a) (lit "{track}. {title}") [] [] false 0 (lit "Song")
        (lit "Artist") [] [] [] 0 false = lit "Song.flac" ∧
    BuildExpectedFilename (lit "Song") (lit "Artist") [] [] [] (lit "{track}. {title}") [] []
        false 0 0 false = lit "Song.flac" ∧
    deezerNewFilename (fun a => a) (lit "{playlist} {title}") false 0 (lit "Song")
        (lit "Artist") [] [] [] 0 false = lit "{playlist} Song.flac" ∧
    deezerExpectedFilename (fun a => a) (lit "{playlist} {title}") (lit "Mix") [] false 0
        (lit "Song") (lit "Artist") [] [] [] 0 false = lit "Mix Song.flac" := by
  decide

/-- C3 (defect of the code): with `useAlbumTrackNumber` set, album track
number 5, position 1 and the template `"{track} {title}"`, the Tidal
strategy writes to `"05 Song.flac"`, while `BuildExpectedFilename`, which
takes `useAlbumTrackNumber` and does not use it, gives `"01 Song.flac"`
for the orchestrator's check of the same request. -/
theorem tidal_written_name_differs :
    tidalFilename (fun a => a) (lit "{track} {title}") false 1 (lit "Song") (lit "Artist")
        [] [] [] true 5 0 false = lit "05 Song.flac" ∧
    BuildExpectedFilename (lit "Song") (lit "Artist") [] [] [] (lit "{track} {title}") [] []
        false 1 0 true = lit "01 Song.flac" := by
  decide

/-- C5 (defect of the code): the dots are trimmed before the underscores,
so `SanitizeFilename("_.a")` is `".a"`, which begins with a dot, and
`SanitizeFilename("a._")` is `"a."`, which ends with one. -/
theorem SanitizeFilename_keeps_shielded_dot :
    SanitizeFilename (lit "_.a") = lit ".a" ∧ SanitizeFilename (lit "a._") = lit "a." := by
  decide

/-- C6 (counterexample): a title that is itself a token is substituted
again, so for title `"{artist}"` and artist "A" the result is
`"A - A.flac"` and not `"{artist} - A.flac"`; and for the title
`"{tr{track}ack}"` the result contains the literal `"{track}"`. -/
theorem BuildExpectedFilename_title_with_token :
    BuildExpectedFilename (lit "{artist}") (lit "A") [] [] []
        (lit "{track}. {title} - {artist}") [] [] false 0 0 false = lit "A - A.flac" ∧
    SanitizeFilename (lit "{artist}") ++ lit " - " ++ SanitizeFilename (lit "A") ++ lit ".flac"
        = lit "{artist} - A.flac" ∧
    BuildExpectedFilename (lit "{artist}") (lit "A") [] [] []
        (lit "{track}. {title} - {artist}") [] [] false 0 0 false ≠
      SanitizeFilename (lit "{artist}") ++ lit " - " ++ SanitizeFilename (lit "A") ++
        lit ".flac" ∧
    strings.Contains (BuildExpectedFilename (lit "{tr{track}ack}") (lit "A") [] [] []
        (lit "{track}. {title} - {artist}") [] [] false 0 0 false) (lit "{track}") = true := by
  decide

/-- C6 (witness): title "Song" and artist "Artist" have no opening brace;
the result is `"Song - Artist.flac"`. -/
theorem BuildExpectedFilename_track_template_position_zero_witness :
    BuildExpectedFilename (lit "Song") (lit "Artist") [] [] []
        (lit "{track}. {title} - {artist}") [] [] false 0 0 false = lit "Song - Artist.flac" :=
  (BuildExpectedFilename_track_template_position_zero (lit "Song") (lit "Artist") [] [] [] []
    [] false false 0 (by decide) (by decide)).1.trans (by decide)

/-- C7 (defect of the code): `{year}` is replaced by the first four bytes
of the release date as they are, so for the release date `"1/2/2020"` and
the template `"{year} - {title}"`, which has no unsafe character, the
returned name `"1/2/ - Song.flac"` contains forward slashes; the token
`{date}` of the same release date is sanitized. -/
theorem BuildExpectedFilename_year_not_sanitized :
    BuildExpectedFilename (lit "Song") (lit "Artist") [] [] (lit "1/2/2020")
        (lit "{year} - {title}") [] [] false 0 0 false = lit "1/2/ - Song.flac" ∧
    (∀ b ∈ lit "{year} - {title}", b ∉ lit "/<>:\"\\|?*") ∧
    lit "/" <:+: BuildExpectedFilename (lit "Song") (lit "Artist") [] [] (lit "1/2/2020")
        (lit "{year} - {title}") [] [] false 0 0 false ∧
    BuildExpectedFilename (lit "Song") (lit "Artist") [] [] (lit "1/2/2020")
        (lit "{date} - {title}") [] [] false 0 0 false = lit "1 2 2020 - Song.flac" := by
  decide

/-- C8: for every template that contains no `"{"`, `BuildExpectedFilename`
returns artist, `" - "`, title for the template `"artist-title"`, the title
for `"title"` and title, `" - "`, artist for every other template (title
and artist sanitized), followed by `".flac"` and preceded by the position
in the form `%02d` and `". "` exactly when `includeTrackNumber` is set and
the position is positive; for a positive position that form consists of at
least two decimal digits that denote the position. -/
theorem BuildExpectedFilename_preset
    (trackName artistName albumName albumArtist releaseDate filenameFormat playlistName
      playlistOwner : GoString)
    (includeTrackNumber useAlbumTrackNumber : Bool) (position discNumber : Int)
    (h : strings.Contains filenameFormat (lit "\x7b") = false) :
    BuildExpectedFilename trackName artistName albumName albumArtist releaseDate filenameFormat
        playlistName playlistOwner includeTrackNumber position discNumber useAlbumTrackNumber =
      (if includeTrackNumber = true ∧ position > 0 then fmt.d02 position ++ lit ". " else []) ++
      (if filenameFormat = lit "artist-title" then
          SanitizeFilename artistName ++ lit " - " ++ SanitizeFilename trackName
        else if filenameFormat = lit "title" then SanitizeFilename trackName
        else SanitizeFilename trackName ++ lit " - " ++ SanitizeFilename artistName) ++
      lit ".flac" ∧
    (position > 0 → 2 ≤ (fmt.d02 position).length ∧
      (∀ b ∈ fmt.d02 position, 48 ≤ b ∧ b ≤ 57) ∧
      (decimalValue (fmt.d02 position) : Int) = position) := by
  refine ⟨?_, d02_spec position⟩
  simp only [BuildExpectedFilename, h, Bool.false_eq_true, if_false]
  generalize SanitizeFilename trackName = T
  generalize SanitizeFilename artistName = A
  split_ifs <;> simp [List.append_assoc]

/-- C8 (witness): the template `"title-artist"` has no `"{"`; title
"Song" and artist "Artist" give `"Song - Artist.flac"`, and with position 7
and `includeTrackNumber` set, `"07. Song - Artist.flac"`. -/
theorem BuildExpectedFilename_preset_witness :
    BuildExpectedFilename (lit "Song") (lit "Artist") [] [] [] (lit "title-artist") [] []
        false 0 0 false = lit "Song - Artist.flac" ∧
    BuildExpectedFilename (lit "Song") (lit "Artist") [] [] [] (lit "title-artist") [] []
        true 7 0 false = lit "07. Song - Artist.flac" :=
  ⟨(BuildExpectedFilename_preset (lit "Song") (lit "Artist") [] [] [] (lit "title-artist") []
      [] false false 0 0 (by decide)).1.trans (by decide),
    (BuildExpectedFilename_preset (lit "Song") (lit "Artist") [] [] [] (lit "title-artist") []
      [] true false 7 0 (by decide)).1.trans (by decide)⟩

/-! ## Facts about the orchestrator -/

theorem defaultService_names (req : DownloadRequest) :
    (defaultService req).TrackName = req.TrackName ∧
    (defaultService req).ArtistName = req.ArtistName ∧
    (defaultService req).SpotifyID = req.SpotifyID := by
  unfold defaultService; split_ifs <;> exact ⟨rfl, rfl, rfl⟩

theorem defaultOutputDir_names (env : Env) (req : DownloadRequest) :
    (defaultOutputDir env req).TrackName = req.TrackName ∧
    (defaultOutputDir env req).ArtistName = req.ArtistName ∧
    (defaultOutputDir env req).SpotifyID = req.SpotifyID := by
  unfold defaultOutputDir; split_ifs <;> exact ⟨rfl, rfl, rfl⟩

theorem defaultAudioFormat_names (req : DownloadRequest) :
    (defaultAudioFormat req).TrackName = req.TrackName ∧
    (defaultAudioFormat req).ArtistName = req.ArtistName ∧
    (defaultAudioFormat req).SpotifyID = req.SpotifyID := by
  unfold defaultAudioFormat; split_ifs <;> exact ⟨rfl, rfl, rfl⟩

theorem defaultFilenameFormat_names (req : DownloadRequest) :
    (defaultFilenameFormat req).TrackName = req.TrackName ∧
    (defaultFilenameFormat req).ArtistName = req.ArtistName ∧
    (defaultFilenameFormat req).SpotifyID = req.SpotifyID := by
  unfold defaultFilenameFormat; split_ifs <;> exact ⟨rfl, rfl, rfl⟩

/-- The defaults leave the names and the Spotify ID as they are. -/
theorem applyDefaults_names (env : Env) (req : DownloadRequest) :
    (applyDefaults env req).TrackName = req.TrackName ∧
    (applyDefaults env req).ArtistName = req.ArtistName ∧
    (applyDefaults env req).SpotifyID = req.SpotifyID := by
  unfold applyDefaults
  obtain ⟨a1, a2, a3⟩ := defaultService_names req
  obtain ⟨b1, b2, b3⟩ := defaultOutputDir_names env (defaultService req)
  obtain ⟨c1, c2, c3⟩ := defaultAudioFormat_names (defaultOutputDir env (defaultService req))
  obtain ⟨d1, d2, d3⟩ := defaultFilenameFormat_names
    (defaultAudioFormat (defaultOutputDir env (defaultService req)))
  exact ⟨by rw [d1, c1, b1, a1], by rw [d2, c2, b2, a2], by rw [d3, c3, b3, a3]⟩

theorem fillCopyright_names (t : TrackData) (req : DownloadRequest) :
    (fillCopyright t req).TrackName = req.TrackName ∧
    (fillCopyright t req).ArtistName = req.ArtistName := by
  unfold fillCopyright; split_ifs <;> exact ⟨rfl, rfl⟩

theorem fillPublisher_names (t : TrackData) (req : DownloadRequest) :
    (fillPublisher t req).TrackName = req.TrackName ∧
    (fillPublisher t req).ArtistName = req.ArtistName := by
  unfold fillPublisher; split_ifs <;> exact ⟨rfl, rfl⟩

theorem fillTotalDiscs_names (t : TrackData) (req : DownloadRequest) :
    (fillTotalDiscs t req).TrackName = req.TrackName ∧
    (fillTotalDiscs t req).ArtistName = req.ArtistName := by
  unfold fillTotalDiscs; split_ifs <;> exact ⟨rfl, rfl⟩

theorem fillTotalTracks_names (t : TrackData) (req : DownloadRequest) :
    (fillTotalTracks t req).TrackName = req.TrackName ∧
    (fillTotalTracks t req).ArtistName = req.ArtistName := by
  unfold fillTotalTracks; split_ifs <;> exact ⟨rfl, rfl⟩

theorem fillTrackNumber_names (t : TrackData) (req : DownloadRequest) :
    (fillTrackNumber t req).TrackName = req.TrackName ∧
    (fillTrackNumber t req).ArtistName = req.ArtistName := by
  unfold fillTrackNumber; split_ifs <;> exact ⟨rfl, rfl⟩

theorem fillReleaseDate_names (t : TrackData) (req : DownloadRequest) :
    (fillReleaseDate t req).TrackName = req.TrackName ∧
    (fillReleaseDate t req).ArtistName = req.ArtistName := by
  unfold fillReleaseDate; split_ifs <;> exact ⟨rfl, rfl⟩

theorem fillFrom_names (req : DownloadRequest) (t : TrackData) :
    (fillFrom req t).TrackName = req.TrackName ∧
    (fillFrom req t).ArtistName = req.ArtistName := by
  unfold fillFrom
  constructor
  · rw [(fillReleaseDate_names _ _).1, (fillTrackNumber_names _ _).1,
      (fillTotalTracks_names _ _).1, (fillTotalDiscs_names _ _).1,
      (fillPublisher_names _ _).1, (fillCopyright_names _ _).1]
  · rw [(fillReleaseDate_names _ _).2, (fillTrackNumber_names _ _).2,
      (fillTotalTracks_names _ _).2, (fillTotalDiscs_names _ _).2,
      (fillPublisher_names _ _).2, (fillCopyright_names _ _).2]

/-- The metadata fetch leaves the names as they are. -/
theorem backfilled_names (env : Env) (req : DownloadRequest) :
    (backfilled env req).TrackName = req.TrackName ∧
    (backfilled env req).ArtistName = req.ArtistName := by
  unfold backfilled
  split_ifs
  · split
    · exact fillFrom_names _ _
    · exact ⟨rfl, rfl⟩
  · exact ⟨rfl, rfl⟩

/-! ## The claims about the strategies and the orchestrator -/

/-- C1 (counterexample): the request of the end-to-end scenario has a
Spotify ID and no copyright, and its file of five million bytes exists at
the expected path; `DownloadTrack` answers that the file exists, but only
after the metadata fetch, a network request.  And a Qobuz request without
Spotify ID fails although its file exists. -/
theorem DownloadTrack_fetches_before_check :
    (DownloadTrack (envWith brokenStream) songDownloaded songRequest).resp.Success = true ∧
    (DownloadTrack (envWith brokenStream) songDownloaded songRequest).resp.AlreadyExists = true ∧
    (DownloadTrack (envWith brokenStream) songDownloaded songRequest).resp.File =
      lit "out/Song - Artist.flac" ∧
    songDownloaded (lit "out/Song - Artist.flac") = some 5000000 ∧
    (DownloadTrack (envWith brokenStream) songDownloaded songRequest).trace.any Event.isNetwork
      = true ∧
    (DownloadTrack (envWith brokenStream) songDownloaded
      { songRequest with Service := lit "qobuz", SpotifyID := [] }).resp.Success = false := by
  decide

/-- C1 (amended): for every request with non-empty track and artist names,
other than a Qobuz request without Spotify ID: if a file larger than 102400
bytes exists at the expected path (the output directory and
`BuildExpectedFilename` of the request after the defaults and the metadata
fetch), `DownloadTrack` returns `Success = true`, `AlreadyExists = true`
and `File` = that path without error and leaves the file system as it is;
the only network request before it returns is the metadata fetch, made
exactly when the Spotify ID is non-empty and one of copyright, publisher,
total discs, release date, total tracks and track number is unset. -/
theorem DownloadTrack_existing_file (env : Env) (fs : FS) (req : DownloadRequest) (size : Nat)
    (hq : ¬ (req.Service = lit "qobuz" ∧ req.SpotifyID = []))
    (ht : req.TrackName ≠ []) (ha : req.ArtistName ≠ [])
    (hfile : fs (env.Join (preparedRequest env req).OutputDir
      (expectedFilenameOf (preparedRequest env req))) = some size)
    (hsize : size > 102400) :
    (DownloadTrack env fs req).resp.Success = true ∧
    (DownloadTrack env fs req).resp.AlreadyExists = true ∧
    (DownloadTrack env fs req).resp.File = env.Join (preparedRequest env req).OutputDir
      (expectedFilenameOf (preparedRequest env req)) ∧
    (DownloadTrack env fs req).err = none ∧
    (DownloadTrack env fs req).fs = fs ∧
    (∀ e ∈ (DownloadTrack env fs req).trace, e.isNetwork = true →
      e = Event.GetFilteredSpotifyData (trackURLOf req.SpotifyID)) ∧
    ((DownloadTrack env fs req).trace.any Event.isNetwork =
      needsBackfill (applyDefaults env req)) := by
  unfold preparedRequest at hfile
  obtain ⟨d1, d2, d3⟩ := applyDefaults_names env req
  obtain ⟨b1, b2⟩ := backfilled_names env (applyDefaults env req)
  have hchk : (decide ((backfilled env (applyDefaults env req)).TrackName ≠ []) &&
      decide ((backfilled env (applyDefaults env req)).ArtistName ≠ [])) = true := by
    rw [b1, b2, d1, d2]
    simp [ht, ha]
  have hsz : decide (size > 100 * 1024) = true := by
    simp only [decide_eq_true_eq]; omega
  have hD : DownloadTrack env fs req =
      { resp := { Success := true, Message := lit "File already exists",
                  File := env.Join (backfilled env (applyDefaults env req)).OutputDir
                    (expectedFilenameOf (backfilled env (applyDefaults env req))),
                  Error := [], AlreadyExists := true,
                  ItemID := itemIDOf env (applyDefaults env req) },
        err := none,
        trace := (((if (applyDefaults env req).ItemID = [] then
            [Event.AddToQueue (itemIDOf env (applyDefaults env req))
              (applyDefaults env req).TrackName (applyDefaults env req).ArtistName
              (applyDefaults env req).AlbumName (applyDefaults env req).SpotifyID]
          else []) ++ [Event.SetDownloading true,
            Event.StartDownloadItem (itemIDOf env (applyDefaults env req))]) ++
          (if needsBackfill (applyDefaults env req) then
            [Event.GetFilteredSpotifyData (trackURLOf (applyDefaults env req).SpotifyID)]
          else [])) ++
          [Event.Stat (env.Join (backfilled env (applyDefaults env req)).OutputDir
            (expectedFilenameOf (backfilled env (applyDefaults env req))))] ++
          [Event.SkipDownloadItem (itemIDOf env (applyDefaults env req))
            (env.Join (backfilled env (applyDefaults env req)).OutputDir
              (expectedFilenameOf (backfilled env (applyDefaults env req)))),
            Event.SetDownloading false],
        fs := fs } := by
    unfold DownloadTrack
    rw [if_neg hq]
    simp only [hchk, hfile, hsz, Bool.and_self, if_true]
    split_ifs <;> simp
  rw [hD]
  unfold preparedRequest
  refine ⟨rfl, rfl, rfl, rfl, rfl, ?_, ?_⟩
  · by_cases h1 : (applyDefaults env req).ItemID = [] <;>
      by_cases h2 : needsBackfill (applyDefaults env req) = true <;>
      simp [h1, h2, Event.isNetwork, d3]
  · by_cases h1 : (applyDefaults env req).ItemID = [] <;>
      by_cases h2 : needsBackfill (applyDefaults env req) = true <;>
      simp [h1, h2, Event.isNetwork]

/-- C1 (witness): the request of the end-to-end scenario without Spotify
ID, with its file of five million bytes in place, is answered from the
file system alone. -/
theorem DownloadTrack_existing_file_witness :
    (DownloadTrack (envWith brokenStream) songDownloaded
      { songRequest with SpotifyID := [] }).resp.AlreadyExists = true ∧
    (DownloadTrack (envWith brokenStream) songDownloaded
      { songRequest with SpotifyID := [] }).resp.File = lit "out/Song - Artist.flac" ∧
    (DownloadTrack (envWith brokenStream) songDownloaded
      { songRequest with SpotifyID := [] }).trace.any Event.isNetwork = false :=
  have h := DownloadTrack_existing_file (envWith brokenStream) songDownloaded
    { songRequest with SpotifyID := [] } 5000000 (by decide) (by decide) (by decide)
    (by decide) (by decide)
  ⟨h.2.1, h.2.2.1.trans (by decide), h.2.2.2.2.2.2.trans (by decide)⟩

/-- C9 (defect of the code): after the audio bytes were written, a failure
of the metadata embedding with error `e` makes the Qobuz strategy return
the error `failed to embed metadata: e` and no path, whatever the cover
download did; the Tidal, Deezer and Amazon strategies return the path of
the file and no error in the same situation. -/
theorem qobuz_returns_embed_error (w : PostWorld) (cleanup : GoString → FS → FS) (fs : FS)
    (filePath outputDir filenameFormat trackName artistName albumName albumArtist releaseDate
      coverURL e : GoString)
    (includeTrackNumber embedMaxQualityCover useFirstArtistOnly : Bool)
    (position discNumber : Int) :
    (qobuzAfterTransfer { w with EmbedMetadata := fun _ _ fs1 => (some e, fs1) } fs filePath
      coverURL embedMaxQualityCover).err = some (lit "failed to embed metadata: " ++ e) ∧
    (qobuzAfterTransfer { w with EmbedMetadata := fun _ _ fs1 => (some e, fs1) } fs filePath
      coverURL embedMaxQualityCover).filename = [] ∧
    (tidalAfterTransfer { w with EmbedMetadata := fun _ _ fs1 => (some e, fs1) } fs filePath
      coverURL embedMaxQualityCover).err = none ∧
    (tidalAfterTransfer { w with EmbedMetadata := fun _ _ fs1 => (some e, fs1) } fs filePath
      coverURL embedMaxQualityCover).filename = filePath ∧
    (deezerAfterTransfer
      { w with EmbedMetadataToConvertedFile := fun _ _ fs1 => (some e, fs1) } fs filePath
      outputDir filenameFormat includeTrackNumber position trackName artistName albumName
      albumArtist releaseDate coverURL discNumber embedMaxQualityCover
      useFirstArtistOnly).err = none ∧
    (amazonAfterTransfer
      { w with EmbedMetadataToConvertedFile := fun _ _ fs1 => (some e, fs1) } cleanup fs
      filePath outputDir filenameFormat includeTrackNumber position trackName artistName
      albumName albumArtist releaseDate coverURL discNumber embedMaxQualityCover
      useFirstArtistOnly).err = none :=
  ⟨rfl, rfl, rfl, rfl, rfl, rfl⟩

/-- The end of `DownloadTrack` after a strategy error: the response is a
failure with the error text after `Download failed: `, and with an empty
returned path no file is removed. -/
theorem failureEnd_response (itemID : GoString) (trace : List Event) (r : StrategyResult)
    (err : GoString) :
    (failureEnd itemID trace r err).resp.Success = false ∧
    (failureEnd itemID trace r err).resp.Error = lit "Download failed: " ++ err ∧
    (failureEnd itemID trace { r with filename := [] } err).fs = r.fs :=
  ⟨rfl, rfl, rfl⟩

/-- C10 (defect of the code): the request is for the track URL
`https://tidal.com/track/1`, from which `GetTrackIDFromURL` reads the track
ID 1.  The Tidal strategy for a fixed API creates the output file
`out/Song - Artist.flac`, the stream breaks off after 4096 bytes, and the
strategy returns the error with an empty path; `DownloadTrack` returns
`Success = false` with the error
`Download failed: failed to write file: EOF`, removes nothing, and the
partial file of 4096 bytes, which did not exist before, exists afterwards. -/
theorem DownloadTrack_leaves_partial_file :
    TidalDownloader.GetTrackIDFromURL brokenStream.SscanfError
      (lit "https://tidal.com/track/1") = .ok 1 ∧
    (DownloadTrack (envWith brokenStream) emptyFS tidalRequest).resp.Success = false ∧
    (DownloadTrack (envWith brokenStream) emptyFS tidalRequest).resp.Error =
      lit "Download failed: failed to write file: EOF" ∧
    emptyFS (lit "out/Song - Artist.flac") = none ∧
    (DownloadTrack (envWith brokenStream) emptyFS tidalRequest).fs
      (lit "out/Song - Artist.flac") = some 4096 ∧
    (tidalByURL brokenStream (lit "https://tidal.com/track/1") (lit "out") (lit "LOSSLESS")
      (lit "title-artist") tidalRequest emptyFS).filename = [] ∧
    (tidalByURL brokenStream (lit "https://tidal.com/track/1") (lit "out") (lit "LOSSLESS")
      (lit "title-artist") tidalRequest emptyFS).err = some (lit "failed to write file: EOF") :=
  ⟨rfl, by decide⟩

/-! ## The end of a run (claim C11) -/

/-- The result of `successEnd`, field by field. -/
theorem successEnd_response (env : Env) (req : DownloadRequest) (itemID : GoString)
    (trace : List Event) (r : StrategyResult) :
    (successEnd env req itemID trace r).resp.Success = true ∧
    (successEnd env req itemID trace r).resp.AlreadyExists =
      strings.HasPrefix r.filename (lit "EXISTS:") ∧
    (successEnd env req itemID trace r).resp.File =
      (if strings.HasPrefix r.filename (lit "EXISTS:") then
        strings.TrimPrefix r.filename (lit "EXISTS:") else r.filename) ∧
    (successEnd env req itemID trace r).resp.Message =
      (if strings.HasPrefix r.filename (lit "EXISTS:") then lit "File already exists"
        else lit "Download completed successfully") :=
  ⟨rfl, rfl, rfl, rfl⟩

/-- The strategy events of the end of a run are none. -/
theorem strategy_mem_successEnd (env : Env) (req : DownloadRequest) (itemID : GoString)
    (trace : List Event) (r : StrategyResult) (call : StrategyCall)
    (h : Event.strategy call ∈ (successEnd env req itemID trace r).trace) :
    Event.strategy call ∈ trace := by
  unfold successEnd at h
  simp only [List.mem_append, List.mem_singleton] at h
  rcases h with ((h | h) | h) | h
  · exact h
  · split_ifs at h <;> simp at h
  · split_ifs at h <;> simp at h
  · simp at h

/-- The strategy events of the end of a failed run are none. -/
theorem strategy_mem_failureEnd (itemID : GoString) (trace : List Event) (r : StrategyResult)
    (err : GoString) (call : StrategyCall)
    (h : Event.strategy call ∈ (failureEnd itemID trace r err).trace) :
    Event.strategy call ∈ trace := by
  unfold failureEnd at h
  simp only [List.mem_append, List.mem_singleton] at h
  rcases h with ((h | h) | h) | h
  · exact h
  · simp at h
  · split_ifs at h
    · split at h <;> simp at h
    · simp at h
  · simp at h

/-- When the trace of a run holds the call of a strategy, the run ends with
the end that belongs to the result of that call. -/
theorem DownloadTrack_of_strategy (env : Env) (fs : FS) (req : DownloadRequest)
    (call : StrategyCall) :
    Event.strategy call ∈ (DownloadTrack env fs req).trace →
    ∃ (req1 : DownloadRequest) (itemID : GoString) (trace : List Event),
      DownloadTrack env fs req =
        match (env.strategy call fs).err with
        | some err => failureEnd itemID trace (env.strategy call fs) err
        | none => successEnd env req1 itemID trace (env.strategy call fs) := by
  suffices hs : ∀ o, DownloadTrack env fs req = o → Event.strategy call ∈ o.trace →
      ∃ (req1 : DownloadRequest) (itemID : GoString) (trace : List Event),
        o = match (env.strategy call fs).err with
          | some err => failureEnd itemID trace (env.strategy call fs) err
          | none => successEnd env req1 itemID trace (env.strategy call fs) from
    hs _ rfl
  intro o ho
  unfold DownloadTrack at ho
  by_cases hq : req.Service = lit "qobuz" ∧ req.SpotifyID = []
  · rw [if_pos hq] at ho
    subst ho
    intro h; simp at h
  rw [if_neg hq] at ho
  lift_lets at ho
  extract_lets req1 itemID trace0 spotifyURL trace1 req2 expectedPath checked trace2 trace3
    src at ho
  have h0 : Event.strategy call ∉ trace0 := by
    simp only [trace0]
    split_ifs <;> simp
  have h1 : Event.strategy call ∉ trace1 := by
    simp only [trace1]
    split_ifs <;> simp [h0]
  have h2 : Event.strategy call ∉ trace2 := by
    simp only [trace2]
    split_ifs <;> simp [h1]
  have h3 : Event.strategy call ∉ trace3 := by
    simp only [trace3, sideFetchEvents]
    split_ifs <;> simp [h2]
  clear_value trace0 trace1 trace2 trace3
  split at ho
  · subst ho
    intro h; simp [h2] at h
  split at ho
  · subst ho
    intro h; simp [h3] at h
  · rename_i c hc
    lift_lets at ho
    extract_lets trace4 r at ho
    have h4 : Event.strategy call ∈ trace4 → call = c := by
      simp only [trace4]
      split_ifs <;> simp [h3]
    intro h
    have hcc : call = c := by
      apply h4
      rw [← ho] at h
      revert h
      split
      · exact strategy_mem_failureEnd _ _ _ _ _
      · exact strategy_mem_successEnd _ _ _ _ _ _
    subst hcc
    exact ⟨req2, itemID, trace4, ho.symm⟩

/-- C11: whenever `DownloadTrack` calls a provider strategy and the call
returns the path `r` without error, the response has `Success = true`; if
`r` is `"EXISTS:"` followed by `p` then `AlreadyExists = true`, `File = p`
and `Message = "File already exists"`; if `r` does not start with
`"EXISTS:"` then `AlreadyExists = false`, `File = r` and
`Message = "Download completed successfully"`. -/
theorem DownloadTrack_strategy_success (env : Env) (fs : FS) (req : DownloadRequest)
    (call : StrategyCall)
    (hcall : Event.strategy call ∈ (DownloadTrack env fs req).trace)
    (hok : (env.strategy call fs).err = none) :
    (DownloadTrack env fs req).resp.Success = true ∧
    (DownloadTrack env fs req).err = none ∧
    (∀ p, (env.strategy call fs).filename = lit "EXISTS:" ++ p →
      (DownloadTrack env fs req).resp.AlreadyExists = true ∧
      (DownloadTrack env fs req).resp.File = p ∧
      (DownloadTrack env fs req).resp.Message = lit "File already exists") ∧
    (¬ lit "EXISTS:" <+: (env.strategy call fs).filename →
      (DownloadTrack env fs req).resp.AlreadyExists = false ∧
      (DownloadTrack env fs req).resp.File = (env.strategy call fs).filename ∧
      (DownloadTrack env fs req).resp.Message = lit "Download completed successfully") := by
  obtain ⟨req1, itemID, trace, hD⟩ := DownloadTrack_of_strategy env fs req call hcall
  rw [hok] at hD
  simp only at hD
  rw [hD]
  obtain ⟨s1, s2, s3, s4⟩ := successEnd_response env req1 itemID trace (env.strategy call fs)
  rw [s1, s2, s3, s4]
  refine ⟨rfl, rfl, ?_, ?_⟩
  · intro p hp
    have hm : matchLit (lit "EXISTS:") (env.strategy call fs).filename = some p :=
      (matchLit_eq_some _ _ _).2 hp
    simp [strings.HasPrefix, strings.TrimPrefix, hm]
  · intro hn
    have hm : matchLit (lit "EXISTS:") (env.strategy call fs).filename = none := by
      cases hmm : matchLit (lit "EXISTS:") (env.strategy call fs).filename with
      | none => rfl
      | some rest => exact absurd ⟨rest, ((matchLit_eq_some _ _ _).1 hmm).symm⟩ hn
    simp [strings.HasPrefix, hm]

/-- C11 (witness): a Tidal request whose strategy returns the marked path
`EXISTS:out/Song - Artist.flac`. -/
theorem DownloadTrack_strategy_success_witness :
    (DownloadTrack (envReturning (lit "EXISTS:out/Song - Artist.flac")) emptyFS
      tidalRequest).resp.File = lit "out/Song - Artist.flac" ∧
    (DownloadTrack (envReturning (lit "out/Song - Artist.flac")) emptyFS
      tidalRequest).resp.Message = lit "Download completed successfully" :=
  ⟨((DownloadTrack_strategy_success (envReturning (lit "EXISTS:out/Song - Artist.flac")) emptyFS
      tidalRequest tidalCall (.tail _ (.tail _ (.tail _ (.tail _ (.tail _ (.tail _ (.head _))))))) rfl).2.2.1 (lit "out/Song - Artist.flac") rfl).2.1,
   ((DownloadTrack_strategy_success (envReturning (lit "out/Song - Artist.flac")) emptyFS
      tidalRequest tidalCall (.tail _ (.tail _ (.tail _ (.tail _ (.tail _ (.tail _ (.head _))))))) rfl).2.2.2 (by decide)).2.2⟩

/-! ## The existence check of the strategies (claim C12) -/

/-- C12 (code bug): the request is for the track URL
`https://tidal.com/track/1`, from which `GetTrackIDFromURL` reads the track
ID 1, and a file of 4096 bytes, below the minimum of 102400 bytes, exists
at the path where the Tidal strategy writes.  The claim has the
strategy download the track again; `TidalDownloader.DownloadByURL` tests
`fileInfo.Size() > 0` (tidal.go line 487), returns the marked path
`EXISTS:out/Song - Artist.flac` without error and leaves the small file as
it is, so that `DownloadTrack`, whose own check asks for more than
`100*1024` bytes and lets the file through, answers that the file already
exists. -/
theorem tidal_skips_small_file :
    TidalDownloader.GetTrackIDFromURL brokenStream.SscanfError
      (lit "https://tidal.com/track/1") = .ok 1 ∧
    songPartial (lit "out/Song - Artist.flac") = some 4096 ∧
    (tidalByURL brokenStream (lit "https://tidal.com/track/1") (lit "out") (lit "LOSSLESS")
      (lit "title-artist") tidalRequest songPartial).filename =
      lit "EXISTS:out/Song - Artist.flac" ∧
    (tidalByURL brokenStream (lit "https://tidal.com/track/1") (lit "out") (lit "LOSSLESS")
      (lit "title-artist") tidalRequest songPartial).err = none ∧
    (tidalByURL brokenStream (lit "https://tidal.com/track/1") (lit "out") (lit "LOSSLESS")
      (lit "title-artist") tidalRequest songPartial).fs (lit "out/Song - Artist.flac") =
      some 4096 ∧
    (tidalByURL brokenStream (lit "https://tidal.com/track/1") (lit "out") (lit "LOSSLESS")
      (lit "title-artist") tidalRequest emptyFS).filename = [] ∧
    (DownloadTrack (envWith brokenStream) songPartial tidalRequest).resp.Success = true ∧
    (DownloadTrack (envWith brokenStream) songPartial tidalRequest).resp.AlreadyExists = true ∧
    (DownloadTrack (envWith brokenStream) songPartial tidalRequest).resp.File =
      lit "out/Song - Artist.flac" ∧
    (DownloadTrack (envWith brokenStream) songPartial tidalRequest).fs
      (lit "out/Song - Artist.flac") = some 4096 :=
  ⟨rfl, by decide⟩

/-! ## The quality fallback (claims C13 and C14) -/

/-- C13: in both Tidal paths, when the stream URL cannot be obtained at the
requested quality: for quality `HI_RES` with `allowFallback` exactly one
further attempt is made, at `LOSSLESS`, and its outcome is the result (its
URL, or an error); otherwise no other quality is attempted and the error of
the attempt is returned.  The two paths attempt the same qualities in the
same order whenever their first attempts succeed or fail alike. -/
theorem tidal_quality_fallback (g1 : GoString → Except GoString GoString)
    (g2 : GoString → Except GoString (GoString × GoString)) (quality : GoString)
    (allowFallback : Bool) :
    (∀ e, g1 quality = .error e →
      (quality = lit "HI_RES" ∧ allowFallback = true →
        (TidalDownloader.DownloadByURL.downloadURL g1 quality allowFallback).1 =
          [lit "HI_RES", lit "LOSSLESS"] ∧
        (∀ u, g1 (lit "LOSSLESS") = .ok u →
          (TidalDownloader.DownloadByURL.downloadURL g1 quality allowFallback).2 = .ok u) ∧
        (∀ e2, g1 (lit "LOSSLESS") = .error e2 →
          (TidalDownloader.DownloadByURL.downloadURL g1 quality allowFallback).2 = .error
            (lit "failed to get download URL (HI_RES & LOSSLESS both failed): " ++ e2))) ∧
      (¬ (quality = lit "HI_RES" ∧ allowFallback = true) →
        TidalDownloader.DownloadByURL.downloadURL g1 quality allowFallback =
          ([quality], .error e))) ∧
    (∀ e, g2 quality = .error e →
      (quality = lit "HI_RES" ∧ allowFallback = true →
        (TidalDownloader.DownloadByURLWithFallback.downloadURL g2 quality allowFallback).1 =
          [lit "HI_RES", lit "LOSSLESS"] ∧
        (∀ u, g2 (lit "LOSSLESS") = .ok u →
          (TidalDownloader.DownloadByURLWithFallback.downloadURL g2 quality allowFallback).2 =
            .ok u) ∧
        (∀ e2, g2 (lit "LOSSLESS") = .error e2 →
          (TidalDownloader.DownloadByURLWithFallback.downloadURL g2 quality allowFallback).2 =
            .error (lit "failed to get download URL (HI_RES & LOSSLESS both failed): " ++ e2))) ∧
      (¬ (quality = lit "HI_RES" ∧ allowFallback = true) →
        TidalDownloader.DownloadByURLWithFallback.downloadURL g2 quality allowFallback =
          ([quality], .error e))) ∧
    ((g1 quality).isOk = (g2 quality).isOk →
      (TidalDownloader.DownloadByURL.downloadURL g1 quality allowFallback).1 =
        (TidalDownloader.DownloadByURLWithFallback.downloadURL g2 quality allowFallback).1) := by
  refine ⟨?_, ?_, ?_⟩
  · intro e he
    refine ⟨?_, ?_⟩
    · intro hc
      simp only [TidalDownloader.DownloadByURL.downloadURL, he, if_pos hc]
      refine ⟨?_, ?_, ?_⟩
      · cases g1 (lit "LOSSLESS") <;> simp [hc.1]
      · intro u hu; simp [hu]
      · intro e2 hu; simp [hu]
    · intro hc
      simp only [TidalDownloader.DownloadByURL.downloadURL, he, if_neg hc]
  · intro e he
    refine ⟨?_, ?_⟩
    · intro hc
      simp only [TidalDownloader.DownloadByURLWithFallback.downloadURL, he, if_pos hc]
      refine ⟨?_, ?_, ?_⟩
      · cases g2 (lit "LOSSLESS") <;> simp [hc.1]
      · intro u hu; simp [hu]
      · intro e2 hu; simp [hu]
    · intro hc
      simp only [TidalDownloader.DownloadByURLWithFallback.downloadURL, he, if_neg hc]
  · intro hok
    simp only [TidalDownloader.DownloadByURL.downloadURL,
      TidalDownloader.DownloadByURLWithFallback.downloadURL]
    cases h1 : g1 quality <;> cases h2 : g2 quality <;> simp [h1, h2, Except.isOk, Except.toBool] at hok ⊢
    split_ifs
    · cases g1 (lit "LOSSLESS") <;> cases g2 (lit "LOSSLESS") <;> rfl
    · rfl

/-- The loop over the providers: when a provider of the list answers, the
loop returns without error the answer of a provider of the list. -/
theorem tryProviders_ok (w : QobuzWorld) (trackID : Int) (qual : GoString) :
    ∀ (l : List GoString) (e : Option GoString),
      (∃ api ∈ l, (w.DownloadFromStandard api trackID qual).isOk = true) →
      (QobuzDownloader.tryProviders w trackID qual l e).2 = none ∧
      ∃ api ∈ l, w.DownloadFromStandard api trackID qual =
        .ok (QobuzDownloader.tryProviders w trackID qual l e).1 := by
  intro l
  induction l with
  | nil => intro e h; simp at h
  | cons a l ih =>
    intro e h
    cases ha : w.DownloadFromStandard a trackID qual with
    | ok url =>
      simp only [QobuzDownloader.tryProviders, ha]
      exact ⟨trivial, a, List.mem_cons_self _ _, ha⟩
    | error err =>
      simp only [QobuzDownloader.tryProviders, ha]
      have h2 : ∃ api ∈ l, (w.DownloadFromStandard api trackID qual).isOk = true := by
        obtain ⟨api, hm, hok⟩ := h
        rcases List.mem_cons.1 hm with rfl | hm
        · rw [ha] at hok; simp [Except.isOk, Except.toBool] at hok
        · exact ⟨api, hm, hok⟩
      obtain ⟨r1, api, hm, hr⟩ := ih (some err) h2
      exact ⟨r1, api, List.mem_cons_of_mem _ hm, hr⟩

/-- The loop over the providers: when no provider of the list answers, the
loop returns an error, unless the list is empty and there is none. -/
theorem tryProviders_fail (w : QobuzWorld) (trackID : Int) (qual : GoString) :
    ∀ (l : List GoString) (e : Option GoString),
      (∀ api ∈ l, (w.DownloadFromStandard api trackID qual).isOk = false) →
      (l ≠ [] ∨ e ≠ none) →
      (QobuzDownloader.tryProviders w trackID qual l e).2 ≠ none := by
  intro l
  induction l with
  | nil => intro e _ h; simpa [QobuzDownloader.tryProviders] using h
  | cons a l ih =>
    intro e h _
    cases ha : w.DownloadFromStandard a trackID qual with
    | ok url =>
      have := h a (List.mem_cons_self _ _)
      rw [ha] at this; simp [Except.isOk, Except.toBool] at this
    | error err =>
      simp only [QobuzDownloader.tryProviders, ha]
      exact ih (some err) (fun api hm => h api (List.mem_cons_of_mem _ hm)) (Or.inr (by simp))

/-- The closure `downloadFunc` returns without error exactly when some relay
answers for the quality. -/
theorem downloadFunc_none_iff (w : QobuzWorld) (trackID : Int) (qual : GoString)
    (hperm : (w.Shuffle qual QobuzDownloader.standardAPIs).Perm QobuzDownloader.standardAPIs) :
    (QobuzDownloader.downloadFunc w trackID qual).2 = none ↔
      QobuzDownloader.tierSucceeds w trackID qual = true := by
  unfold QobuzDownloader.downloadFunc QobuzDownloader.tierSucceeds
  rw [List.any_eq_true]
  constructor
  · intro h
    by_contra hn
    push_neg at hn
    refine tryProviders_fail w trackID qual _ none ?_ ?_ h
    · intro api hm
      have := hn api (hperm.mem_iff.1 hm)
      simpa using this
    · left
      intro h0
      have := hperm.length_eq
      rw [h0] at this
      simp [QobuzDownloader.standardAPIs] at this
  · rintro ⟨api, hm, hok⟩
    exact (tryProviders_ok w trackID qual _ none ⟨api, hperm.mem_iff.2 hm, hok⟩).1

/-- A URL that `downloadFunc` returns is the answer of a relay. -/
theorem downloadFunc_url (w : QobuzWorld) (trackID : Int) (qual url : GoString)
    (hperm : (w.Shuffle qual QobuzDownloader.standardAPIs).Perm QobuzDownloader.standardAPIs)
    (h : QobuzDownloader.downloadFunc w trackID qual = (url, none)) :
    ∃ api ∈ QobuzDownloader.standardAPIs, w.DownloadFromStandard api trackID qual = .ok url := by
  have hn : (QobuzDownloader.downloadFunc w trackID qual).2 = none := by rw [h]
  have hs := (downloadFunc_none_iff w trackID qual hperm).1 hn
  unfold QobuzDownloader.tierSucceeds at hs
  rw [List.any_eq_true] at hs
  obtain ⟨api, hm, hok⟩ := hs
  obtain ⟨_, api2, hm2, hr⟩ := tryProviders_ok w trackID qual
    (w.Shuffle qual QobuzDownloader.standardAPIs) none ⟨api, hperm.mem_iff.2 hm, hok⟩
  refine ⟨api2, hperm.mem_iff.1 hm2, ?_⟩
  rw [hr]
  unfold QobuzDownloader.downloadFunc at h
  rw [h]

/-- The tier of a successful call of `downloadFunc` succeeds. -/
theorem tier_of_downloadFunc_ok (w : QobuzWorld) (trackID : Int) (qual url : GoString)
    (hperm : (w.Shuffle qual QobuzDownloader.standardAPIs).Perm QobuzDownloader.standardAPIs)
    (h : QobuzDownloader.downloadFunc w trackID qual = (url, none)) :
    QobuzDownloader.tierSucceeds w trackID qual = true :=
  (downloadFunc_none_iff w trackID qual hperm).1 (by rw [h])

/-- The tier of a failed call of `downloadFunc` fails on every relay. -/
theorem tier_of_downloadFunc_error (w : QobuzWorld) (trackID : Int) (qual url err : GoString)
    (hperm : (w.Shuffle qual QobuzDownloader.standardAPIs).Perm QobuzDownloader.standardAPIs)
    (h : QobuzDownloader.downloadFunc w trackID qual = (url, some err)) :
    QobuzDownloader.tierSucceeds w trackID qual = false := by
  cases hs : QobuzDownloader.tierSucceeds w trackID qual with
  | false => rfl
  | true =>
    have := (downloadFunc_none_iff w trackID qual hperm).2 hs
    rw [h] at this
    simp at this

/-- The run of `GetDownloadURL` from the tier `7` on, after the tiers `tried`
failed: it follows the plan of those tiers and then `6`. -/
theorem fallbackToSix_followsPlan (w : QobuzWorld) (trackID : Int) (tried : List GoString)
    (err : GoString)
    (hperm : ∀ q, (w.Shuffle q QobuzDownloader.standardAPIs).Perm QobuzDownloader.standardAPIs)
    (hfail : ∀ q ∈ tried, QobuzDownloader.tierSucceeds w trackID q = false) :
    QobuzDownloader.followsPlan w trackID (tried ++ [lit "6"])
      (QobuzDownloader.fallbackToSix w trackID true (lit "7") tried err) := by
  have hatt : ∀ (l : List GoString) (rest : List GoString),
      (∀ q ∈ l, QobuzDownloader.tierSucceeds w trackID q = false) →
      attemptedTiers (QobuzDownloader.tierSucceeds w trackID) (l ++ rest) =
        l ++ attemptedTiers (QobuzDownloader.tierSucceeds w trackID) rest := by
    intro l rest
    induction l with
    | nil => intro _; rfl
    | cons a l ih =>
      intro h
      have ha := h a (List.mem_cons_self _ _)
      simp only [List.cons_append, attemptedTiers, ha, Bool.false_eq_true, if_false]
      exact congrArg (a :: ·) (ih (fun q hq => h q (List.mem_cons_of_mem _ hq)))
  unfold QobuzDownloader.fallbackToSix QobuzDownloader.followsPlan
  rw [if_pos ⟨rfl, rfl⟩, hatt tried _ hfail]
  rcases h6 : QobuzDownloader.downloadFunc w trackID (lit "6") with ⟨u6, _ | e6⟩
  · have s6 := tier_of_downloadFunc_ok w trackID _ _ (hperm _) h6
    simp only [attemptedTiers, s6, if_true]
    refine ⟨trivial, ?_, ?_⟩
    · intro url hu
      injection hu with hu
      subst hu
      exact ⟨lit "6", by simp, downloadFunc_url w trackID _ _ (hperm _) h6⟩
    · constructor
      · rintro ⟨e, he⟩; cases he
      · intro h
        have := h (lit "6") (by simp)
        rw [s6] at this; cases this
  · have s6 := tier_of_downloadFunc_error w trackID _ _ _ (hperm _) h6
    simp only [attemptedTiers, s6, Bool.false_eq_true, if_false]
    refine ⟨trivial, ?_, ?_⟩
    · intro url hu; cases hu
    · constructor
      · intro _ q hq
        rcases List.mem_append.1 hq with hq | hq
        · exact hfail q hq
        · rw [List.mem_singleton.1 hq]; exact s6
      · intro _; exact ⟨_, rfl⟩

/-- A run of `GetDownloadURL` whose first attempt succeeds follows every plan
that begins with the requested tier. -/
theorem followsPlan_first (w : QobuzWorld) (trackID : Int) (qc url : GoString)
    (rest : List GoString)
    (hperm : ∀ q, (w.Shuffle q QobuzDownloader.standardAPIs).Perm QobuzDownloader.standardAPIs)
    (h0 : QobuzDownloader.downloadFunc w trackID qc = (url, none)) :
    QobuzDownloader.followsPlan w trackID (qc :: rest) ([qc], .ok url) := by
  have s0 := tier_of_downloadFunc_ok w trackID _ _ (hperm _) h0
  unfold QobuzDownloader.followsPlan
  simp only [attemptedTiers, s0, if_true]
  refine ⟨trivial, ?_, ?_⟩
  · intro u hu
    injection hu with hu
    subst hu
    exact ⟨qc, by simp, downloadFunc_url w trackID _ _ (hperm _) h0⟩
  · constructor
    · rintro ⟨e, he⟩; cases he
    · intro h
      have := h qc (by simp)
      rw [s0] at this; cases this

/-- A run of `GetDownloadURL` that returns the error after the one tier of
its plan failed follows that plan. -/
theorem followsPlan_single_error (w : QobuzWorld) (trackID : Int) (qc e : GoString)
    (s0 : QobuzDownloader.tierSucceeds w trackID qc = false) :
    QobuzDownloader.followsPlan w trackID [qc] ([qc], .error e) := by
  unfold QobuzDownloader.followsPlan
  simp only [attemptedTiers, s0, Bool.false_eq_true, if_false]
  refine ⟨trivial, ?_, ?_⟩
  · intro u hu; cases hu
  · constructor
    · intro _ q hq
      rw [List.mem_singleton.1 hq]; exact s0
    · intro _; exact ⟨_, rfl⟩

/-- C14 (amended): for every track ID, every behaviour of the relays and
every order in which the providers are shuffled, `GetDownloadURL` attempts
the tiers 27, 7, 6 in this order when 27 is requested with fallback, the
tiers 7, 6 when 7 is requested with fallback, and otherwise only the
requested tier, where an empty quality and the quality 5 count as 6; it
stops at the first tier for which some relay answers and returns the URL of
a relay for that tier, and it returns an error exactly when every tier of
the plan fails on every relay. -/
theorem QobuzDownloader_GetDownloadURL_tiers (w : QobuzWorld) (trackID : Int)
    (quality : GoString) (allowFallback : Bool)
    (hperm : ∀ q, (w.Shuffle q QobuzDownloader.standardAPIs).Perm QobuzDownloader.standardAPIs) :
    (allowFallback = true → QobuzDownloader.qualityCode quality = lit "27" →
      QobuzDownloader.followsPlan w trackID [lit "27", lit "7", lit "6"]
        (QobuzDownloader.GetDownloadURL w trackID quality allowFallback)) ∧
    (allowFallback = true → QobuzDownloader.qualityCode quality = lit "7" →
      QobuzDownloader.followsPlan w trackID [lit "7", lit "6"]
        (QobuzDownloader.GetDownloadURL w trackID quality allowFallback)) ∧
    ((allowFallback = false ∨ (QobuzDownloader.qualityCode quality ≠ lit "27" ∧
        QobuzDownloader.qualityCode quality ≠ lit "7")) →
      QobuzDownloader.followsPlan w trackID [QobuzDownloader.qualityCode quality]
        (QobuzDownloader.GetDownloadURL w trackID quality allowFallback)) := by
  unfold QobuzDownloader.GetDownloadURL
  generalize QobuzDownloader.qualityCode quality = qc
  simp only
  refine ⟨?_, ?_, ?_⟩
  · intro ha hq
    subst ha hq
    rcases h0 : QobuzDownloader.downloadFunc w trackID (lit "27") with ⟨u0, _ | e0⟩
    · exact followsPlan_first w trackID _ _ _ hperm h0
    · have s0 := tier_of_downloadFunc_error w trackID _ _ _ (hperm _) h0
      simp only
      rw [if_pos (by simp)]
      rcases h7 : QobuzDownloader.downloadFunc w trackID (lit "7") with ⟨u7, _ | e7⟩
      · have s7 := tier_of_downloadFunc_ok w trackID _ _ (hperm _) h7
        unfold QobuzDownloader.followsPlan
        simp only [attemptedTiers, s0, s7, Bool.false_eq_true, if_false, if_true]
        refine ⟨trivial, ?_, ?_⟩
        · intro u hu
          injection hu with hu
          subst hu
          exact ⟨lit "7", by simp, downloadFunc_url w trackID _ _ (hperm _) h7⟩
        · constructor
          · rintro ⟨e, he⟩; cases he
          · intro h
            have := h (lit "7") (by simp)
            rw [s7] at this; cases this
      · have s7 := tier_of_downloadFunc_error w trackID _ _ _ (hperm _) h7
        simp only
        refine fallbackToSix_followsPlan w trackID [lit "27", lit "7"] e0 hperm ?_
        intro q hq
        rcases List.mem_cons.1 hq with rfl | hq
        · exact s0
        · rw [List.mem_singleton.1 hq]; exact s7
  · intro ha hq
    subst ha hq
    rcases h0 : QobuzDownloader.downloadFunc w trackID (lit "7") with ⟨u0, _ | e0⟩
    · exact followsPlan_first w trackID _ _ _ hperm h0
    · have s0 := tier_of_downloadFunc_error w trackID _ _ _ (hperm _) h0
      simp only
      rw [if_neg (by decide)]
      refine fallbackToSix_followsPlan w trackID [lit "7"] e0 hperm ?_
      intro q hq
      rw [List.mem_singleton.1 hq]; exact s0
  · intro hc
    rcases h0 : QobuzDownloader.downloadFunc w trackID qc with ⟨u0, _ | e0⟩
    · exact followsPlan_first w trackID _ _ _ hperm h0
    · have s0 := tier_of_downloadFunc_error w trackID _ _ _ (hperm _) h0
      have h27 : ¬ (qc = lit "27" ∧ allowFallback = true) := by
        rintro ⟨h1, h2⟩
        rcases hc with hc | hc
        · rw [hc] at h2; cases h2
        · exact hc.1 h1
      have h7 : ¬ (qc = lit "7" ∧ allowFallback = true) := by
        rintro ⟨h1, h2⟩
        rcases hc with hc | hc
        · rw [hc] at h2; cases h2
        · exact hc.2 h1
      simp only
      rw [if_neg h27]
      unfold QobuzDownloader.fallbackToSix
      rw [if_neg h7]
      exact followsPlan_single_error w trackID qc _ s0

/-- C14 (amended, witness): relays that answer for the quality 6 only, with
the providers in reverse order, and a request for 27 with fallback. -/
theorem QobuzDownloader_GetDownloadURL_tiers_witness :
    (∀ q, (qobuzSixOnly.Shuffle q QobuzDownloader.standardAPIs).Perm
      QobuzDownloader.standardAPIs) ∧
    QobuzDownloader.followsPlan qobuzSixOnly 1 [lit "27", lit "7", lit "6"]
      (QobuzDownloader.GetDownloadURL qobuzSixOnly 1 (lit "27") true) :=
  ⟨fun _ => List.reverse_perm _,
    (QobuzDownloader_GetDownloadURL_tiers qobuzSixOnly 1 (lit "27") true
      (fun _ => List.reverse_perm _)).1 rfl (by decide)⟩

/-- C14 (counterexample): the quality 5 is requested without fallback from
relays that answer for the quality 6 only.  The claim has only the requested
tier attempted, so that the call fails; `GetDownloadURL` replaces the
quality 5 (and the empty quality) by 6 (qobuz.go lines 160 to 163), attempts
the tier 6 and never the tier 5, and returns a URL.  For the quality 27 with
fallback the same relays are asked for 27, 7 and 6 in this order, as
claimed. -/
theorem GetDownloadURL_replaces_tier_five :
    QobuzDownloader.GetDownloadURL qobuzSixOnly 1 (lit "5") false =
      ([lit "6"],
        .ok (lit "https://qobuz.squid.wtf/api/download-music?track_id=/stream.flac")) ∧
    lit "5" ∉ (QobuzDownloader.GetDownloadURL qobuzSixOnly 1 (lit "5") false).1 ∧
    QobuzDownloader.tierSucceeds qobuzSixOnly 1 (lit "5") = false ∧
    (QobuzDownloader.GetDownloadURL qobuzSixOnly 1 [] false).1 = [lit "6"] ∧
    (QobuzDownloader.GetDownloadURL qobuzSixOnly 1 (lit "27") true).1 =
      [lit "27", lit "7", lit "6"] ∧
    (QobuzDownloader.GetDownloadURL qobuzDown 1 (lit "27") false) =
      ([lit "27"], .error (lit "all APIs and fallbacks failed. Last error: status 404")) :=
  ⟨rfl, by decide, by decide, by decide, by decide, rfl⟩

/-! ## The DASH manifest (claims C15 and C16) -/

/-- One representation keeps the invariant of the selection. -/
theorem selectRepresentation_inv (as : AdaptationSet) (s : Selection) (rep : Representation)
    (passed : List Representation) (h : SelectionInv s passed) :
    SelectionInv (selectRepresentation as s rep)
      (passed ++ [rep].filter fun r => r.SegmentTemplate.isSome) := by
  obtain ⟨h0, hle, hsel⟩ := h
  unfold selectRepresentation
  cases ht : rep.SegmentTemplate with
  | none =>
    simp only [List.filter, ht, Option.isSome, List.append_nil]
    exact ⟨h0, hle, hsel⟩
  | some t =>
    simp only [List.filter, ht, Option.isSome]
    by_cases hb : rep.Bandwidth > s.selectedBandwidth
    · rw [if_pos hb]
      refine ⟨by simp only; omega, ?_, ?_⟩
      · intro x hx
        rcases List.mem_append.1 hx with hx | hx
        · have := hle x hx
          simp only; omega
        · have hxr := List.mem_singleton.1 hx
          subst hxr
          exact le_refl _
      · intro _
        refine ⟨passed, rep, [], rfl, rfl, ht.symm, rfl, ?_⟩
        intro x hx
        have := hle x hx
        omega
    · rw [if_neg hb]
      refine ⟨h0, ?_, ?_⟩
      · intro x hx
        rcases List.mem_append.1 hx with hx | hx
        · exact hle x hx
        · rw [List.mem_singleton.1 hx]
          omega
      · intro hp
        obtain ⟨pre, r, post, e1, e2, e3, e4, e5⟩ := hsel hp
        exact ⟨pre, r, post ++ [rep], by rw [e1]; simp, e2, e3, e4, e5⟩

/-- The loop over the representations keeps the invariant. -/
theorem foldl_selectRepresentation_inv (as : AdaptationSet) :
    ∀ (reps : List Representation) (s : Selection) (passed : List Representation),
      SelectionInv s passed →
      SelectionInv (reps.foldl (selectRepresentation as) s)
        (passed ++ reps.filter fun r => r.SegmentTemplate.isSome) := by
  intro reps
  induction reps with
  | nil => intro s passed h; simpa using h
  | cons rep reps ih =>
    intro s passed h
    have h1 := ih _ _ (selectRepresentation_inv as s rep passed h)
    rw [List.append_assoc, ← List.filter_append] at h1
    exact h1

/-- One adaptation set keeps the invariant. -/
theorem selectAdaptationSet_inv (s : Selection) (as : AdaptationSet)
    (passed : List Representation) (h : SelectionInv s passed) :
    SelectionInv (selectAdaptationSet s as)
      (passed ++ as.Representations.filter fun r => r.SegmentTemplate.isSome) := by
  unfold selectAdaptationSet
  apply foldl_selectRepresentation_inv
  obtain ⟨h0, hle, hsel⟩ := h
  cases as.SegmentTemplate with
  | none => exact ⟨h0, hle, hsel⟩
  | some t =>
    simp only
    cases hs : s.segTemplate.isNone with
    | false =>
      simp only [Bool.false_eq_true, if_false]
      exact ⟨h0, hle, hsel⟩
    | true =>
      simp only [if_true]
      refine ⟨h0, hle, ?_⟩
      intro hp
      obtain ⟨pre, r, post, e1, e2, e3, e4, e5⟩ := hsel hp
      rw [Option.isNone_iff_eq_none] at hs
      rw [hs] at e4
      cases e4

/-- The loop over the adaptation sets keeps the invariant. -/
theorem foldl_selectAdaptationSet_inv :
    ∀ (sets : List AdaptationSet) (s : Selection) (passed : List Representation),
      SelectionInv s passed →
      SelectionInv (sets.foldl selectAdaptationSet s)
        (passed ++ sets.flatMap fun as =>
          as.Representations.filter fun rep => rep.SegmentTemplate.isSome) := by
  intro sets
  induction sets with
  | nil => intro s passed h; simpa using h
  | cons as sets ih =>
    intro s passed h
    have h1 := ih _ _ (selectAdaptationSet_inv s as passed h)
    rw [List.append_assoc] at h1
    simpa [List.flatMap_cons] using h1

/-- C16 (amended): for every parsed DASH manifest in which a representation
with a positive bandwidth carries a segment template, `parseManifest` takes
the segment template of the representation with the greatest bandwidth among
those that carry one, the first one on a tie: every such representation
before it in the document has a lower bandwidth and none after it has a
greater one, whatever templates the adaptation sets carry. -/
theorem selectTemplate_greatest_bandwidth (mpd : MPD)
    (hpos : ∃ r ∈ templateRepresentations mpd, 0 < r.Bandwidth) :
    ∃ pre r post, templateRepresentations mpd = pre ++ r :: post ∧
      (∀ x ∈ pre, x.Bandwidth < r.Bandwidth) ∧
      (∀ x ∈ post, x.Bandwidth ≤ r.Bandwidth) ∧
      (selectTemplate mpd).segTemplate = r.SegmentTemplate ∧
      (selectTemplate mpd).segTemplate.isSome = true ∧
      (selectTemplate mpd).selectedBandwidth = r.Bandwidth := by
  have hinv : SelectionInv (selectTemplate mpd) (templateRepresentations mpd) := by
    have h := foldl_selectAdaptationSet_inv mpd.AdaptationSets
      { segTemplate := none, selectedBandwidth := 0, selectedCodecs := [] } []
      ⟨le_refl _, by simp, fun h => absurd h (lt_irrefl _)⟩
    simpa [selectTemplate, templateRepresentations] using h
  obtain ⟨_, hle, hsel⟩ := hinv
  obtain ⟨r0, hr0, hp0⟩ := hpos
  have hp : 0 < (selectTemplate mpd).selectedBandwidth := lt_of_lt_of_le hp0 (hle r0 hr0)
  obtain ⟨pre, r, post, e1, e2, e3, e4, e5⟩ := hsel hp
  refine ⟨pre, r, post, e1, e5, ?_, e3, e4, e2.symm⟩
  intro x hx
  rw [e2]
  apply hle
  rw [e1]
  simp [hx]

/-- C16 (amended, witness): representations with the bandwidths 96000,
320000 and 320000; the template of the second one is taken. -/
theorem selectTemplate_greatest_bandwidth_witness :
    (∃ r ∈ templateRepresentations (manifestOf 96000 320000 320000), 0 < r.Bandwidth) ∧
    ((selectTemplate (manifestOf 96000 320000 320000)).segTemplate.map
      fun t => t.Initialization) = some (lit "b/init.mp4") ∧
    ∃ pre r post, templateRepresentations (manifestOf 96000 320000 320000) = pre ++ r :: post ∧
      (∀ x ∈ pre, x.Bandwidth < r.Bandwidth) ∧
      (∀ x ∈ post, x.Bandwidth ≤ r.Bandwidth) ∧
      (selectTemplate (manifestOf 96000 320000 320000)).segTemplate = r.SegmentTemplate ∧
      (selectTemplate (manifestOf 96000 320000 320000)).segTemplate.isSome = true ∧
      (selectTemplate (manifestOf 96000 320000 320000)).selectedBandwidth = r.Bandwidth :=
  ⟨⟨representationOf (lit "a") 96000, by simp [templateRepresentations, manifestOf,
      representationOf], by decide⟩,
    by decide,
    selectTemplate_greatest_bandwidth (manifestOf 96000 320000 320000)
      ⟨representationOf (lit "a") 96000, by simp [templateRepresentations, manifestOf,
        representationOf], by decide⟩⟩

/-- C16 (counterexample): three representations carry a segment template
and none states a bandwidth (the field is 0).  The claim has the template of
the first of them taken, in preference to the template of the adaptation
set; `parseManifest` takes a representation only when its bandwidth is above
the selected one, which starts at 0 (tidal.go line 842), so that the
template of the adaptation set stays selected. -/
theorem selectTemplate_without_bandwidth :
    ((templateRepresentations (manifestOf 0 0 0)).map fun r => r.ID) =
      [lit "a", lit "b", lit "c"] ∧
    ((selectTemplate (manifestOf 0 0 0)).segTemplate.map fun t => t.Initialization) =
      some (lit "set/init.mp4") ∧
    (parseManifest (some (manifestOf 0 0 0))
      { directURL := [], initURL := [], mediaURLs := [], mimeType := [],
        err := some (lit "no initialization URL found in manifest") }).initURL =
      lit "set/init.mp4" ∧
    (parseManifest (some (manifestOf 0 0 0))
      { directURL := [], initURL := [], mediaURLs := [], mimeType := [],
        err := some (lit "no initialization URL found in manifest") }).mediaURLs =
      [lit "set/1.mp4", lit "set/2.mp4", lit "set/3.mp4", lit "set/4.mp4"] := by
  decide

/-- An operation on `int` whose exact result is in the range of the type
gives that result. -/
theorem wrap64_of_range (n : Int) (h1 : -9223372036854775808 ≤ n)
    (h2 : n < 9223372036854775808) : wrap64 n = n := by
  unfold wrap64
  have e63 : (2 : Int) ^ 63 = 9223372036854775808 := by norm_num
  have e64 : (2 : Int) ^ 64 = 18446744073709551616 := by norm_num
  rw [e63, e64]
  omega

/-- The segment count is the sum of the repeat counts plus one each, when
these are not negative and the sum is in the range of `int`. -/
theorem segmentCountOf_eq_sum :
    ∀ (segs : List TimelineSegment) (acc : Int), 0 ≤ acc →
      (∀ s ∈ segs, 0 ≤ s.Repeat) →
      acc + (segs.map fun s => s.Repeat + 1).sum < 9223372036854775808 →
      segs.foldl (fun count seg => wrap64 (count + wrap64 (seg.Repeat + 1))) acc =
        acc + (segs.map fun s => s.Repeat + 1).sum := by
  intro segs
  induction segs with
  | nil => intro acc _ _ _; simp
  | cons s segs ih =>
    intro acc h0 hrep hsum
    have hs := hrep s (List.mem_cons_self _ _)
    have hrest : 0 ≤ (segs.map fun s => s.Repeat + 1).sum := by
      apply List.sum_nonneg
      intro x hx
      obtain ⟨y, hy, rfl⟩ := List.mem_map.1 hx
      have := hrep y (List.mem_cons_of_mem _ hy)
      omega
    simp only [List.map_cons, List.sum_cons] at hsum
    simp only [List.foldl_cons, List.map_cons, List.sum_cons]
    rw [wrap64_of_range (s.Repeat + 1) (by omega) (by omega),
      wrap64_of_range (acc + (s.Repeat + 1)) (by omega) (by omega),
      ih _ (by omega) (fun x hx => hrep x (List.mem_cons_of_mem _ hx)) (by omega)]
    omega

/-- The sum of the repeat counts plus one each is positive for a timeline
with an entry. -/
theorem sum_repeat_pos (segs : List TimelineSegment) (hne : segs ≠ [])
    (hrep : ∀ s ∈ segs, 0 ≤ s.Repeat) : 0 < (segs.map fun s => s.Repeat + 1).sum := by
  cases segs with
  | nil => exact absurd rfl hne
  | cons s segs =>
    have hs := hrep s (List.mem_cons_self _ _)
    have hrest : 0 ≤ (segs.map fun s => s.Repeat + 1).sum := by
      apply List.sum_nonneg
      intro x hx
      obtain ⟨y, hy, rfl⟩ := List.mem_map.1 hx
      have := hrep y (List.mem_cons_of_mem _ hy)
      omega
    simp only [List.map_cons, List.sum_cons]
    omega

/-- The media URLs: their number, and the URL at each position. -/
theorem mediaURLsOf_spec (mediaTemplate : GoString) (n : Int) :
    (mediaURLsOf mediaTemplate n).length = n.toNat ∧
    ∀ i : Nat, 1 ≤ i → i ≤ n.toNat →
      (mediaURLsOf mediaTemplate n)[i - 1]? =
        some (strings.ReplaceAll mediaTemplate (lit "$Number$") (decimal i)) := by
  unfold mediaURLsOf
  refine ⟨by simp, ?_⟩
  intro i h1 h2
  have hi : i - 1 < n.toNat := by omega
  rw [List.getElem?_map, List.getElem?_range hi]
  simp only [Option.map_some']
  have hd : fmt.d (Int.ofNat (i - 1) + 1) = decimal i := by
    have e : Int.ofNat (i - 1) + 1 = Int.ofNat i := by
      simp only [Int.ofNat_eq_coe]; omega
    rw [e]
    unfold fmt.d
    rw [if_neg (by simp)]
    simp
  rw [hd]

/-- The loop over the media segments, entered without error: the URLs it
requests are a prefix of the list, the whole list when it ends without
error; when every request succeeds it ends without error and the content
is that of the bodies in the order of the list. -/
theorem downloadMediaSegments_spec
    (doRequest : GoString → Except GoString SegmentResponse) :
    ∀ (urls : List GoString) (i : Nat) (o : SegmentsOutcome), o.err = none →
      (∃ done, (downloadMediaSegments doRequest i urls o).requested = o.requested ++ done ∧
        done <+: urls ∧
        ((downloadMediaSegments doRequest i urls o).err = none → done = urls)) ∧
      ((∀ u ∈ urls, ∃ resp, doRequest u = .ok resp ∧ resp.StatusCode = 200 ∧
          resp.copyErr = none) →
        (downloadMediaSegments doRequest i urls o).err = none ∧
        (downloadMediaSegments doRequest i urls o).content = o.content ++
          urls.flatMap fun u => match doRequest u with
            | .ok resp => resp.body
            | .error _ => []) := by
  intro urls
  induction urls with
  | nil =>
    intro i o ho
    simp only [downloadMediaSegments]
    exact ⟨⟨[], by simp, List.prefix_refl _, fun _ => rfl⟩, fun _ => ⟨ho, by simp⟩⟩
  | cons u urls ih =>
    intro i o ho
    cases hu : doRequest u with
    | error err =>
      simp only [downloadMediaSegments, hu]
      refine ⟨⟨[u], rfl, by simp, ?_⟩, ?_⟩
      · intro h1
        cases h1
      · intro h
        obtain ⟨resp, hr, _⟩ := h u (List.mem_cons_self _ _)
        rw [hu] at hr
        cases hr
    | ok resp =>
      by_cases hs : resp.StatusCode ≠ 200
      · simp only [downloadMediaSegments, hu, if_pos hs]
        refine ⟨⟨[u], rfl, by simp, ?_⟩, ?_⟩
        · intro h1
          cases h1
        · intro h
          obtain ⟨resp2, hr, h200, _⟩ := h u (List.mem_cons_self _ _)
          rw [hu] at hr
          injection hr with hr
          rw [hr] at hs
          exact absurd h200 hs
      · cases hc : resp.copyErr with
        | some err =>
          simp only [downloadMediaSegments, hu, if_neg hs, hc]
          refine ⟨⟨[u], rfl, by simp, ?_⟩, ?_⟩
          · intro h1
            cases h1
          · intro h
            obtain ⟨resp2, hr, _, hce⟩ := h u (List.mem_cons_self _ _)
            rw [hu] at hr
            injection hr with hr
            rw [← hr, hc] at hce
            cases hce
        | none =>
          simp only [downloadMediaSegments, hu, if_neg hs, hc]
          obtain ⟨⟨done, hd1, hd2, hd3⟩, hall⟩ := ih (i + 1)
            { requested := o.requested ++ [u], content := o.content ++ resp.body, err := none }
            rfl
          refine ⟨⟨u :: done, ?_, ?_, ?_⟩, ?_⟩
          · rw [hd1]; simp
          · exact (List.prefix_cons_inj u).2 hd2
          · intro h1
            rw [hd3 h1]
          · intro h
            obtain ⟨a1, a3⟩ := hall (fun x hx => h x (List.mem_cons_of_mem _ hx))
            refine ⟨a1, ?_⟩
            rw [a3]; simp [hu]

/-- The segment download: the init segment is requested first, then media
segments in the order of the list; the whole list when the download ends
without error; when every request succeeds the download ends without error
and the content is the init segment followed by the media segments in the
order of the list. -/
theorem downloadSegments_spec (doRequest : GoString → Except GoString SegmentResponse)
    (initURL : GoString) (mediaURLs : List GoString) :
    (∃ done, (downloadSegments doRequest initURL mediaURLs).requested = initURL :: done ∧
      done <+: mediaURLs ∧
      ((downloadSegments doRequest initURL mediaURLs).err = none → done = mediaURLs)) ∧
    ((∀ u ∈ initURL :: mediaURLs, ∃ resp, doRequest u = .ok resp ∧ resp.StatusCode = 200 ∧
        resp.copyErr = none) →
      (downloadSegments doRequest initURL mediaURLs).err = none ∧
      (downloadSegments doRequest initURL mediaURLs).content =
        (initURL :: mediaURLs).flatMap fun u => match doRequest u with
          | .ok resp => resp.body
          | .error _ => []) := by
  unfold downloadSegments
  cases hu : doRequest initURL with
  | error err =>
    simp only
    refine ⟨⟨[], rfl, List.nil_prefix, fun h => by cases h⟩, ?_⟩
    intro h
    obtain ⟨resp, hr, _⟩ := h initURL (List.mem_cons_self _ _)
    rw [hu] at hr
    cases hr
  | ok resp =>
    by_cases hs : resp.StatusCode ≠ 200
    · simp only [if_pos hs]
      refine ⟨⟨[], rfl, List.nil_prefix, fun h => by cases h⟩, ?_⟩
      intro h
      obtain ⟨resp2, hr, h200, _⟩ := h initURL (List.mem_cons_self _ _)
      rw [hu] at hr
      injection hr with hr
      rw [hr] at hs
      exact absurd h200 hs
    · cases hc : resp.copyErr with
      | some err =>
        simp only [if_neg hs, hc]
        refine ⟨⟨[], rfl, List.nil_prefix, fun h => by cases h⟩, ?_⟩
        intro h
        obtain ⟨resp2, hr, _, hce⟩ := h initURL (List.mem_cons_self _ _)
        rw [hu] at hr
        injection hr with hr
        rw [← hr, hc] at hce
        cases hce
      | none =>
        simp only [if_neg hs, hc]
        obtain ⟨⟨done, hd1, hd2, hd3⟩, hall⟩ := downloadMediaSegments_spec doRequest mediaURLs 0
          { requested := [initURL], content := resp.body, err := none } rfl
        refine ⟨⟨done, by rw [hd1]; rfl, hd2, hd3⟩, ?_⟩
        intro h
        obtain ⟨a1, a3⟩ := hall (fun x hx => h x (List.mem_cons_of_mem _ hx))
        refine ⟨a1, ?_⟩
        rw [a3]; simp [hu]

/-- The result of `parseManifest` when the selected template has URLs and
a timeline with entries whose repeat counts are not negative and sum,
plus one each, to less than the greatest `int`. -/
theorem parseManifest_eq (mpd : MPD) (t : SegmentTemplate) (regexFallback : ManifestResult)
    (hsel : (selectTemplate mpd).segTemplate = some t)
    (hinit : t.Initialization ≠ []) (hmedia : t.Media ≠ [])
    (hk : t.Segments ≠ [])
    (hrep : ∀ s ∈ t.Segments, 0 ≤ s.Repeat)
    (hN : (t.Segments.map fun s => s.Repeat + 1).sum < 9223372036854775807) :
    parseManifest (some mpd) regexFallback =
      { directURL := [],
        initURL := strings.ReplaceAll t.Initialization (lit "&amp;") (lit "&"),
        mediaURLs := mediaURLsOf (strings.ReplaceAll t.Media (lit "&amp;") (lit "&"))
          (t.Segments.map fun s => s.Repeat + 1).sum,
        mimeType := [], err := none } := by
  have hcount : segmentCountOf t.Segments = (t.Segments.map fun s => s.Repeat + 1).sum := by
    unfold segmentCountOf
    rw [segmentCountOf_eq_sum t.Segments 0 (le_refl _) hrep (by omega)]
    omega
  have hpos := sum_repeat_pos t.Segments hk hrep
  unfold parseManifest
  simp only [hsel, hcount]
  rw [if_pos ⟨hpos, hinit, hmedia⟩]

/-- C15 (amended): for every DASH manifest whose selected segment template
has non-empty initialization and media attributes and a timeline with at
least one entry, with repeat counts that are not negative and sum, plus one
each, to a number `N` below the greatest `int`: `parseManifest` returns
without error exactly `N` media URLs, the `i`-th of which is the media
template with every `&amp;` replaced by `&` and then every `$Number$`
replaced by the decimal form of `i`, and the initialization URL with every
`&amp;` replaced by `&`; `DownloadFromManifest` requests the init segment
first and then these URLs in this order, all of them when it ends without
error, and when every request succeeds the file holds the init segment
followed by the media segments in this order. -/
theorem parseManifest_media_urls (mpd : MPD) (t : SegmentTemplate)
    (regexFallback : ManifestResult)
    (doRequest : GoString → Except GoString SegmentResponse)
    (hsel : (selectTemplate mpd).segTemplate = some t)
    (hinit : t.Initialization ≠ []) (hmedia : t.Media ≠ [])
    (hk : t.Segments ≠ [])
    (hrep : ∀ s ∈ t.Segments, 0 ≤ s.Repeat)
    (hN : (t.Segments.map fun s => s.Repeat + 1).sum < 9223372036854775807) :
    (parseManifest (some mpd) regexFallback).err = none ∧
    (parseManifest (some mpd) regexFallback).directURL = [] ∧
    (parseManifest (some mpd) regexFallback).initURL =
      strings.ReplaceAll t.Initialization (lit "&amp;") (lit "&") ∧
    Int.ofNat (parseManifest (some mpd) regexFallback).mediaURLs.length =
      (t.Segments.map fun s => s.Repeat + 1).sum ∧
    (∀ i : Nat, 1 ≤ i → i ≤ (parseManifest (some mpd) regexFallback).mediaURLs.length →
      (parseManifest (some mpd) regexFallback).mediaURLs[i - 1]? =
        some (strings.ReplaceAll (strings.ReplaceAll t.Media (lit "&amp;") (lit "&"))
          (lit "$Number$") (decimal i))) ∧
    (∃ done,
      (downloadSegments doRequest (parseManifest (some mpd) regexFallback).initURL
        (parseManifest (some mpd) regexFallback).mediaURLs).requested =
        (parseManifest (some mpd) regexFallback).initURL :: done ∧
      done <+: (parseManifest (some mpd) regexFallback).mediaURLs ∧
      ((downloadSegments doRequest (parseManifest (some mpd) regexFallback).initURL
        (parseManifest (some mpd) regexFallback).mediaURLs).err = none →
        done = (parseManifest (some mpd) regexFallback).mediaURLs)) ∧
    ((∀ u ∈ (parseManifest (some mpd) regexFallback).initURL ::
          (parseManifest (some mpd) regexFallback).mediaURLs,
        ∃ resp, doRequest u = .ok resp ∧ resp.StatusCode = 200 ∧ resp.copyErr = none) →
      (downloadSegments doRequest (parseManifest (some mpd) regexFallback).initURL
        (parseManifest (some mpd) regexFallback).mediaURLs).err = none ∧
      (downloadSegments doRequest (parseManifest (some mpd) regexFallback).initURL
        (parseManifest (some mpd) regexFallback).mediaURLs).content =
        ((parseManifest (some mpd) regexFallback).initURL ::
          (parseManifest (some mpd) regexFallback).mediaURLs).flatMap fun u =>
            match doRequest u with
            | .ok resp => resp.body
            | .error _ => []) := by
  rw [parseManifest_eq mpd t regexFallback hsel hinit hmedia hk hrep hN]
  have hpos := sum_repeat_pos t.Segments hk hrep
  generalize (t.Segments.map fun s => s.Repeat + 1).sum = n at hN hpos ⊢
  obtain ⟨hlen, hget⟩ := mediaURLsOf_spec
    (strings.ReplaceAll t.Media (lit "&amp;") (lit "&")) n
  have hspec := downloadSegments_spec doRequest
    (strings.ReplaceAll t.Initialization (lit "&amp;") (lit "&"))
    (mediaURLsOf (strings.ReplaceAll t.Media (lit "&amp;") (lit "&")) n)
  refine ⟨rfl, rfl, rfl, ?_, ?_, hspec.1, hspec.2⟩
  · simp only [hlen, Int.ofNat_eq_coe]
    omega
  · intro i h1 h2
    simp only [hlen] at h2
    exact hget i h1 h2

/-- C15 (amended, witness): the manifest with the bandwidths 96000, 320000
and 320000, whose selected template has the repeat counts 2 and 0, and a
server that answers every request. -/
theorem parseManifest_media_urls_witness :
    (parseManifest (some (manifestOf 96000 320000 320000)) noRegexResult).mediaURLs =
      [lit "b/1.mp4", lit "b/2.mp4", lit "b/3.mp4", lit "b/4.mp4"] ∧
    (downloadSegments echoServer
      (parseManifest (some (manifestOf 96000 320000 320000)) noRegexResult).initURL
      (parseManifest (some (manifestOf 96000 320000 320000)) noRegexResult).mediaURLs).requested =
      [lit "b/init.mp4", lit "b/1.mp4", lit "b/2.mp4", lit "b/3.mp4", lit "b/4.mp4"] ∧
    Int.ofNat (parseManifest (some (manifestOf 96000 320000 320000))
      noRegexResult).mediaURLs.length =
      ((templateOf (lit "b/init.mp4") (lit "b/$Number$.mp4")).Segments.map
        fun s => s.Repeat + 1).sum :=
  ⟨by decide, by decide,
    (parseManifest_media_urls (manifestOf 96000 320000 320000)
      (templateOf (lit "b/init.mp4") (lit "b/$Number$.mp4")) noRegexResult echoServer
      rfl (by decide) (by decide) (List.cons_ne_nil _ _) (by decide) (by decide)).2.2.2.1⟩

/-- C15 (counterexample): the media attribute of the selected template holds
the characters `&amp;`.  The claim has the first media URL equal to the
media template with `$Number$` replaced by 1; `parseManifest` first
replaces every `&amp;` by `&` (tidal.go lines 874 and 875), in the
initialization URL too, so that the URL it returns is another one. -/
theorem parseManifest_unescapes_template :
    (parseManifest (some escapedManifest) noRegexResult).mediaURLs =
      [lit "a/1.mp4?x=1&y=2", lit "a/2.mp4?x=1&y=2", lit "a/3.mp4?x=1&y=2",
        lit "a/4.mp4?x=1&y=2"] ∧
    strings.ReplaceAll (lit "a/$Number$.mp4?x=1&amp;y=2") (lit "$Number$") (decimal 1) =
      lit "a/1.mp4?x=1&amp;y=2" ∧
    (parseManifest (some escapedManifest) noRegexResult).mediaURLs[0]? ≠
      some (strings.ReplaceAll (lit "a/$Number$.mp4?x=1&amp;y=2") (lit "$Number$")
        (decimal 1)) ∧
    (parseManifest (some escapedManifest) noRegexResult).initURL = lit "a/init.mp4?x=1&y=2" := by
  decide

/-! ## The lyrics and the duration of the track (claim C17) -/

/-- C17 (code bug): lyrics of four lines for a track of 5000 ms.  The line
`[Intro` begins with a bracket and has no closing bracket, so it carries no
timestamp and the claim keeps it; `validateLyricsDuration` appends a line
that begins with `[` only inside `if closeBracket > 0` (metadata.go lines
653 to 671) and so drops it.  The line at 00:09.00 is removed and the lines
at 00:01.00 and `[ti:Song]` are kept, as claimed. -/
theorem validateLyricsDuration_drops_open_bracket :
    validateLyricsDuration (.ok { positive := true, millis := 5000 })
      (lit "[ti:Song]\n[Intro\n[00:01.00]la\n[00:09.00]lo") =
      lit "[ti:Song]\n[00:01.00]la" ∧
    keepsLine 5000 (lit "[Intro") = false ∧
    strings.Index (lit "[Intro") (lit "]") = -1 ∧
    parseLRCTimestamp (lit "00:09.00") = 9000 ∧
    parseLRCTimestamp (lit "00:01.00") = 1000 ∧
    parseLRCTimestamp (lit "ti:Song") = -1 ∧
    keepsLine 5000 (lit "  [00:05.00] la \r") = true ∧
    keepsLine 5000 (lit "plain text") = true ∧
    keepsLine 5000 (lit "") = true := by
  decide

/-! ## The tags of a FLAC file (claims C18 to C20) -/

/-- C18 (code bug): a FLAC file has the comments `TITLE=Old`, `MOOD=calm`
and `GENRE=Rock`, and the record has the title `Song` and no genre.  The
claim keeps the custom tag `MOOD` and the genre, which `EmbedMetadata` does
not write for this record; `EmbedMetadata` fills a new comment block from
the record alone and puts it in the place of the old one (metadata.go lines
52 and 103 to 108), so that only `TITLE=Song` is left.  For the same file
`EmbedLyricsOnly` copies the old comments into its new block. -/
theorem EmbedMetadata_drops_existing_fields :
    (EmbedMetadata
      (flacWorld [streamInfoBlock,
        taggedBlock [lit "TITLE=Old", lit "MOOD=calm", lit "GENRE=Rock"]] (.ok [1]))
      (lit "song.flac") { Metadata.zero with Title := lit "Song" } []).saved =
      some [streamInfoBlock,
        { blockType := .VorbisComment,
          Data := .comments (lit "flacvorbis 0.1.0") [lit "TITLE=Song"] }] ∧
    (EmbedMetadata
      (flacWorld [streamInfoBlock,
        taggedBlock [lit "TITLE=Old", lit "MOOD=calm", lit "GENRE=Rock"]] (.ok [1]))
      (lit "song.flac") { Metadata.zero with Title := lit "Song" } []).err = none ∧
    (EmbedLyricsOnly
      (flacWorld [streamInfoBlock,
        taggedBlock [lit "TITLE=Old", lit "MOOD=calm", lit "GENRE=Rock"]] (.ok [1]))
      (lit "song.flac") (lit "la")).saved =
      some [streamInfoBlock,
        { blockType := .VorbisComment,
          Data := .comments (lit "flacvorbis 0.1.0")
            [lit "TITLE=Old", lit "MOOD=calm", lit "GENRE=Rock", lit "LYRICS=la"] }] := by
  decide

/-- The runes of an ASCII string are its bytes. -/
theorem rangeRunesAux_of_ascii : ∀ (s : GoString) (fuel : Nat), s.length ≤ fuel →
    (∀ b ∈ s, b < 0x80) → rangeRunesAux fuel s = s := by
  intro s
  induction s with
  | nil => intro fuel _ _; cases fuel <;> rfl
  | cons b t ih =>
    intro fuel hf h
    cases fuel with
    | zero => simp at hf
    | succ fuel =>
      have hb : b < 0x80 := h b (List.mem_cons_self _ _)
      have hd : utf8.DecodeRuneInString (b :: t) = (b, 1) := by
        simp [utf8.DecodeRuneInString, hb]
      simp only [rangeRunesAux, hd, Nat.sub_self, List.drop_zero]
      rw [ih fuel (by simpa using hf) (fun x hx => h x (List.mem_cons_of_mem _ hx))]

/-- The runes of an ASCII string are its bytes. -/
theorem rangeRunes_of_ascii (s : GoString) (h : ∀ b ∈ s, b < 0x80) : rangeRunes s = s :=
  rangeRunesAux_of_ascii s _ (le_refl _) h

theorem lit_equals : lit "=" = [61] := by decide

/-- The position of the first `=` of a string that has one is the length of
what stands before it. -/
theorem indexAux_equals : ∀ (s : GoString), 61 ∈ s →
    indexAux [61] s = some (commentName s).length := by
  intro s
  induction s with
  | nil => intro h; simp at h
  | cons b t ih =>
    intro h
    by_cases hb : b = 61
    · subst hb
      simp [indexAux, matchLit, commentName]
    · have ht : 61 ∈ t := by
        rcases List.mem_cons.1 h with h | h
        · exact absurd h.symm hb
        · exact h
      have hb2 : ¬ (61 = b) := fun e => hb e.symm
      simp only [indexAux, matchLit, if_neg hb2, Option.isSome_none, Bool.false_eq_true,
        if_false, ih ht]
      simp [commentName, hb]

/-- A string with a `=` is its name, the `=` and the rest. -/
theorem comment_split : ∀ (s : GoString), 61 ∈ s →
    s = commentName s ++ [61] ++ s.drop ((commentName s).length + 1) := by
  intro s
  induction s with
  | nil => intro h; simp at h
  | cons b t ih =>
    intro h
    by_cases hb : b = 61
    · subst hb
      simp [commentName]
    · have ht : 61 ∈ t := by
        rcases List.mem_cons.1 h with h | h
        · exact absurd h.symm hb
        · exact h
      have := ih ht
      simp only [commentName, List.takeWhile_cons, hb, ne_eq, not_false_eq_true, decide_True,
        if_true, List.length_cons, List.cons_append, List.drop_succ_cons] at this ⊢
      exact congrArg (b :: ·) this

/-- The name of `name=rest`, for a name without `=`. -/
theorem commentName_append (name rest : GoString) (hno : 61 ∉ name) :
    commentName (name ++ 61 :: rest) = name := by
  unfold commentName
  induction name with
  | nil => simp
  | cons b t ih =>
    have hb : b ≠ 61 := fun e => hno (by simp [e])
    have ht : 61 ∉ t := fun e => hno (List.mem_cons_of_mem _ e)
    simp only [List.cons_append, List.takeWhile_cons, hb, ne_eq, not_false_eq_true,
      decide_True, if_true]
    rw [ih ht]

/-- The name of a comment has no `=`. -/
theorem not_mem_commentName (s : GoString) : 61 ∉ commentName s := by
  unfold commentName
  intro h
  have := List.mem_takeWhile_imp h
  simp at this

/-- The loop body of `EmbedLyricsOnly` on the comment `name=rest` with a
field name of the Vorbis comment format: the comment is copied unless its
name is one of the three lyrics names. -/
theorem copyComment_append (w : FlacWorld) (cmt : flacvorbis.MetaDataBlockVorbisComment)
    (name rest : GoString) (hno : 61 ∉ name) (hv : ∀ b ∈ name, 0x20 ≤ b ∧ b ≤ 0x7d) :
    copyComment w cmt (name ++ 61 :: rest) =
      if isLyricsComment (name ++ 61 :: rest) then cmt
      else { cmt with Comments := cmt.Comments ++ [name ++ 61 :: rest] } := by
  have hcn := commentName_append name rest hno
  have hidx : indexAux [61] (name ++ 61 :: rest) = some name.length := by
    rw [indexAux_equals _ (by simp), hcn]
  have hascii : ∀ b ∈ name, b < 0x80 := fun b hb => by have := hv b hb; omega
  have hup : strings.ToUpper w.ToUpper name = asciiUpper name := by
    unfold strings.ToUpper asciiUpper
    rw [if_pos]
    simpa using hascii
  have hadd : flacvorbis.Add cmt name rest =
      { cmt with Comments := cmt.Comments ++ [name ++ 61 :: rest] } := by
    unfold flacvorbis.Add
    rw [rangeRunes_of_ascii name hascii, lit_equals, if_pos]
    · simp
    · rw [List.all_eq_true]
      intro b hb
      have h1 := hv b hb
      have h2 : b ≠ 61 := fun e => hno (e ▸ hb)
      simp only [Bool.not_eq_true', Bool.or_eq_false_iff, decide_eq_false_iff_not]
      omega
  unfold copyComment strings.SplitN2
  rw [lit_equals, hidx]
  simp only [List.take_left', List.length_singleton, isLyricsComment, hcn]
  have hdrop : (name ++ 61 :: rest).drop (name.length + 1) = rest := by
    rw [show name ++ 61 :: rest = (name ++ [61]) ++ rest by simp]
    exact List.drop_left' (by simp)
  rw [hdrop, hup, hadd]
  by_cases h1 : asciiUpper name = lit "LYRICS"
  · simp [h1]
  · by_cases h2 : asciiUpper name = lit "UNSYNCEDLYRICS"
    · simp [h2]
    · by_cases h3 : asciiUpper name = lit "SYNCEDLYRICS"
      · simp [h3]
      · simp [h1, h2, h3]

/-- The loop body of `EmbedLyricsOnly` on a comment of the form `name=value`
with a field name of the Vorbis comment format. -/
theorem copyComment_of_wellFormed (w : FlacWorld) (cmt : flacvorbis.MetaDataBlockVorbisComment)
    (c : GoString) (h : wellFormedComment c = true) :
    copyComment w cmt c =
      if isLyricsComment c then cmt else { cmt with Comments := cmt.Comments ++ [c] } := by
  unfold wellFormedComment at h
  rw [Bool.and_eq_true, List.any_eq_true, List.all_eq_true] at h
  obtain ⟨⟨x, hx, hx61⟩, hall⟩ := h
  have h61 : 61 ∈ c := by
    have : x = 61 := by simpa using hx61
    exact this ▸ hx
  have hsplit := comment_split c h61
  have hv : ∀ b ∈ commentName c, 0x20 ≤ b ∧ b ≤ 0x7d := by
    intro b hb
    have := hall b hb
    simpa using this
  have := copyComment_append w cmt (commentName c) (c.drop ((commentName c).length + 1))
    (not_mem_commentName c) hv
  rw [show commentName c ++ 61 :: c.drop ((commentName c).length + 1) = c by
    rw [List.append_assoc] at hsplit; exact hsplit.symm] at this
  exact this

/-- The loop of `EmbedLyricsOnly` over comments of the form `name=value`:
the comments are copied in their order, without those with a lyrics name. -/
theorem foldl_copyComment (w : FlacWorld) :
    ∀ (cs : List GoString) (cmt : flacvorbis.MetaDataBlockVorbisComment),
      (∀ c ∈ cs, wellFormedComment c = true) →
      cs.foldl (copyComment w) cmt =
        { cmt with Comments := cmt.Comments ++ cs.filter fun c => ! isLyricsComment c } := by
  intro cs
  induction cs with
  | nil => intro cmt _; simp
  | cons c cs ih =>
    intro cmt h
    rw [List.foldl_cons, copyComment_of_wellFormed w cmt c (h c (List.mem_cons_self _ _)),
      ih _ (fun x hx => h x (List.mem_cons_of_mem _ hx))]
    cases hl : isLyricsComment c <;> simp [hl]

/-- The place of the new comment block: before it stand blocks that are no
vorbis comments, and it stands in the place of the first vorbis-comment
block, or at the end of a list without one. -/
theorem putCommentBlock_spec :
    ∀ (meta : List flac.MetaDataBlock) (cmtBlock : flac.MetaDataBlock),
      ∃ pre post, (∀ b ∈ pre, b.blockType ≠ .VorbisComment) ∧
        putCommentBlock meta cmtBlock = pre ++ cmtBlock :: post ∧
        ((meta = pre ∧ post = []) ∨
          ∃ old, old.blockType = .VorbisComment ∧ meta = pre ++ old :: post) := by
  intro meta cmtBlock
  induction meta with
  | nil => exact ⟨[], [], by simp, rfl, Or.inl ⟨rfl, rfl⟩⟩
  | cons b rest ih =>
    by_cases hb : b.blockType = .VorbisComment
    · refine ⟨[], rest, by simp, ?_, Or.inr ⟨b, hb, rfl⟩⟩
      simp [putCommentBlock, cmtIdxOf, hb]
    · obtain ⟨pre, post, h1, h2, h3⟩ := ih
      refine ⟨b :: pre, post, ?_, ?_, ?_⟩
      · intro x hx
        rcases List.mem_cons.1 hx with rfl | hx
        · exact hb
        · exact h1 x hx
      · unfold putCommentBlock at h2 ⊢
        simp only [cmtIdxOf, if_neg hb]
        cases hi : cmtIdxOf rest with
        | none =>
          rw [hi] at h2
          simp only [Option.map_none', List.cons_append]
          exact congrArg (b :: ·) h2
        | some i =>
          rw [hi] at h2
          simp only [Option.map_some', List.set_cons_succ, List.cons_append]
          exact congrArg (b :: ·) h2
      · rcases h3 with ⟨e1, e2⟩ | ⟨old, ho, e⟩
        · exact Or.inl ⟨by rw [e1], e2⟩
        · exact Or.inr ⟨old, ho, by rw [e]; rfl⟩

/-- The comment block that `EmbedLyricsOnly` reads is the first
vorbis-comment block of the file. -/
theorem existingCmt_eq : ∀ (meta : List flac.MetaDataBlock),
    (match cmtIdxOf meta with
      | some idx => (meta.get? idx).bind flacvorbis.ParseFromMetaDataBlock
      | none => none) =
    (match meta.find? fun block => decide (block.blockType = .VorbisComment) with
      | some block => flacvorbis.ParseFromMetaDataBlock block
      | none => none) := by
  intro meta
  induction meta with
  | nil => rfl
  | cons b rest ih =>
    by_cases hb : b.blockType = .VorbisComment
    · simp [cmtIdxOf, hb, List.find?]
    · simp only [cmtIdxOf, if_neg hb, List.find?, hb, decide_False]
      rw [← ih]
      cases cmtIdxOf rest <;> simp

/-- The call `cmt.Add("LYRICS", lyrics)`. -/
theorem Add_LYRICS (cmt : flacvorbis.MetaDataBlockVorbisComment) (lyrics : GoString) :
    flacvorbis.Add cmt (lit "LYRICS") lyrics =
      { cmt with Comments := cmt.Comments ++ [lit "LYRICS=" ++ lyrics] } := by
  unfold flacvorbis.Add
  rw [if_pos (by decide)]
  have : lit "LYRICS" ++ lit "=" ++ lyrics = lit "LYRICS=" ++ lyrics := by
    rw [show lit "LYRICS=" = lit "LYRICS" ++ lit "=" by decide]
  rw [this]

/-- C19 (amended): for every FLAC file whose first vorbis-comment block, if
it has one, can be read and holds only comments of the form `name=value`
with a name of characters from U+0020 to U+007D, and every non-empty lyrics
text: `EmbedLyricsOnly` saves the file with a comment block that holds the
existing comments whose name is not `LYRICS`, `UNSYNCEDLYRICS` or
`SYNCEDLYRICS` (without regard to case), unchanged and in their order, and
after them the one comment `LYRICS=<lyrics>`; the block stands in the place
of the old one, or at the end when there was none, and every other block is
unchanged.  With empty lyrics the file is not written. -/
theorem EmbedLyricsOnly_keeps_comments (w : FlacWorld) (filepath lyrics : GoString)
    (meta : List flac.MetaDataBlock) (cs : List GoString)
    (hl : lyrics ≠ [])
    (hparse : w.ParseFile filepath = .ok meta)
    (hsave : ∀ blocks, w.Save filepath blocks = none)
    (hcs : existingComments meta = some cs)
    (hform : ∀ c ∈ cs, wellFormedComment c = true) :
    (EmbedLyricsOnly w filepath lyrics).err = none ∧
    (∃ pre post, (∀ b ∈ pre, b.blockType ≠ .VorbisComment) ∧
      (EmbedLyricsOnly w filepath lyrics).saved = some (pre ++
        { blockType := .VorbisComment,
          Data := .comments w.Vendor
            ((cs.filter fun c => ! isLyricsComment c) ++ [lit "LYRICS=" ++ lyrics]) } :: post) ∧
      ((meta = pre ∧ post = []) ∨
        ∃ old, old.blockType = .VorbisComment ∧ meta = pre ++ old :: post)) ∧
    (EmbedLyricsOnly w filepath []).err = none ∧
    (EmbedLyricsOnly w filepath []).saved = none := by
  have hcmt : (match (match cmtIdxOf meta with
        | some idx => (meta.get? idx).bind flacvorbis.ParseFromMetaDataBlock
        | none => none) with
      | some existing => existing.Comments.foldl (copyComment w) (flacvorbis.New w.Vendor)
      | none => flacvorbis.New w.Vendor) =
      { Vendor := w.Vendor, Comments := cs.filter fun c => ! isLyricsComment c } := by
    rw [existingCmt_eq]
    unfold existingComments at hcs
    cases hf : meta.find? fun block => decide (block.blockType = .VorbisComment) with
    | none =>
      rw [hf] at hcs
      simp only [Option.some.injEq] at hcs
      subst hcs
      rfl
    | some block =>
      rw [hf] at hcs
      dsimp only at hcs ⊢
      have hty : block.blockType = .VorbisComment := by
        have := List.find?_some hf
        simpa using this
      cases hd : block.Data with
      | raw bytes => rw [hd] at hcs; cases hcs
      | comments vendor comments =>
        rw [hd] at hcs
        simp only [Option.some.injEq] at hcs
        subst hcs
        simp only [flacvorbis.ParseFromMetaDataBlock, hty, ne_eq, not_true_eq_false, if_false, hd]
        rw [foldl_copyComment w comments _ hform]
        simp [flacvorbis.New]
  have hD : EmbedLyricsOnly w filepath lyrics =
      { err := none,
        saved := some (putCommentBlock meta
          { blockType := .VorbisComment,
            Data := .comments w.Vendor
              ((cs.filter fun c => ! isLyricsComment c) ++ [lit "LYRICS=" ++ lyrics]) }) } := by
    unfold EmbedLyricsOnly
    rw [if_neg hl, hparse]
    simp only [hsave, Add_LYRICS, flacvorbis.Marshal]
    exact congrArg (fun X : flacvorbis.MetaDataBlockVorbisComment =>
      ({ err := none,
         saved := some (putCommentBlock meta
          { blockType := .VorbisComment,
            Data := .comments X.Vendor (X.Comments ++ [lit "LYRICS=" ++ lyrics]) }) } :
        EmbedResult)) hcmt
  rw [hD]
  obtain ⟨pre, post, h1, h2, h3⟩ := putCommentBlock_spec meta
    { blockType := .VorbisComment,
      Data := .comments w.Vendor
        ((cs.filter fun c => ! isLyricsComment c) ++ [lit "LYRICS=" ++ lyrics]) }
  refine ⟨rfl, ⟨pre, post, h1, by rw [h2], h3⟩, ?_, ?_⟩ <;> simp [EmbedLyricsOnly]

/-- C19 (witness): a file with a stream-info block, a comment block with the
comments `TITLE=Song`, `lyrics=old` and `MOOD=calm`, and a picture block,
and the lyrics `new`. -/
theorem EmbedLyricsOnly_keeps_comments_witness :
    (EmbedLyricsOnly (flacWorld taggedFile (.ok [])) (lit "song.flac") (lit "new")).err = none ∧
    (∃ pre post, (∀ b ∈ pre, b.blockType ≠ .VorbisComment) ∧
      (EmbedLyricsOnly (flacWorld taggedFile (.ok [])) (lit "song.flac") (lit "new")).saved =
        some (pre ++
        { blockType := .VorbisComment,
          Data := .comments (flacWorld taggedFile (.ok [])).Vendor
            (([lit "TITLE=Song", lit "lyrics=old", lit "MOOD=calm"].filter
              fun c => ! isLyricsComment c) ++ [lit "LYRICS=" ++ lit "new"]) } :: post) ∧
      ((taggedFile = pre ∧ post = []) ∨
        ∃ old, old.blockType = .VorbisComment ∧ taggedFile = pre ++ old :: post)) ∧
    (EmbedLyricsOnly (flacWorld taggedFile (.ok [])) (lit "song.flac") []).err = none ∧
    (EmbedLyricsOnly (flacWorld taggedFile (.ok [])) (lit "song.flac") []).saved = none :=
  EmbedLyricsOnly_keeps_comments (flacWorld taggedFile (.ok [])) (lit "song.flac") (lit "new")
    taggedFile [lit "TITLE=Song", lit "lyrics=old", lit "MOOD=calm"]
    (by decide) rfl (fun _ => rfl) rfl (by decide)

/-- C19 (counterexample): the comment block of the file holds `TITLE=Song`,
`MY~TAG=1` and `lyrics=old`, all of the form `name=value`, and the name
`MY~TAG` is none of the three lyrics names; `EmbedLyricsOnly` with the
lyrics `new` saves the comments `TITLE=Song` and `LYRICS=new` only: the
comment `MY~TAG=1` is not kept. -/
theorem EmbedLyricsOnly_drops_comment :
    (∀ c ∈ [lit "TITLE=Song", lit "MY~TAG=1", lit "lyrics=old"], 61 ∈ c) ∧
    strings.ToUpper (fun r => r) (lit "MY~TAG") = lit "MY~TAG" ∧
    (EmbedLyricsOnly
      (flacWorld [streamInfoBlock,
        taggedBlock [lit "TITLE=Song", lit "MY~TAG=1", lit "lyrics=old"]] (.ok []))
      (lit "song.flac") (lit "new")).saved =
      some [streamInfoBlock,
        { blockType := .VorbisComment,
          Data := .comments (lit "flacvorbis 0.1.0") [lit "TITLE=Song", lit "LYRICS=new"] }] := by
  decide

/-- The loop that removes the picture blocks, started after the blocks
`pre`, leaves the blocks of `pre` that are no picture blocks and the blocks
after them. -/
theorem removePictures_append (pre : List flac.MetaDataBlock) :
    ∀ suffix : List flac.MetaDataBlock,
      removePictures pre.length (pre ++ suffix) =
        pre.filter (fun b => ! isPictureBlock b) ++ suffix := by
  induction pre using List.reverseRecOn with
  | nil => intro suffix; rfl
  | append_singleton init x ih =>
    intro suffix
    have hget : (init ++ [x] ++ suffix).get? init.length = some x := by
      rw [List.get?_eq_getElem?, List.append_assoc, List.getElem?_append_right (le_refl _)]
      simp
    have herase : (init ++ [x] ++ suffix).eraseIdx init.length = init ++ suffix := by
      rw [List.append_assoc, List.eraseIdx_append_of_length_le (le_refl _)]
      simp
    rw [List.length_append, List.length_singleton, removePictures, hget, herase]
    by_cases hx : x.blockType = .Picture
    · rw [if_pos (by simp [hx]), ih]
      simp [List.filter_append, isPictureBlock, hx]
    · rw [if_neg (by simpa using hx), List.append_assoc, ih]
      simp [List.filter_append, isPictureBlock, hx]

/-- The loop that removes the picture blocks keeps the blocks that are no
picture blocks, in their order. -/
theorem removePictures_eq_filter (meta : List flac.MetaDataBlock) :
    removePictures meta.length meta = meta.filter fun b => ! isPictureBlock b := by
  have h := removePictures_append meta []
  simpa using h

/-- The function `embedCoverArt` for a cover that is read and decoded. -/
theorem embedCoverArt_ok (w : FlacWorld) (meta : List flac.MetaDataBlock)
    (coverPath : GoString) (imgData picture : List Nat)
    (hread : w.ReadFile coverPath = .ok imgData)
    (hpic : w.NewFromImageData imgData = .ok picture) :
    embedCoverArt w meta coverPath =
      (none, meta.filter (fun b => ! isPictureBlock b) ++
        [{ blockType := .Picture, Data := .raw picture }]) := by
  unfold embedCoverArt
  rw [hread]
  dsimp only
  rw [hpic]
  dsimp only
  rw [removePictures_eq_filter]

/-- C20 (amended): for every FLAC metadata block list with at most one
vorbis-comment block and any number of picture blocks, and an existing
cover file that can be read and of which the picture library makes a
picture block: the list that `EmbedMetadata` saves holds exactly one
vorbis-comment block, the new one, and exactly one picture block, the new
cover, at the end; it is the old list with the new comment block in the
place of the old one (appended when there was none), without the old picture
blocks; the blocks that are neither comment nor picture blocks are kept in
their original order. -/
theorem EmbedMetadata_single_blocks (w : FlacWorld) (filepath : GoString)
    (metadata : Metadata) (coverPath : GoString) (meta : List flac.MetaDataBlock)
    (imgData picture : List Nat)
    (hparse : w.ParseFile filepath = .ok meta)
    (hsave : ∀ blocks, w.Save filepath blocks = none)
    (hone : (meta.filter isCommentBlock).length ≤ 1)
    (hcover : coverPath ≠ [])
    (hexists : w.fileExists coverPath = true)
    (hread : w.ReadFile coverPath = .ok imgData)
    (hpic : w.NewFromImageData imgData = .ok picture) :
    ∃ saved, (EmbedMetadata w filepath metadata coverPath).saved = some saved ∧
      (EmbedMetadata w filepath metadata coverPath).err = none ∧
      saved.filter isCommentBlock = [flacvorbis.Marshal (metadataComment w.Vendor metadata)] ∧
      saved.filter isPictureBlock = [{ blockType := .Picture, Data := .raw picture }] ∧
      (∃ pre post, (∀ b ∈ pre, b.blockType ≠ .VorbisComment) ∧
        ((meta = pre ∧ post = []) ∨
          ∃ old, old.blockType = .VorbisComment ∧ meta = pre ++ old :: post) ∧
        saved = (pre ++ flacvorbis.Marshal (metadataComment w.Vendor metadata) :: post).filter
            (fun b => ! isPictureBlock b) ++
          [{ blockType := .Picture, Data := .raw picture }]) ∧
      saved.filter (fun b => ! isCommentBlock b && ! isPictureBlock b) =
        meta.filter (fun b => ! isCommentBlock b && ! isPictureBlock b) := by
  obtain ⟨pre, post, hpre, hput, hmeta⟩ :=
    putCommentBlock_spec meta (flacvorbis.Marshal (metadataComment w.Vendor metadata))
  have hD : EmbedMetadata w filepath metadata coverPath =
      { err := none,
        saved := some ((pre ++ flacvorbis.Marshal (metadataComment w.Vendor metadata) :: post).filter
            (fun b => ! isPictureBlock b) ++
          [{ blockType := .Picture, Data := .raw picture }]) } := by
    unfold EmbedMetadata
    rw [hparse]
    simp only [hsave, hput]
    rw [if_pos ⟨hcover, hexists⟩, embedCoverArt_ok w _ coverPath imgData picture hread hpic]
  have hprec : pre.filter isCommentBlock = [] := by
    rw [List.filter_eq_nil_iff]
    intro b hb
    simpa [isCommentBlock] using hpre b hb
  have hpostc : post.filter isCommentBlock = [] := by
    rcases hmeta with ⟨_, hp⟩ | ⟨old, hold, hm⟩
    · rw [hp]; rfl
    · rw [hm, List.filter_append, hprec, List.nil_append, List.filter_cons_of_pos
        (by simp [isCommentBlock, hold]), List.length_cons] at hone
      exact List.length_eq_zero.mp (Nat.le_zero.mp (Nat.le_of_succ_le_succ hone))
  have hcomm : ∀ l : List flac.MetaDataBlock,
      (l.filter fun b => ! isPictureBlock b).filter isCommentBlock =
        (l.filter isCommentBlock).filter fun b => ! isPictureBlock b := by
    intro l
    rw [List.filter_filter, List.filter_filter]
    congr 1
    funext b
    exact Bool.and_comm _ _
  refine ⟨_, by rw [hD], by rw [hD], ?_, ?_, ⟨pre, post, hpre, hmeta, rfl⟩, ?_⟩
  · rw [List.filter_append, hcomm, List.filter_append, hprec, List.nil_append,
      List.filter_cons_of_pos (by simp [isCommentBlock, flacvorbis.Marshal]), hpostc]
    simp [isCommentBlock, isPictureBlock, flacvorbis.Marshal]
  · rw [List.filter_append, List.filter_filter]
    simp [isPictureBlock]
  · rcases hmeta with ⟨hm, hp⟩ | ⟨old, hold, hm⟩
    · subst hp
      rw [hm]
      simp [List.filter_append, List.filter_filter, isCommentBlock, isPictureBlock,
        flacvorbis.Marshal, Bool.and_comm, Bool.and_left_comm]
    · rw [hm]
      simp [List.filter_append, List.filter_filter, isCommentBlock, isPictureBlock,
        flacvorbis.Marshal, hold, Bool.and_comm, Bool.and_left_comm]

/-- C20 (witness): a file with two picture blocks around its comment block,
the title `New`, and a cover of which the library makes the picture block
`[0xAA]`. -/
theorem EmbedMetadata_single_blocks_witness :
    (twoCovers.filter isCommentBlock).length ≤ 1 ∧
    ∃ saved,
      (EmbedMetadata (flacWorld twoCovers (.ok [0xAA])) (lit "song.flac")
        { Metadata.zero with Title := lit "New" } (lit "cover.jpg")).saved = some saved ∧
      (EmbedMetadata (flacWorld twoCovers (.ok [0xAA])) (lit "song.flac")
        { Metadata.zero with Title := lit "New" } (lit "cover.jpg")).err = none ∧
      saved.filter isCommentBlock =
        [flacvorbis.Marshal (metadataComment (flacWorld twoCovers (.ok [0xAA])).Vendor
          { Metadata.zero with Title := lit "New" })] ∧
      saved.filter isPictureBlock = [{ blockType := .Picture, Data := .raw [0xAA] }] ∧
      (∃ pre post, (∀ b ∈ pre, b.blockType ≠ .VorbisComment) ∧
        ((twoCovers = pre ∧ post = []) ∨
          ∃ old, old.blockType = .VorbisComment ∧ twoCovers = pre ++ old :: post) ∧
        saved = (pre ++ flacvorbis.Marshal
            (metadataComment (flacWorld twoCovers (.ok [0xAA])).Vendor
              { Metadata.zero with Title := lit "New" }) :: post).filter
            (fun b => ! isPictureBlock b) ++
          [{ blockType := .Picture, Data := .raw [0xAA] }]) ∧
      saved.filter (fun b => ! isCommentBlock b && ! isPictureBlock b) =
        twoCovers.filter (fun b => ! isCommentBlock b && ! isPictureBlock b) :=
  ⟨by decide,
    EmbedMetadata_single_blocks (flacWorld twoCovers (.ok [0xAA])) (lit "song.flac")
      { Metadata.zero with Title := lit "New" } (lit "cover.jpg") twoCovers [0xFF, 0xD8] [0xAA]
      rfl (fun _ => rfl) (by decide) (by decide) rfl rfl rfl⟩

/-- C20 (counterexample): the file has one comment block and two picture
blocks, and the cover file exists, but the picture library cannot decode
it; the list that `EmbedMetadata` saves still holds the two old picture
blocks, and not the new cover. -/
theorem EmbedMetadata_keeps_old_pictures :
    (twoCovers.filter isCommentBlock).length ≤ 1 ∧
    (flacWorld twoCovers (.error (lit "image: unknown format"))).fileExists (lit "cover.jpg")
      = true ∧
    (EmbedMetadata (flacWorld twoCovers (.error (lit "image: unknown format")))
      (lit "song.flac") { Metadata.zero with Title := lit "New" } (lit "cover.jpg")).saved =
      some [streamInfoBlock, pictureBlock [1],
        { blockType := .VorbisComment,
          Data := .comments (lit "flacvorbis 0.1.0") [lit "TITLE=New"] },
        pictureBlock [2]] := by
  decide

/-! ## The defaults of the orchestrator (claims C21 and C27) -/

theorem fillCopyright_settings (t : TrackData) (req : DownloadRequest) :
    (fillCopyright t req).Service = req.Service ∧
    (fillCopyright t req).OutputDir = req.OutputDir ∧
    (fillCopyright t req).AudioFormat = req.AudioFormat ∧
    (fillCopyright t req).FilenameFormat = req.FilenameFormat := by
  unfold fillCopyright; split_ifs <;> exact ⟨rfl, rfl, rfl, rfl⟩

theorem fillPublisher_settings (t : TrackData) (req : DownloadRequest) :
    (fillPublisher t req).Service = req.Service ∧
    (fillPublisher t req).OutputDir = req.OutputDir ∧
    (fillPublisher t req).AudioFormat = req.AudioFormat ∧
    (fillPublisher t req).FilenameFormat = req.FilenameFormat := by
  unfold fillPublisher; split_ifs <;> exact ⟨rfl, rfl, rfl, rfl⟩

theorem fillTotalDiscs_settings (t : TrackData) (req : DownloadRequest) :
    (fillTotalDiscs t req).Service = req.Service ∧
    (fillTotalDiscs t req).OutputDir = req.OutputDir ∧
    (fillTotalDiscs t req).AudioFormat = req.AudioFormat ∧
    (fillTotalDiscs t req).FilenameFormat = req.FilenameFormat := by
  unfold fillTotalDiscs; split_ifs <;> exact ⟨rfl, rfl, rfl, rfl⟩

theorem fillTotalTracks_settings (t : TrackData) (req : DownloadRequest) :
    (fillTotalTracks t req).Service = req.Service ∧
    (fillTotalTracks t req).OutputDir = req.OutputDir ∧
    (fillTotalTracks t req).AudioFormat = req.AudioFormat ∧
    (fillTotalTracks t req).FilenameFormat = req.FilenameFormat := by
  unfold fillTotalTracks; split_ifs <;> exact ⟨rfl, rfl, rfl, rfl⟩

theorem fillTrackNumber_settings (t : TrackData) (req : DownloadRequest) :
    (fillTrackNumber t req).Service = req.Service ∧
    (fillTrackNumber t req).OutputDir = req.OutputDir ∧
    (fillTrackNumber t req).AudioFormat = req.AudioFormat ∧
    (fillTrackNumber t req).FilenameFormat = req.FilenameFormat := by
  unfold fillTrackNumber; split_ifs <;> exact ⟨rfl, rfl, rfl, rfl⟩

theorem fillReleaseDate_settings (t : TrackData) (req : DownloadRequest) :
    (fillReleaseDate t req).Service = req.Service ∧
    (fillReleaseDate t req).OutputDir = req.OutputDir ∧
    (fillReleaseDate t req).AudioFormat = req.AudioFormat ∧
    (fillReleaseDate t req).FilenameFormat = req.FilenameFormat := by
  unfold fillReleaseDate; split_ifs <;> exact ⟨rfl, rfl, rfl, rfl⟩

theorem fillFrom_settings (req : DownloadRequest) (t : TrackData) :
    (fillFrom req t).Service = req.Service ∧
    (fillFrom req t).OutputDir = req.OutputDir ∧
    (fillFrom req t).AudioFormat = req.AudioFormat ∧
    (fillFrom req t).FilenameFormat = req.FilenameFormat := by
  unfold fillFrom
  refine ⟨?_, ?_, ?_, ?_⟩
  · rw [(fillReleaseDate_settings _ _).1, (fillTrackNumber_settings _ _).1,
      (fillTotalTracks_settings _ _).1, (fillTotalDiscs_settings _ _).1,
      (fillPublisher_settings _ _).1, (fillCopyright_settings _ _).1]
  · rw [(fillReleaseDate_settings _ _).2.1, (fillTrackNumber_settings _ _).2.1,
      (fillTotalTracks_settings _ _).2.1, (fillTotalDiscs_settings _ _).2.1,
      (fillPublisher_settings _ _).2.1, (fillCopyright_settings _ _).2.1]
  · rw [(fillReleaseDate_settings _ _).2.2.1, (fillTrackNumber_settings _ _).2.2.1,
      (fillTotalTracks_settings _ _).2.2.1, (fillTotalDiscs_settings _ _).2.2.1,
      (fillPublisher_settings _ _).2.2.1, (fillCopyright_settings _ _).2.2.1]
  · rw [(fillReleaseDate_settings _ _).2.2.2, (fillTrackNumber_settings _ _).2.2.2,
      (fillTotalTracks_settings _ _).2.2.2, (fillTotalDiscs_settings _ _).2.2.2,
      (fillPublisher_settings _ _).2.2.2, (fillCopyright_settings _ _).2.2.2]

/-- The metadata fetch leaves the service, the output directory, the audio
format and the filename template as they are. -/
theorem backfilled_settings (env : Env) (req : DownloadRequest) :
    (backfilled env req).Service = req.Service ∧
    (backfilled env req).OutputDir = req.OutputDir ∧
    (backfilled env req).AudioFormat = req.AudioFormat ∧
    (backfilled env req).FilenameFormat = req.FilenameFormat := by
  unfold backfilled
  split_ifs
  · split
    · exact fillFrom_settings _ _
    · exact ⟨rfl, rfl, rfl, rfl⟩
  · exact ⟨rfl, rfl, rfl, rfl⟩

theorem defaultService_settings (req : DownloadRequest) :
    (defaultService req).Service = orDefault req.Service (lit "tidal") ∧
    (defaultService req).OutputDir = req.OutputDir ∧
    (defaultService req).AudioFormat = req.AudioFormat ∧
    (defaultService req).FilenameFormat = req.FilenameFormat := by
  unfold defaultService orDefault; split_ifs <;> exact ⟨rfl, rfl, rfl, rfl⟩

theorem defaultOutputDir_settings (env : Env) (req : DownloadRequest) :
    (defaultOutputDir env req).Service = req.Service ∧
    (req.OutputDir = [] → (defaultOutputDir env req).OutputDir = lit ".") ∧
    (defaultOutputDir env req).AudioFormat = req.AudioFormat ∧
    (defaultOutputDir env req).FilenameFormat = req.FilenameFormat := by
  unfold defaultOutputDir
  split_ifs with h <;>
    first
    | exact ⟨rfl, fun _ => rfl, rfl, rfl⟩
    | exact ⟨rfl, fun h0 => absurd h0 h, rfl, rfl⟩

theorem defaultAudioFormat_settings (req : DownloadRequest) :
    (defaultAudioFormat req).Service = req.Service ∧
    (defaultAudioFormat req).OutputDir = req.OutputDir ∧
    (defaultAudioFormat req).AudioFormat = orDefault req.AudioFormat (lit "LOSSLESS") ∧
    (defaultAudioFormat req).FilenameFormat = req.FilenameFormat := by
  unfold defaultAudioFormat orDefault; split_ifs <;> exact ⟨rfl, rfl, rfl, rfl⟩

theorem defaultFilenameFormat_settings (req : DownloadRequest) :
    (defaultFilenameFormat req).Service = req.Service ∧
    (defaultFilenameFormat req).OutputDir = req.OutputDir ∧
    (defaultFilenameFormat req).AudioFormat = req.AudioFormat ∧
    (defaultFilenameFormat req).FilenameFormat =
      orDefault req.FilenameFormat (lit "title-artist") := by
  unfold defaultFilenameFormat orDefault; split_ifs <;> exact ⟨rfl, rfl, rfl, rfl⟩

/-- The defaults, field by field. -/
theorem applyDefaults_settings (env : Env) (req : DownloadRequest) :
    (applyDefaults env req).Service = orDefault req.Service (lit "tidal") ∧
    (applyDefaults env req).AudioFormat = orDefault req.AudioFormat (lit "LOSSLESS") ∧
    (applyDefaults env req).FilenameFormat = orDefault req.FilenameFormat (lit "title-artist") ∧
    (req.OutputDir = [] → (applyDefaults env req).OutputDir = lit ".") := by
  unfold applyDefaults
  obtain ⟨a1, a2, a3, a4⟩ := defaultService_settings req
  obtain ⟨b1, b2, b3, b4⟩ := defaultOutputDir_settings env (defaultService req)
  obtain ⟨c1, c2, c3, c4⟩ := defaultAudioFormat_settings (defaultOutputDir env (defaultService req))
  obtain ⟨d1, d2, d3, d4⟩ := defaultFilenameFormat_settings
    (defaultAudioFormat (defaultOutputDir env (defaultService req)))
  refine ⟨by rw [d1, c1, b1, a1], by rw [d3, c3, b3, a3], by rw [d4, c4, b4, a4], ?_⟩
  intro h
  rw [d2, c2]
  exact b2 (a2.trans h)

/-- The request at the existence check and at the strategy call carries the
defaults. -/
theorem preparedRequest_settings (env : Env) (req : DownloadRequest) :
    (preparedRequest env req).Service = orDefault req.Service (lit "tidal") ∧
    (preparedRequest env req).AudioFormat = orDefault req.AudioFormat (lit "LOSSLESS") ∧
    (preparedRequest env req).FilenameFormat =
      orDefault req.FilenameFormat (lit "title-artist") ∧
    (req.OutputDir = [] → (preparedRequest env req).OutputDir = lit ".") := by
  unfold preparedRequest
  obtain ⟨b1, b2, b3, b4⟩ := backfilled_settings env (applyDefaults env req)
  obtain ⟨a1, a2, a3, a4⟩ := applyDefaults_settings env req
  exact ⟨b1.trans a1, b3.trans a2, b4.trans a3, fun h => b2.trans (a4 h)⟩

/-- The arguments of the strategy call are the fields of the request. -/
theorem strategyCallOf_settings (env : Env) (req : DownloadRequest) (spotifyURL : GoString)
    (call : StrategyCall) (h : strategyCallOf env req spotifyURL = some call)
    (hfmt : req.AudioFormat ≠ []) :
    call.service = req.Service ∧ call.outputDir = req.OutputDir ∧
    call.filenameFormat = req.FilenameFormat ∧
    (call.quality = some req.AudioFormat ∨
      call.quality = none ∧ call.service = lit "deezer") := by
  unfold strategyCallOf at h
  split_ifs at h with h1 h2 h3 h4 h5 h6 h7 h8 <;>
    (simp only [Option.some.injEq] at h; subst h
     simp [StrategyCall.service, StrategyCall.outputDir, StrategyCall.filenameFormat,
       StrategyCall.quality, hfmt, *])

/-- The strategy call in the trace of a run is the call of the `switch` for
the request after the defaults and the metadata fetch. -/
theorem DownloadTrack_strategy_call (env : Env) (fs : FS) (req : DownloadRequest)
    (call : StrategyCall) :
    Event.strategy call ∈ (DownloadTrack env fs req).trace →
    ∃ spotifyURL, strategyCallOf env (preparedRequest env req) spotifyURL = some call := by
  suffices hs : ∀ o, DownloadTrack env fs req = o → Event.strategy call ∈ o.trace →
      ∃ spotifyURL, strategyCallOf env (preparedRequest env req) spotifyURL = some call from
    hs _ rfl
  intro o ho
  unfold DownloadTrack at ho
  by_cases hq : req.Service = lit "qobuz" ∧ req.SpotifyID = []
  · rw [if_pos hq] at ho
    subst ho
    intro h; simp at h
  rw [if_neg hq] at ho
  lift_lets at ho
  extract_lets req1 itemID trace0 spotifyURL trace1 req2 expectedPath checked trace2 trace3
    src at ho
  have h0 : Event.strategy call ∉ trace0 := by
    simp only [trace0]
    split_ifs <;> simp
  have h1 : Event.strategy call ∉ trace1 := by
    simp only [trace1]
    split_ifs <;> simp [h0]
  have h2 : Event.strategy call ∉ trace2 := by
    simp only [trace2]
    split_ifs <;> simp [h1]
  have h3 : Event.strategy call ∉ trace3 := by
    simp only [trace3, sideFetchEvents]
    split_ifs <;> simp [h2]
  clear_value trace0 trace1 trace2 trace3
  split at ho
  · subst ho
    intro h; simp [h2] at h
  split at ho
  · subst ho
    intro h; simp [h3] at h
  · rename_i c hc
    lift_lets at ho
    extract_lets trace4 r at ho
    have h4 : Event.strategy call ∈ trace4 → call = c := by
      simp only [trace4]
      split_ifs <;> simp [h3]
    intro h
    have hcc : call = c := by
      apply h4
      rw [← ho] at h
      revert h
      split
      · exact strategy_mem_failureEnd _ _ _ _ _
      · exact strategy_mem_successEnd _ _ _ _ _ _
    subst hcc
    exact ⟨spotifyURL, hc⟩

/-- The end of a run keeps the events passed before it. -/
theorem mem_successEnd_of_mem (env : Env) (req : DownloadRequest) (itemID : GoString)
    (trace : List Event) (r : StrategyResult) (e : Event) (h : e ∈ trace) :
    e ∈ (successEnd env req itemID trace r).trace := by
  unfold successEnd
  simp only [List.mem_append]
  exact Or.inl (Or.inl (Or.inl h))

/-- The end of a failed run keeps the events passed before it. -/
theorem mem_failureEnd_of_mem (itemID : GoString) (trace : List Event) (r : StrategyResult)
    (err : GoString) (e : Event) (h : e ∈ trace) :
    e ∈ (failureEnd itemID trace r err).trace := by
  unfold failureEnd
  simp only [List.mem_append]
  exact Or.inl (Or.inl (Or.inl h))

/-- A run for a request with the names of the track and the artist, other
than a Qobuz request without Spotify ID, makes the existence check at the
path of the request after the defaults and the metadata fetch. -/
theorem DownloadTrack_stat_mem (env : Env) (fs : FS) (req : DownloadRequest)
    (hq : ¬ (req.Service = lit "qobuz" ∧ req.SpotifyID = []))
    (ht : req.TrackName ≠ []) (ha : req.ArtistName ≠ []) :
    Event.Stat (env.Join (preparedRequest env req).OutputDir
      (expectedFilenameOf (preparedRequest env req))) ∈ (DownloadTrack env fs req).trace := by
  suffices hs : ∀ o, DownloadTrack env fs req = o →
      Event.Stat (env.Join (preparedRequest env req).OutputDir
        (expectedFilenameOf (preparedRequest env req))) ∈ o.trace from hs _ rfl
  intro o ho
  obtain ⟨d1, d2, _⟩ := applyDefaults_names env req
  obtain ⟨b1, b2⟩ := backfilled_names env (applyDefaults env req)
  unfold DownloadTrack at ho
  rw [if_neg hq] at ho
  lift_lets at ho
  extract_lets req1 itemID trace0 spotifyURL trace1 req2 expectedPath checked trace2 trace3
    src at ho
  have hchk : checked = true := by
    simp only [checked, req2, req1]
    rw [b1, b2, d1, d2]
    simp [ht, ha]
  have h2 : Event.Stat expectedPath ∈ trace2 := by
    simp only [trace2]
    rw [if_pos hchk]
    simp
  have h3 : Event.Stat expectedPath ∈ trace3 := by
    simp only [trace3]
    exact List.mem_append_left _ h2
  clear_value trace0 trace1 trace2 trace3
  split at ho
  · subst ho
    exact List.mem_append_left _ h2
  split at ho
  · subst ho
    exact List.mem_append_left _ h3
  · lift_lets at ho
    extract_lets trace4 r at ho
    have h4 : Event.Stat expectedPath ∈ trace4 := by
      simp only [trace4]
      split_ifs <;> simp [h3]
    rw [← ho]
    split
    · exact mem_failureEnd_of_mem _ _ _ _ _ h4
    · exact mem_successEnd_of_mem _ _ _ _ _ _ h4

theorem orDefault_ne_nil (value fallback : GoString) (h : fallback ≠ []) :
    orDefault value fallback ≠ [] := by
  unfold orDefault
  split_ifs with h0
  · exact h
  · exact h0

/-- C21: the request that `DownloadTrack` works with after its defaults has
the service `tidal` for an empty service, the audio format `LOSSLESS` for an
empty audio format, the filename template `title-artist` for an empty
template and the output directory `.` for an empty output directory, and a
non-empty service, audio format or template as given.  Every provider
strategy that a run calls is the strategy of that service and receives that
output directory, that audio format as its quality (the Deezer strategy
takes no quality) and that template; and the existence check of a run, made
for a request with track and artist names, looks at the path built from
that output directory and that template. -/
theorem DownloadTrack_defaults (env : Env) (fs : FS) (req : DownloadRequest) :
    ((preparedRequest env req).Service = orDefault req.Service (lit "tidal") ∧
      (preparedRequest env req).AudioFormat = orDefault req.AudioFormat (lit "LOSSLESS") ∧
      (preparedRequest env req).FilenameFormat =
        orDefault req.FilenameFormat (lit "title-artist") ∧
      (req.OutputDir = [] → (preparedRequest env req).OutputDir = lit ".")) ∧
    (∀ call, Event.strategy call ∈ (DownloadTrack env fs req).trace →
      (∃ spotifyURL, strategyCallOf env (preparedRequest env req) spotifyURL = some call) ∧
      call.service = orDefault req.Service (lit "tidal") ∧
      (call.quality = some (orDefault req.AudioFormat (lit "LOSSLESS")) ∨
        call.quality = none ∧ call.service = lit "deezer") ∧
      call.filenameFormat = orDefault req.FilenameFormat (lit "title-artist") ∧
      call.outputDir = (preparedRequest env req).OutputDir ∧
      (req.OutputDir = [] → call.outputDir = lit ".")) ∧
    (¬ (req.Service = lit "qobuz" ∧ req.SpotifyID = []) → req.TrackName ≠ [] →
      req.ArtistName ≠ [] →
      Event.Stat (env.Join (preparedRequest env req).OutputDir
        (BuildExpectedFilename (preparedRequest env req).TrackName
          (preparedRequest env req).ArtistName (preparedRequest env req).AlbumName
          (preparedRequest env req).AlbumArtist (preparedRequest env req).ReleaseDate
          (orDefault req.FilenameFormat (lit "title-artist"))
          (preparedRequest env req).PlaylistName (preparedRequest env req).PlaylistOwner
          (preparedRequest env req).TrackNumber (preparedRequest env req).Position
          (preparedRequest env req).SpotifyDiscNumber
          (preparedRequest env req).UseAlbumTrackNumber)) ∈ (DownloadTrack env fs req).trace) := by
  obtain ⟨p1, p2, p3, p4⟩ := preparedRequest_settings env req
  refine ⟨⟨p1, p2, p3, p4⟩, ?_, ?_⟩
  · intro call hcall
    obtain ⟨spotifyURL, hc⟩ := DownloadTrack_strategy_call env fs req call hcall
    have hfmt : (preparedRequest env req).AudioFormat ≠ [] := by
      rw [p2]
      exact orDefault_ne_nil _ _ (by decide)
    obtain ⟨s1, s2, s3, s4⟩ := strategyCallOf_settings env _ spotifyURL call hc hfmt
    refine ⟨⟨spotifyURL, hc⟩, s1.trans p1, ?_, s3.trans p3, s2, fun h => s2.trans (p4 h)⟩
    rw [← p2]
    exact s4
  · intro hq ht ha
    have h := DownloadTrack_stat_mem env fs req hq ht ha
    unfold expectedFilenameOf at h
    rw [p3] at h
    exact h

/-- C21 (witness): a request with the names of a track and nothing else is
passed to the Tidal strategy with the output directory `.`, the quality
`LOSSLESS` and the template `title-artist`. -/
theorem DownloadTrack_defaults_witness :
    Event.strategy (.TidalDownload [] [] (lit ".") (lit "LOSSLESS") (lit "title-artist")
      (preparedRequest (envReturning (lit "a.flac")) bareRequest) []) ∈
      (DownloadTrack (envReturning (lit "a.flac")) emptyFS bareRequest).trace ∧
    orDefault bareRequest.Service (lit "tidal") = lit "tidal" ∧
    (StrategyCall.TidalDownload [] [] (lit ".") (lit "LOSSLESS") (lit "title-artist")
      (preparedRequest (envReturning (lit "a.flac")) bareRequest) []).service =
      orDefault bareRequest.Service (lit "tidal") :=
  ⟨.tail _ (.tail _ (.tail _ (.tail _ (.tail _ (.tail _ (.head _)))))), by decide,
    (((DownloadTrack_defaults (envReturning (lit "a.flac")) emptyFS bareRequest).2.1
      (.TidalDownload [] [] (lit ".") (lit "LOSSLESS") (lit "title-artist")
        (preparedRequest (envReturning (lit "a.flac")) bareRequest) [])
      (.tail _ (.tail _ (.tail _ (.tail _ (.tail _ (.tail _ (.head _)))))))).2.1)⟩

/-- C27 (code bug): a Qobuz request leaves the audio format unset.  The
claim has `DownloadTrack` pass the quality `6` to the Qobuz strategy, and
the code has the step for it (`if quality == "" { quality = "6" }`, app.go
lines 398 to 400); but the audio format was set to `LOSSLESS` before (lines
245 to 247), so the one strategy call of the run is the Qobuz call with the
quality `LOSSLESS`, which `GetDownloadURL` does not replace either. -/
theorem DownloadTrack_qobuz_quality_unset :
    qobuzRequest.AudioFormat = [] ∧
    ((DownloadTrack (envReturning (lit "a.flac")) emptyFS qobuzRequest).trace.filterMap
        Event.call?).map (fun call => (call.service, call.quality)) =
      [(lit "qobuz", some (lit "LOSSLESS"))] ∧
    QobuzDownloader.qualityCode (lit "LOSSLESS") = lit "LOSSLESS" := by
  decide

/-! ## The rate limiter of the resolver (claims C22 and C23) -/

/-- The window reset keeps the instant of the last call. -/
theorem resetWindow_last (s : SongLinkClient) (now : Int) :
    (s.resetWindow now).lastAPICallTime = s.lastAPICallTime := by
  unfold SongLinkClient.resetWindow
  split_ifs <;> rfl

/-- The duration between two instants in their order is not negative and
not above their difference. -/
theorem time_Sub_of_le (t u : Int) (h : u ≤ t) :
    0 ≤ time.Sub t u ∧ time.Sub t u ≤ t - u ∧
      (time.Sub t u < 7 * time.Second → time.Sub t u = t - u) := by
  unfold time.Sub time.Second
  split_ifs <;> refine ⟨?_, ?_, ?_⟩ <;> omega

/-- The pause for the spacing: the first request of a call is sent no
earlier than the instant `now` of the call, and no earlier than 7 seconds
after the last call that came before `now`. -/
theorem spacing_bound (last : Option Int) (now clock1 : Int) (e : Nat) (h1 : now ≤ clock1) :
    now ≤ (if (last.isSome && decide ((match last with
              | some t => time.Sub now t
              | none => 0) < 7 * time.Second)) = true then
            clock1 + max (wrap64 (7 * time.Second - (match last with
              | some t => time.Sub now t
              | none => 0))) 0
          else clock1) + (e : Int) ∧
    ∀ t0, last = some t0 → t0 ≤ now → t0 + 7 * time.Second ≤
      (if (last.isSome && decide ((match last with
              | some t => time.Sub now t
              | none => 0) < 7 * time.Second)) = true then
            clock1 + max (wrap64 (7 * time.Second - (match last with
              | some t => time.Sub now t
              | none => 0))) 0
          else clock1) + (e : Int) := by
  have he : (0 : Int) ≤ (e : Int) := Int.ofNat_nonneg e
  constructor
  · split_ifs
    · have := le_max_right (wrap64 (7 * time.Second - (match last with
              | some t => time.Sub now t
              | none => 0))) 0
      omega
    · omega
  · intro t0 hl ht
    subst hl
    obtain ⟨s1, s2, s3⟩ := time_Sub_of_le now t0 ht
    simp only [Option.isSome_some, Bool.true_and, decide_eq_true_eq]
    split_ifs with hlt
    · have hw : wrap64 (7 * time.Second - time.Sub now t0) = 7 * time.Second - time.Sub now t0 := by
        apply wrap64_of_range
        · unfold time.Second at *; omega
        · unfold time.Second at *; omega
      rw [hw, s3 hlt]
      have := le_max_left (7 * time.Second - (now - t0)) 0
      omega
    · unfold time.Second at *
      omega

/-- A call whose request is answered with the status 200 sends one request,
no earlier than the call was made and no earlier than 7 seconds after the
last call before it, and leaves the loop at the instant that it records as
the instant of the last call. -/
theorem GetAllURLsFromSpotify_answered (w : SongLinkWorld) (s : SongLinkClient) (now : Int)
    (hreq : w.NewRequest = none) (hdo : w.Do 0 = .ok 200) :
    ∃ r t, (SongLinkClient.GetAllURLsFromSpotify w s now).sent = [r] ∧
      (SongLinkClient.GetAllURLsFromSpotify w s now).client.lastAPICallTime = some t ∧
      (SongLinkClient.GetAllURLsFromSpotify w s now).clock = t ∧
      (SongLinkClient.GetAllURLsFromSpotify w s now).err = none ∧
      r ≤ t ∧ now ≤ r ∧
      ∀ t0, s.lastAPICallTime = some t0 → t0 ≤ now → t0 + 7 * time.Second ≤ r := by
  suffices hs : ∀ o, SongLinkClient.GetAllURLsFromSpotify w s now = o →
      ∃ r t, o.sent = [r] ∧ o.client.lastAPICallTime = some t ∧ o.clock = t ∧ o.err = none ∧
        r ≤ t ∧ now ≤ r ∧
        ∀ t0, s.lastAPICallTime = some t0 → t0 ≤ now → t0 + 7 * time.Second ≤ r from hs _ rfl
  intro o ho
  unfold SongLinkClient.GetAllURLsFromSpotify at ho
  lift_lets at ho
  extract_lets s1 capWait capped clock1 s2 timeSinceLastCall spaced spaceWait clock2 slept at ho
  rw [hreq] at ho
  simp only [SongLinkClient.attempts, hdo] at ho
  have hlast : s2.lastAPICallTime = s.lastAPICallTime := by
    simp only [s2]
    split_ifs
    · exact resetWindow_last s now
    · exact resetWindow_last s now
  have h1 : now ≤ clock1 := by
    simp only [clock1]
    split_ifs with hc
    · have hpos : capWait > 0 := by
        simp only [capped, Bool.and_eq_true, decide_eq_true_eq] at hc
        exact hc.2
      have := Int.ofNat_nonneg (w.elapsed 0)
      omega
    · exact le_refl _
  obtain ⟨b1, b2⟩ := spacing_bound s2.lastAPICallTime now clock1 (w.elapsed 1) h1
  have he := Int.ofNat_nonneg (w.elapsed (2 + 2 * 0))
  subst ho
  refine ⟨clock2, clock2 + w.elapsed (2 + 2 * 0), ?_, ?_, ?_, ?_, ?_, b1, ?_⟩
  · simp
  · simp
  · simp
  · simp
  · omega
  · intro t0 ht0 hle
    exact b2 t0 (hlast.trans ht0) hle

/-- In a run of calls that are all answered with the status 200, made on a
client whose last call was at `t0`, the request of the last call of the run
is sent at least 7 seconds after `t0` and 7 more seconds later for each call
of the run before it. -/
theorem runCalls_last_sent :
    ∀ (calls : List (Nat × SongLinkWorld)) (s : SongLinkClient) (clock t0 lower : Int),
      calls ≠ [] → s.lastAPICallTime = some t0 → t0 ≤ clock → lower ≤ t0 + 7 * time.Second →
      (∀ c ∈ calls, c.2.NewRequest = none ∧ c.2.Do 0 = .ok 200) →
      ∃ r, (runCalls calls s clock).getLast?.map (fun o => o.sent) = some [r] ∧
        lower + 7 * time.Second * ((calls.length : Int) - 1) ≤ r := by
  intro calls
  induction calls with
  | nil => intro s clock t0 lower h; exact absurd rfl h
  | cons c rest ih =>
    intro s clock t0 lower _ hlast hle hlow hup
    obtain ⟨gap, w⟩ := c
    obtain ⟨hreq, hdo⟩ := hup (gap, w) (List.mem_cons_self _ _)
    obtain ⟨r, t, hsent, hl, hclock, _, hrt, hnow, hsp⟩ :=
      GetAllURLsFromSpotify_answered w s (clock + gap) hreq hdo
    have hgap := Int.ofNat_nonneg gap
    have hr : t0 + 7 * time.Second ≤ r := hsp t0 hlast (by omega)
    cases rest with
    | nil =>
      refine ⟨r, ?_, ?_⟩
      · simp [runCalls, hsent]
      · simp only [List.length_singleton, Nat.cast_one, sub_self, mul_zero, add_zero]
        omega
    | cons c2 rest2 =>
      obtain ⟨r2, h1, h2⟩ := ih (SongLinkClient.GetAllURLsFromSpotify w s (clock + gap)).client
        (SongLinkClient.GetAllURLsFromSpotify w s (clock + gap)).clock t
        (r + 7 * time.Second) (List.cons_ne_nil _ _) hl (le_of_eq hclock.symm)
        (by omega) (fun c hc => hup c (List.mem_cons_of_mem _ hc))
      refine ⟨r2, ?_, ?_⟩
      · rw [← h1]
        simp only [runCalls]
        rw [List.getLast?_cons_cons]
      · simp only [List.length_cons, Nat.cast_add, Nat.cast_one] at h2 ⊢
        unfold time.Second at *
        omega

/-- C22: for one resolver, whatever its state, and an upstream that answers
every request with the status 200: in every run of 10 consecutive calls of
`GetAllURLsFromSpotify`, each made at or after the return of the one before
it, with any non-negative time passing in the calls besides their pauses,
each of the first and the tenth call sends one request, and the request of
the tenth call is sent at least 60 seconds after that of the first. -/
theorem GetAllURLsFromSpotify_tenth_call (calls : List (Nat × SongLinkWorld))
    (s : SongLinkClient) (clock : Int)
    (hlen : calls.length = 10)
    (hup : ∀ c ∈ calls, c.2.NewRequest = none ∧ ∀ i, c.2.Do i = .ok 200) :
    ∃ r1 r10,
      ((runCalls calls s clock).map fun o => o.sent).get? 0 = some [r1] ∧
      ((runCalls calls s clock).map fun o => o.sent).get? 9 = some [r10] ∧
      r1 + time.Minute ≤ r10 := by
  match calls, hlen, hup with
  | (gap, w) :: rest, hlen, hup =>
    obtain ⟨hreq, hdo⟩ := hup (gap, w) (List.mem_cons_self _ _)
    obtain ⟨r, t, hsent, hl, hclock, _, hrt, hnow, hsp⟩ :=
      GetAllURLsFromSpotify_answered w s (clock + gap) hreq (hdo 0)
    have hrl : rest.length = 9 := by simpa using hlen
    have hne : rest ≠ [] := by
      intro h; rw [h] at hrl; simp at hrl
    obtain ⟨r10, h1, h2⟩ := runCalls_last_sent rest
      (SongLinkClient.GetAllURLsFromSpotify w s (clock + gap)).client
      (SongLinkClient.GetAllURLsFromSpotify w s (clock + gap)).clock t
      (r + 7 * time.Second) hne hl (le_of_eq hclock.symm) (by omega)
      (fun c hc => ⟨(hup c (List.mem_cons_of_mem _ hc)).1, (hup c (List.mem_cons_of_mem _ hc)).2 0⟩)
    have hlen2 : ∀ (cs : List (Nat × SongLinkWorld)) (s0 : SongLinkClient) (c0 : Int),
        (runCalls cs s0 c0).length = cs.length := by
      intro cs
      induction cs with
      | nil => intro s0 c0; rfl
      | cons c cs ih => intro s0 c0; obtain ⟨g, w0⟩ := c; simp [runCalls, ih]
    refine ⟨r, r10, ?_, ?_, ?_⟩
    · simp [runCalls, hsent]
    · rw [← h1]
      simp only [runCalls, List.map_cons, List.get?_cons_succ]
      rw [List.getLast?_eq_getElem?, hlen2, hrl, List.get?_eq_getElem?, List.getElem?_map]
    · rw [hrl] at h2
      unfold time.Minute
      unfold time.Second at *
      norm_num at h2 ⊢
      omega

/-- C22 (witness): ten calls made one right after the other on a new
client, with an upstream that answers at once. -/
theorem GetAllURLsFromSpotify_tenth_call_witness :
    ∃ r1 r10,
      ((runCalls (List.replicate 10 (0, upstreamAnswering 200)) (NewSongLinkClient 0) 0).map
        fun o => o.sent).get? 0 = some [r1] ∧
      ((runCalls (List.replicate 10 (0, upstreamAnswering 200)) (NewSongLinkClient 0) 0).map
        fun o => o.sent).get? 9 = some [r10] ∧
      r1 + time.Minute ≤ r10 :=
  GetAllURLsFromSpotify_tenth_call (List.replicate 10 (0, upstreamAnswering 200))
    (NewSongLinkClient 0) 0 rfl
    (fun c hc => by rw [List.eq_of_mem_replicate hc]; exact ⟨rfl, fun _ => rfl⟩)

/-- The retry loop with an upstream that answers every request with the
status 429. -/
theorem attempts_all_429 (elapsed : Nat → Nat) (s : SongLinkClient) (clock : Int)
    (slept : List Int) :
    (SongLinkClient.attempts { NewRequest := none, Do := fun _ => .ok 429, elapsed := elapsed }
      3 3 0 s clock [] slept).sent.length = 3 ∧
    (SongLinkClient.attempts { NewRequest := none, Do := fun _ => .ok 429, elapsed := elapsed }
      3 3 0 s clock [] slept).err = some (lit "API rate limit exceeded after 3 retries") ∧
    (SongLinkClient.attempts { NewRequest := none, Do := fun _ => .ok 429, elapsed := elapsed }
      3 3 0 s clock [] slept).slept = slept ++ [15 * time.Second, 15 * time.Second] := by
  have hd : fmt.d ((3 : Nat) : Int) = lit "3" := by decide
  refine ⟨?_, ?_, ?_⟩
  · simp [SongLinkClient.attempts]
  · simp only [SongLinkClient.attempts]
    simp only [if_true, Nat.reduceSub, Nat.lt_irrefl, if_false, Nat.reduceLT, Nat.reduceAdd, hd]
    decide
  · simp [SongLinkClient.attempts]

/-- C23 (code bug): the upstream answers every request with the status 429.
The claim has the call send the initial request and 3 retries before it
gives up, and the error text of the code says `after 3 retries`; the loop
`for i := 0; i < maxRetries; i++` with `maxRetries := 3` counts the initial
request as one of the three attempts: whatever the state of the client and
the instant of the call, it sends 3 requests, the initial one and 2
retries, pauses 15 seconds twice after at most two pauses of the rate
limiter, and returns `API rate limit exceeded after 3 retries`. -/
theorem GetAllURLsFromSpotify_two_retries (s : SongLinkClient) (now : Int)
    (elapsed : Nat → Nat) :
    (SongLinkClient.GetAllURLsFromSpotify
      { NewRequest := none, Do := fun _ => .ok 429, elapsed := elapsed } s now).sent.length = 3 ∧
    (SongLinkClient.GetAllURLsFromSpotify
      { NewRequest := none, Do := fun _ => .ok 429, elapsed := elapsed } s now).err =
      some (lit "API rate limit exceeded after 3 retries") ∧
    (∃ pauses, (SongLinkClient.GetAllURLsFromSpotify
      { NewRequest := none, Do := fun _ => .ok 429, elapsed := elapsed } s now).slept =
        pauses ++ [15 * time.Second, 15 * time.Second] ∧ pauses.length ≤ 2) ∧
    (SongLinkClient.GetAllURLsFromSpotify (upstreamAnswering 429) (NewSongLinkClient 0) 0).sent =
      [0, 15000000000, 30000000000] := by
  suffices hs : ∀ o, SongLinkClient.GetAllURLsFromSpotify
        { NewRequest := none, Do := fun _ => .ok 429, elapsed := elapsed } s now = o →
      o.sent.length = 3 ∧ o.err = some (lit "API rate limit exceeded after 3 retries") ∧
        ∃ pauses, o.slept = pauses ++ [15 * time.Second, 15 * time.Second] ∧
          pauses.length ≤ 2 from
    ⟨(hs _ rfl).1, (hs _ rfl).2.1, (hs _ rfl).2.2, by decide⟩
  intro o ho
  unfold SongLinkClient.GetAllURLsFromSpotify at ho
  lift_lets at ho
  extract_lets s1 capWait capped clock1 s2 timeSinceLastCall spaced spaceWait clock2 slept at ho
  simp only at ho
  obtain ⟨a1, a2, a3⟩ := attempts_all_429 elapsed s2 clock2 slept
  subst ho
  refine ⟨a1, a2, slept, a3, ?_⟩
  simp only [slept]
  split_ifs <;> simp

/-! ## The external programs (claim C24) -/

/-- The function `ValidateExecutable` succeeds only for a path that, once
cleaned, is absolute, is a file and not a directory, and has one of the
four names as its base name. -/
theorem ValidateExecutable_sound (os : OSWorld) (path : GoString)
    (h : ValidateExecutable os path = none) :
    os.IsAbs (os.Clean path) = true ∧
    (∃ info, os.Stat (os.Clean path) = .ok info ∧ info.IsDir = false) ∧
    (os.Base (os.Clean path) = lit "ffmpeg" ∨ os.Base (os.Clean path) = lit "ffmpeg.exe" ∨
      os.Base (os.Clean path) = lit "ffprobe" ∨ os.Base (os.Clean path) = lit "ffprobe.exe") := by
  unfold ValidateExecutable at h
  simp only at h
  by_cases h1 : os.Clean path = []
  · rw [if_pos h1] at h; cases h
  rw [if_neg h1] at h
  by_cases h2 : (! os.IsAbs (os.Clean path)) = true
  · rw [if_pos h2] at h; cases h
  rw [if_neg h2] at h
  cases hs : os.Stat (os.Clean path) with
  | error err => rw [hs] at h; cases h
  | ok info =>
    rw [hs] at h
    simp only at h
    by_cases h3 : info.IsDir = true
    · rw [if_pos h3] at h; cases h
    rw [if_neg h3] at h
    by_cases h4 : os.GOOS ≠ lit "windows" ∧ info.Mode &&& 0o111 = 0
    · rw [if_pos h4] at h; cases h
    rw [if_neg h4] at h
    by_cases h5 : os.Base (os.Clean path) = lit "ffmpeg" ∨
        os.Base (os.Clean path) = lit "ffmpeg.exe" ∨
        os.Base (os.Clean path) = lit "ffprobe" ∨ os.Base (os.Clean path) = lit "ffprobe.exe"
    · exact ⟨by simpa using h2, ⟨info, rfl, by simpa using h3⟩, h5⟩
    · rw [if_neg h5] at h; cases h

/-- The transcoding step of the Tidal download runs no command before
`ValidateExecutable` succeeded for its path. -/
theorem TidalDownloader_convert_validated (os : OSWorld) (tempPath outputPath : GoString) :
    validatedFirst [] (TidalDownloader.convert os tempPath outputPath).1 = true := by
  unfold TidalDownloader.convert
  simp only
  split
  · rfl
  · split
    · rfl
    · split <;> simp [validatedFirst]

/-- C24 (code bug): on a system where the entry `ffprobe` of the directory of
the application is a directory, `GetFFprobePath` returns its path without
error and `ValidateExecutable` refuses it; the decryption step of the Amazon
download runs the command with this path for the codec probe at once,
without a call of `ValidateExecutable` before it, and validates only the
path of `ffmpeg` afterwards.  The transcoding step of the Tidal download,
and the decryption itself, validate the path before they run it. -/
theorem AmazonDownloader_probe_not_validated :
    GetFFprobePath brokenProbe = (lit "/home/u/.spotiflac/ffprobe", none) ∧
    ValidateExecutable brokenProbe (lit "/home/u/.spotiflac/ffprobe") =
      some (lit "path is a directory: /home/u/.spotiflac/ffprobe") ∧
    (AmazonDownloader.decrypt brokenProbe (lit "out/B000000001.m4a") (lit "B000000001.m4a")
      (lit "out") (lit "00112233")).1 =
      [ExecEvent.invoke (lit "/home/u/.spotiflac/ffprobe")
          [lit "-v", lit "quiet", lit "-select_streams", lit "a:0", lit "-show_entries",
            lit "stream=codec_name", lit "-of", lit "default=noprint_wrappers=1:nokey=1",
            lit "out/B000000001.m4a"],
        ExecEvent.validate (lit "/home/u/.spotiflac/ffmpeg") true,
        ExecEvent.invoke (lit "/home/u/.spotiflac/ffmpeg")
          [lit "-decryption_key", lit "00112233", lit "-i", lit "out/B000000001.m4a", lit "-c",
            lit "copy", lit "-y", lit "out/dec_B000000001.m4a.m4a"]] ∧
    validatedFirst [] (AmazonDownloader.decrypt brokenProbe (lit "out/B000000001.m4a")
      (lit "B000000001.m4a") (lit "out") (lit "00112233")).1 = false ∧
    validatedFirst [] (TidalDownloader.convert brokenProbe (lit "out/a.m4a.tmp")
      (lit "out/a.flac")).1 = true := by
  decide

/-! ## The completion signals of the side fetches (claim C25) -/

/-- Only the events on the signals matter for the waits. -/
theorem waitsReturn_filter (events : List Event) :
    ∀ lyrics isrc, waitsReturn lyrics isrc events =
      waitsReturn lyrics isrc (events.filter Event.isSignal) := by
  induction events with
  | nil => intro lyrics isrc; rfl
  | cons e rest ih =>
    intro lyrics isrc
    cases e <;> simp only [List.filter, Event.isSignal, waitsReturn] <;>
      first
      | exact ih _ _
      | (split <;> first | exact ih _ _ | rfl)

theorem fillCopyright_spotifyID (t : TrackData) (req : DownloadRequest) :
    (fillCopyright t req).SpotifyID = req.SpotifyID := by
  unfold fillCopyright; split_ifs <;> rfl

theorem fillPublisher_spotifyID (t : TrackData) (req : DownloadRequest) :
    (fillPublisher t req).SpotifyID = req.SpotifyID := by
  unfold fillPublisher; split_ifs <;> rfl

theorem fillTotalDiscs_spotifyID (t : TrackData) (req : DownloadRequest) :
    (fillTotalDiscs t req).SpotifyID = req.SpotifyID := by
  unfold fillTotalDiscs; split_ifs <;> rfl

theorem fillTotalTracks_spotifyID (t : TrackData) (req : DownloadRequest) :
    (fillTotalTracks t req).SpotifyID = req.SpotifyID := by
  unfold fillTotalTracks; split_ifs <;> rfl

theorem fillTrackNumber_spotifyID (t : TrackData) (req : DownloadRequest) :
    (fillTrackNumber t req).SpotifyID = req.SpotifyID := by
  unfold fillTrackNumber; split_ifs <;> rfl

theorem fillReleaseDate_spotifyID (t : TrackData) (req : DownloadRequest) :
    (fillReleaseDate t req).SpotifyID = req.SpotifyID := by
  unfold fillReleaseDate; split_ifs <;> rfl

/-- The metadata fetch leaves the Spotify ID as it is. -/
theorem backfilled_spotifyID (env : Env) (req : DownloadRequest) :
    (backfilled env req).SpotifyID = req.SpotifyID := by
  unfold backfilled
  split_ifs
  · split
    · unfold fillFrom
      rw [fillReleaseDate_spotifyID, fillTrackNumber_spotifyID, fillTotalTracks_spotifyID,
        fillTotalDiscs_spotifyID, fillPublisher_spotifyID, fillCopyright_spotifyID]
    · rfl
  · rfl

/-- A request for Qobuz that passes the first test of `DownloadTrack` has a
Spotify ID when the strategy is chosen. -/
theorem preparedRequest_qobuz (env : Env) (req : DownloadRequest)
    (hq : ¬ (req.Service = lit "qobuz" ∧ req.SpotifyID = []))
    (h : (preparedRequest env req).Service = lit "qobuz") :
    (preparedRequest env req).SpotifyID ≠ [] := by
  have hs := (preparedRequest_settings env req).1
  have hid : (preparedRequest env req).SpotifyID = req.SpotifyID := by
    unfold preparedRequest
    rw [backfilled_spotifyID, (applyDefaults_names env req).2.2]
  rw [hid]
  intro h0
  apply hq
  refine ⟨?_, h0⟩
  rw [hs] at h
  unfold orDefault at h
  split_ifs at h with he
  · exact absurd h (by decide)
  · exact h

/-- The signal events of the set-up are all its events. -/
theorem sideFetchEvents_filter (req : DownloadRequest) :
    (sideFetchEvents req).filter Event.isSignal = sideFetchEvents req := by
  unfold sideFetchEvents
  split_ifs <;> rfl

/-- The end of a failed run has no events on the signals. -/
theorem failureEnd_signals (itemID : GoString) (trace : List Event) (r : StrategyResult)
    (err : GoString) :
    (failureEnd itemID trace r err).trace.filter Event.isSignal =
      trace.filter Event.isSignal := by
  unfold failureEnd
  simp only [List.filter_append]
  split_ifs
  · split <;> simp [List.filter, Event.isSignal]
  · simp [List.filter, Event.isSignal]

/-- The end of a run has one event on the signals: the wait for the lyrics,
made only for a request with a Spotify ID that asks for the lyrics, or the
poll. -/
theorem successEnd_signals (env : Env) (req : DownloadRequest) (itemID : GoString)
    (trace : List Event) (r : StrategyResult) :
    ∃ tail, (successEnd env req itemID trace r).trace.filter Event.isSignal =
        trace.filter Event.isSignal ++ tail ∧
      (tail = [Event.pollLyrics] ∨
        tail = [Event.receiveLyrics] ∧ req.SpotifyID ≠ [] ∧ req.EmbedLyrics = true) := by
  unfold successEnd
  simp only [List.filter_append]
  split_ifs <;>
    first
    | (refine ⟨[Event.pollLyrics], ?_, Or.inl rfl⟩
       simp [List.filter, Event.isSignal]
       done)
    | (refine ⟨[Event.receiveLyrics], ?_, Or.inr ⟨rfl, ?_, ?_⟩⟩
       · simp [List.filter, Event.isSignal]
       · simp_all
       · simp_all)

/-- The waits of a run after the set-up of the signals return. -/
theorem waitsReturn_after_setup (req : DownloadRequest) (tail : List Event)
    (hisrc : Event.receiveIsrc ∈ tail → req.SpotifyID ≠ [])
    (hlyr : Event.receiveLyrics ∈ tail → req.SpotifyID ≠ [] ∧ req.EmbedLyrics = true)
    (htail : tail = [] ∨ tail = [Event.receiveIsrc] ∨ tail = [Event.pollLyrics] ∨
      tail = [Event.receiveLyrics] ∨ tail = [Event.receiveIsrc, Event.pollLyrics] ∨
      tail = [Event.receiveIsrc, Event.receiveLyrics]) :
    waitsReturn .idle .idle (sideFetchEvents req ++ tail) = true := by
  unfold sideFetchEvents
  rcases htail with h | h | h | h | h | h <;> subst h
  · split_ifs <;> rfl
  · have := hisrc (by simp)
    rw [if_pos this]
    split_ifs <;> rfl
  · split_ifs <;> rfl
  · obtain ⟨h1, h2⟩ := hlyr (by simp)
    rw [if_pos h1, if_pos h2]
    rfl
  · have := hisrc (by simp)
    rw [if_pos this]
    split_ifs <;> rfl
  · obtain ⟨h1, h2⟩ := hlyr (by simp)
    rw [if_pos h1, if_pos h2]
    rfl

/-- C25: in every run of `DownloadTrack`, whatever the request and the
outside world, every blocking receive on the lyrics signal or on the ISRC
signal comes after the start of the producer of that signal, which sends
exactly one value, with no receive on the signal in between, or after the
close of the signal: no receive of the run waits on a signal that has no
producer and is not closed, or whose one value was taken before.  Each
producer sends exactly one value on each of its paths.  (A receive without
producer or close, and a second receive of the one value, count as waits
that do not return.) -/
theorem DownloadTrack_waits_return (env : Env) (fs : FS) (req : DownloadRequest) :
    waitsReturn .idle .idle (DownloadTrack env fs req).trace = true ∧
    (∀ err lines lrc, (lyricsProducer err lines lrc).length = 1) ∧
    (∀ isrc, (isrcProducer isrc).length = 1) ∧
    waitsReturn .idle .idle [Event.receiveLyrics] = false ∧
    waitsReturn .idle .idle [Event.goGetISRC, Event.receiveIsrc, Event.receiveIsrc] = false := by
  refine ⟨?_, ?_, fun _ => rfl, rfl, rfl⟩
  swap
  · intro err lines lrc
    unfold lyricsProducer
    split_ifs <;> rfl
  suffices hs : ∀ o, DownloadTrack env fs req = o →
      waitsReturn .idle .idle (o.trace.filter Event.isSignal) = true by
    rw [waitsReturn_filter]
    exact hs _ rfl
  intro o ho
  unfold DownloadTrack at ho
  by_cases hq : req.Service = lit "qobuz" ∧ req.SpotifyID = []
  · rw [if_pos hq] at ho
    subst ho
    rfl
  rw [if_neg hq] at ho
  have hqobuz := preparedRequest_qobuz env req hq
  unfold preparedRequest at hqobuz
  lift_lets at ho
  extract_lets req1 itemID trace0 spotifyURL trace1 req2 expectedPath checked trace2 trace3
    src at ho
  have h0 : trace0.filter Event.isSignal = [] := by
    simp only [trace0]
    split_ifs <;> rfl
  have h1 : trace1.filter Event.isSignal = [] := by
    simp only [trace1]
    split_ifs
    · rw [List.filter_append, h0]; rfl
    · exact h0
  have h2 : trace2.filter Event.isSignal = [] := by
    simp only [trace2]
    split_ifs
    · rw [List.filter_append, h1]; rfl
    · exact h1
  have h3 : trace3.filter Event.isSignal = sideFetchEvents req2 := by
    simp only [trace3]
    rw [List.filter_append, h2, sideFetchEvents_filter, List.nil_append]
  clear_value trace0 trace1 trace2 trace3
  split at ho
  · subst ho
    simp only [List.filter_append, h2]
    rfl
  split at ho
  · subst ho
    simp only [List.filter_append, h3]
    have := waitsReturn_after_setup req2 [] (by simp) (by simp) (Or.inl rfl)
    simpa [List.filter, Event.isSignal] using this
  · rename_i c hc
    lift_lets at ho
    extract_lets trace4 r at ho
    have h4 : ∃ t4, trace4.filter Event.isSignal = sideFetchEvents req2 ++ t4 ∧
        (t4 = [] ∨ t4 = [Event.receiveIsrc] ∧ req2.SpotifyID ≠ []) := by
      simp only [trace4]
      split_ifs with hsvc
      · refine ⟨[Event.receiveIsrc], ?_, Or.inr ⟨rfl, hqobuz hsvc⟩⟩
        simp only [List.filter_append, h3]
        simp [List.filter, Event.isSignal]
      · refine ⟨[], ?_, Or.inl rfl⟩
        simp only [List.filter_append, h3]
        simp [List.filter, Event.isSignal]
    obtain ⟨t4, ht4, hcase⟩ := h4
    clear_value trace4
    subst ho
    split
    · rw [failureEnd_signals, ht4]
      rcases hcase with h | ⟨h, hid⟩ <;> subst h
      · exact waitsReturn_after_setup req2 [] (by simp) (by simp) (Or.inl rfl)
      · exact waitsReturn_after_setup req2 _ (fun _ => hid) (by simp) (Or.inr (Or.inl rfl))
    · obtain ⟨tail, htail, hl⟩ := successEnd_signals env req2 itemID trace4 r
      rw [htail, ht4, List.append_assoc]
      rcases hcase with h | ⟨h, hid⟩ <;> rcases hl with h5 | ⟨h5, hl1, hl2⟩ <;> subst h <;>
        subst h5
      · exact waitsReturn_after_setup req2 _ (by simp) (by simp) (Or.inr (Or.inr (Or.inl rfl)))
      · exact waitsReturn_after_setup req2 _ (by simp) (fun _ => ⟨hl1, hl2⟩)
          (Or.inr (Or.inr (Or.inr (Or.inl rfl))))
      · exact waitsReturn_after_setup req2 _ (fun _ => hid) (by simp)
          (Or.inr (Or.inr (Or.inr (Or.inr (Or.inl rfl)))))
      · exact waitsReturn_after_setup req2 _ (fun _ => hid) (fun _ => ⟨hl1, hl2⟩)
          (Or.inr (Or.inr (Or.inr (Or.inr (Or.inr rfl)))))

/-! ## The first artist (claim C26) -/

set_option maxRecDepth 100000 in
/-- C26 (code bug): the artist string is four times the letter U+023A and
`, B`, 11 bytes of valid UTF-8.  Its lower-cased copy has 15 bytes, because
the lower case U+2C65 takes three bytes, and holds the delimiter `, ` at
index 12; `GetFirstArtist` slices the original string with this index,
which is above its length, and panics.  With plain letters the function
returns the first artist. -/
theorem GetFirstArtist_index_out_of_range :
    strokeArtist.length = 11 ∧
    utf8.ValidString strokeArtist = true ∧
    rangeRunes strokeArtist = [0x23A, 0x23A, 0x23A, 0x23A, 44, 32, 66] ∧
    (strings.ToLower lowerStroke strokeArtist).length = 15 ∧
    strings.Index (strings.ToLower lowerStroke strokeArtist) (lit ", ") = 12 ∧
    GetFirstArtist lowerStroke strokeArtist =
      .error (lit "runtime error: slice bounds out of range [:12] with length 11") ∧
    GetFirstArtist lowerStroke (lit "Alpha, Beta") = .ok (lit "Alpha") :=
  ⟨by decide, by decide, by decide, by decide, by decide, rfl, rfl⟩

/-! ## The folder path and the double sanitizing (claims C28 and C29) -/

/-- C28 (code bug): `SanitizeFolderPath` keeps a part only when its
sanitized name is not empty (`if sanitized != ""`, filename.go line 163),
but `SanitizeFilename` returns `Unknown` for an empty name, so an empty
part is never dropped: with the separator `/`, the path `out/` gives
`out/Unknown` and not `out`, as `SanitizeFolderPath("out")` does, and the
doubled separator of `a//b` adds the component `Unknown`. -/
theorem SanitizeFolderPath_keeps_empty_parts :
    SanitizeFilename [] = lit "Unknown" ∧
    SanitizeFolderPath (lit "/") (lit "out") = lit "out" ∧
    SanitizeFolderPath (lit "/") (lit "out/") = lit "out/Unknown" ∧
    SanitizeFolderPath (lit "/") (lit "a/b") = lit "a/b" ∧
    SanitizeFolderPath (lit "/") (lit "a//b") = lit "a/Unknown/b" := by
  decide

/-- C29 (code bug): `SanitizeFilename("_.a")` is `.a`, and
`SanitizeFilename(".a")` is `a`: the function is not idempotent, because the
dots are trimmed before the underscores (filename.go lines 100 and 108) and
the second trim can lay a dot bare.  The playlist name `_.a`, sanitized
once and then again inside `SanitizeFolderPath`, gives the folder `out/a`,
where one sanitizing gives `.a`. -/
theorem SanitizeFilename_not_idempotent :
    SanitizeFilename (lit "_.a") = lit ".a" ∧
    SanitizeFilename (SanitizeFilename (lit "_.a")) = lit "a" ∧
    SanitizeFolderPath (lit "/") (lit "out/" ++ SanitizeFilename (lit "_.a")) = lit "out/a" := by
  decide

/-! ## The LRC timestamps (claim C30) -/

/-- The verb `%02d` for a number that is not negative gives decimal digits,
at least one, that denote the number. -/
theorem d02_digits (p : Int) (hp : 0 ≤ p) :
    fmt.d02 p ≠ [] ∧ (∀ b ∈ fmt.d02 p, 48 ≤ b ∧ b ≤ 57) ∧
      (decimalValue (fmt.d02 p) : Int) = p := by
  obtain ⟨n, rfl⟩ := Int.eq_ofNat_of_zero_le hp
  unfold fmt.d02 fmt.d
  simp only [Int.natAbs_ofNat]
  have hne : decimal n ≠ [] := by
    have := decimalAux_length (n + 1) n [] (by omega)
    intro h
    unfold decimal at h
    rw [h] at this
    simp at this
  by_cases h10 : n < 10
  · rw [if_pos ⟨by omega, by exact_mod_cast h10⟩]
    refine ⟨List.cons_ne_nil _ _, ?_, ?_⟩
    · intro b hb
      rcases List.mem_cons.1 hb with h | h
      · subst h; omega
      · exact decimal_digits n b h
    · have hv := decimal_value n
      unfold decimalValue at hv ⊢
      simp only [List.foldl_cons]
      rw [show 10 * 0 + (48 - 48) = 0 by rfl, hv]
  · rw [if_neg (by intro h; exact h10 (by exact_mod_cast h.2)),
      if_neg (by omega)]
    exact ⟨hne, decimal_digits n, by rw [decimal_value]⟩

/-- The verb `%d` for a number that is not negative gives decimal digits, at
least one, that denote the number. -/
theorem d_digits (p : Int) (hp : 0 ≤ p) :
    fmt.d p ≠ [] ∧ (∀ b ∈ fmt.d p, 48 ≤ b ∧ b ≤ 57) ∧ (decimalValue (fmt.d p) : Int) = p := by
  obtain ⟨n, rfl⟩ := Int.eq_ofNat_of_zero_le hp
  unfold fmt.d
  simp only [Int.natAbs_ofNat]
  rw [if_neg (by omega)]
  refine ⟨?_, decimal_digits n, by rw [decimal_value]⟩
  have := decimalAux_length (n + 1) n [] (by omega)
  intro h
  unfold decimal at h
  rw [h] at this
  simp at this

/-- The scan of `%d` on decimal digits that are followed by no digit: the
number they denote, when it fits the type, and what follows. -/
theorem scanInt_digits (digits rest : List Nat) (hne : digits ≠ [])
    (hd : ∀ b ∈ digits, 48 ≤ b ∧ b ≤ 57)
    (hrest : ∀ r, rest.head? = some r → fmt.isDigitRune r = false)
    (hfit : (decimalValue digits : Int) ≤ 2 ^ 63 - 1) :
    fmt.scanInt (digits ++ rest) = some ((decimalValue digits : Int), rest) := by
  obtain ⟨d, t, rfl⟩ := List.exists_cons_of_ne_nil hne
  have hd0 := hd d (List.mem_cons_self _ _)
  have hskip : fmt.SkipSpace (d :: t ++ rest) = some (d :: t ++ rest) := by
    have hsp : ¬ unicode.IsSpace d = true := by
      unfold unicode.IsSpace
      simp only [Bool.or_eq_true, decide_eq_true_eq, Bool.and_eq_true, not_or, not_and]
      omega
    simp only [List.cons_append, fmt.SkipSpace]
    rw [if_neg (by omega), if_neg hsp]
    rfl
  have hdig : ∀ b ∈ d :: t, fmt.isDigitRune b = true := by
    intro b hb
    have := hd b hb
    unfold fmt.isDigitRune
    simp only [Bool.and_eq_true, decide_eq_true_eq]
    exact this
  have hrest0 : rest.takeWhile fmt.isDigitRune = [] ∧ rest.dropWhile fmt.isDigitRune = rest := by
    cases rest with
    | nil => exact ⟨rfl, rfl⟩
    | cons r rs =>
      have := hrest r rfl
      simp [List.takeWhile, List.dropWhile, this]
  have htake : (d :: t ++ rest).takeWhile fmt.isDigitRune = d :: t := by
    rw [List.takeWhile_append_of_pos hdig, hrest0.1, List.append_nil]
  have hdrop : (d :: t ++ rest).dropWhile fmt.isDigitRune = rest := by
    rw [List.dropWhile_append_of_pos hdig, hrest0.2]
  have hnn : (0 : Int) ≤ (decimalValue (d :: t) : Int) := Int.ofNat_nonneg _
  unfold fmt.scanInt
  rw [hskip]
  dsimp only
  have hsigned : fmt.scanInt.match_1 (fun _ => Bool × List Nat) (d :: t ++ rest)
      (fun t => (false, t)) (fun t => (true, t)) (fun _ => (false, d :: t ++ rest)) =
      (false, d :: t ++ rest) := by
    unfold fmt.scanInt.match_1
    simp only [List.cons_append]
    rw [dif_neg (by omega), dif_neg (by omega)]
  rw [hsigned]
  dsimp only
  rw [htake, hdrop, if_neg (List.cons_ne_nil _ _)]
  simp only [Bool.false_eq_true, if_false, Int.ofNat_eq_coe]
  rw [if_neg (by omega)]

/-- Decimal digits are ASCII. -/
theorem rangeRunes_digits (s : GoString) (h : ∀ b ∈ s, 48 ≤ b ∧ b ≤ 57) : rangeRunes s = s :=
  rangeRunes_of_ascii s fun b hb => by have := h b hb; omega

/-- The scan of the decimal form of a number of the type `int64` that is
not negative gives the number. -/
theorem Sscanf_d_decimal (ms : Int) (h0 : 0 ≤ ms) (h1 : ms ≤ 2 ^ 63 - 1) :
    fmt.Sscanf_d (fmt.d ms) = ms := by
  obtain ⟨hne, hd, hv⟩ := d_digits ms h0
  unfold fmt.Sscanf_d
  rw [rangeRunes_digits _ hd]
  have := scanInt_digits (fmt.d ms) [] hne hd (by simp) (by rw [hv]; exact h1)
  rw [List.append_nil] at this
  rw [this, hv]

/-- The scan of a timestamp `mm:ss.cc` written with the verb `%02d` gives
the three numbers. -/
theorem Sscanf_timestamp_written (m s c : Int) (hm : 0 ≤ m) (hs : 0 ≤ s) (hc : 0 ≤ c)
    (hm1 : m ≤ 2 ^ 63 - 1) (hs1 : s ≤ 2 ^ 63 - 1) (hc1 : c ≤ 2 ^ 63 - 1) :
    fmt.Sscanf_timestamp (fmt.d02 m ++ lit ":" ++ fmt.d02 s ++ lit "." ++ fmt.d02 c) =
      (3, m, s, c) := by
  obtain ⟨mne, md, mv⟩ := d02_digits m hm
  obtain ⟨sne, sd, sv⟩ := d02_digits s hs
  obtain ⟨cne, cd, cv⟩ := d02_digits c hc
  have hcolon : lit ":" = [58] := by decide
  have hdot : lit "." = [46] := by decide
  have hascii : ∀ b ∈ fmt.d02 m ++ lit ":" ++ fmt.d02 s ++ lit "." ++ fmt.d02 c, b < 0x80 := by
    intro b hb
    rw [hcolon, hdot] at hb
    simp only [List.mem_append, List.mem_singleton] at hb
    rcases hb with (((hb | hb) | hb) | hb) | hb
    · have := md b hb; omega
    · omega
    · have := sd b hb; omega
    · omega
    · have := cd b hb; omega
  have hshape : fmt.d02 m ++ lit ":" ++ fmt.d02 s ++ lit "." ++ fmt.d02 c =
      fmt.d02 m ++ 58 :: (fmt.d02 s ++ 46 :: (fmt.d02 c ++ [])) := by
    rw [hcolon, hdot]
    simp
  have e1 := scanInt_digits (fmt.d02 m) (58 :: (fmt.d02 s ++ 46 :: (fmt.d02 c ++ []))) mne md
    (by intro r hr; simp only [List.head?_cons, Option.some.injEq] at hr; subst hr; decide)
    (by rw [mv]; exact hm1)
  have e2 := scanInt_digits (fmt.d02 s) (46 :: (fmt.d02 c ++ [])) sne sd
    (by intro r hr; simp only [List.head?_cons, Option.some.injEq] at hr; subst hr; decide)
    (by rw [sv]; exact hs1)
  have e3 := scanInt_digits (fmt.d02 c) [] cne cd (by simp) (by rw [cv]; exact hc1)
  unfold fmt.Sscanf_timestamp
  rw [rangeRunes_of_ascii _ hascii, hshape, e1]
  simp only [e2, e3, mv, sv, cv]

/-- The text between the brackets of what `msToLRCTimestamp` writes. -/
theorem betweenBrackets_written (body : GoString) :
    betweenBrackets (lit "[" ++ body ++ lit "]") = body := by
  have h1 : lit "[" = [91] := by decide
  have h2 : lit "]" = [93] := by decide
  unfold betweenBrackets
  rw [h1, h2]
  simp [List.dropLast_concat]

/-- C30 (amended): for every millisecond value `ms` of the type `int64` that
is not negative, 0 ≤ ms ≤ 9223372036854775807: `msToLRCTimestamp` of the
decimal form of `ms` is a text in brackets, and `lrcTimestampToMs` and
`parseLRCTimestamp` of the text between the brackets both give
`ms - ms mod 10`. -/
theorem msToLRCTimestamp_roundtrip (ms : Int) (h0 : 0 ≤ ms) (h1 : ms ≤ 9223372036854775807) :
    (∃ body, msToLRCTimestamp (fmt.d ms) = lit "[" ++ body ++ lit "]") ∧
    lrcTimestampToMs (betweenBrackets (msToLRCTimestamp (fmt.d ms))) = ms - ms % 10 ∧
    parseLRCTimestamp (betweenBrackets (msToLRCTimestamp (fmt.d ms))) = ms - ms % 10 := by
  have h63 : (2 : Int) ^ 63 - 1 = 9223372036854775807 := by norm_num
  have hscan := Sscanf_d_decimal ms h0 (by rw [h63]; exact h1)
  have t1 : ms.tdiv 1000 = ms / 1000 := Int.tdiv_eq_ediv h0 (by norm_num)
  have t2 : (ms / 1000).tdiv 60 = ms / 1000 / 60 :=
    Int.tdiv_eq_ediv (by omega) (by norm_num)
  have t3 : (ms / 1000).tmod 60 = ms / 1000 % 60 :=
    Int.tmod_eq_emod (by omega) (by norm_num)
  have t4 : ms.tmod 1000 = ms % 1000 := Int.tmod_eq_emod h0 (by norm_num)
  have t5 : (ms % 1000).tdiv 10 = ms % 1000 / 10 :=
    Int.tdiv_eq_ediv (by omega) (by norm_num)
  have hw : msToLRCTimestamp (fmt.d ms) =
      lit "[" ++ (fmt.d02 (ms / 1000 / 60) ++ lit ":" ++ fmt.d02 (ms / 1000 % 60) ++ lit "." ++
        fmt.d02 (ms % 1000 / 10)) ++ lit "]" := by
    unfold msToLRCTimestamp
    simp only [hscan, t1, t2, t3, t4, t5, List.append_assoc]
  have hts := Sscanf_timestamp_written (ms / 1000 / 60) (ms / 1000 % 60) (ms % 1000 / 10)
    (by omega) (by omega) (by omega) (by rw [h63]; omega) (by rw [h63]; omega)
    (by rw [h63]; omega)
  have hval : wrap64 (ms / 1000 / 60 * 60 * 1000 + ms / 1000 % 60 * 1000 + ms % 1000 / 10 * 10) =
      ms - ms % 10 := by
    rw [wrap64_of_range _ (by omega) (by omega)]
    omega
  refine ⟨⟨_, hw⟩, ?_, ?_⟩
  · rw [hw, betweenBrackets_written]
    unfold lrcTimestampToMs
    rw [hts]
    simp only [ge_iff_le, Nat.reduceLeDiff, if_true]
    exact hval
  · rw [hw, betweenBrackets_written]
    unfold parseLRCTimestamp
    rw [hts]
    simp only [ge_iff_le, Nat.reduceLeDiff, if_true]
    exact hval

/-- C30 (witness): 83456 milliseconds are written as `[01:23.45]` and read
back as 83450. -/
theorem msToLRCTimestamp_roundtrip_witness :
    msToLRCTimestamp (fmt.d 83456) = lit "[01:23.45]" ∧
    lrcTimestampToMs (betweenBrackets (msToLRCTimestamp (fmt.d 83456))) = 83456 - 83456 % 10 ∧
    parseLRCTimestamp (betweenBrackets (msToLRCTimestamp (fmt.d 83456))) = 83456 - 83456 % 10 :=
  ⟨by decide, (msToLRCTimestamp_roundtrip 83456 (by decide) (by decide)).2⟩

/-- C30 (counterexample): the millisecond value 9223372036854775808 is not
negative; its decimal form does not fit the type `int64`, so `Sscanf`
leaves `ms` at 0 and `msToLRCTimestamp` writes `[00:00.00]`, which is read
back as 0 and not as 9223372036854775800. -/
theorem msToLRCTimestamp_beyond_int64 :
    (0 : Int) ≤ 9223372036854775808 ∧
    fmt.d 9223372036854775808 = lit "9223372036854775808" ∧
    msToLRCTimestamp (fmt.d 9223372036854775808) = lit "[00:00.00]" ∧
    lrcTimestampToMs (betweenBrackets (msToLRCTimestamp (fmt.d 9223372036854775808))) = 0 ∧
    parseLRCTimestamp (betweenBrackets (msToLRCTimestamp (fmt.d 9223372036854775808))) = 0 ∧
    (9223372036854775808 : Int) - 9223372036854775808 % 10 = 9223372036854775800 := by
  decide

end SpotiFLAC
